import Mathlib

/-!
# orc-cli: port-specification parsing, port-set building and scanning

A shallow embedding of the two command-line tools of the repository,
`scanner-ip/main.go` and `scanner-port/main.go`.

* Go strings are modelled as lists of Unicode code points (`Str`).
* Go `int` is 64 bits wide; values are modelled in `Int`. The width matters in
  two places: `strconv.Atoi` checks the 64-bit bounds explicitly, and the sum
  of the durations in `scanPorts` is taken with the 64-bit wrap-around
  (`wrap64`).
* Go's `(value, error)` results are modelled with `Except`.
* The network, the port file and `result.txt` are explicit parameters.
-/

namespace OrcCli

/-- A Go string, as the sequence of its Unicode code points. -/
abbrev Str := List Char

/-! ## The parts of Go's standard library that the tools call -/

namespace unicode

/-- Go's `unicode.IsSpace`: the Unicode White_Space property. -/
def IsSpace (c : Char) : Bool :=
  let n := c.toNat
  (9 ≤ n && n ≤ 13) || n == 32 || n == 0x85 || n == 0xA0 || n == 0x1680 ||
  (0x2000 ≤ n && n ≤ 0x200A) || n == 0x2028 || n == 0x2029 || n == 0x202F ||
  n == 0x205F || n == 0x3000

/-- Go's `unicode.ToLower` on the code points whose lower case is an ASCII
letter: `A`..`Z`, U+0130 (to `i`) and U+212A (to `k`). Every other code point
is left as it is; the ones Unicode does move go to non-ASCII code points, and
the tools only compare the lowered text with the ASCII word `all`. -/
def ToLower (c : Char) : Char :=
  let n := c.toNat
  if 65 ≤ n ∧ n ≤ 90 then Char.ofNat (n + 32)
  else if n = 0x130 then 'i'
  else if n = 0x212A then 'k'
  else c

end unicode

namespace strings

/-- Go's `strings.TrimSpace`: drop leading and trailing white space. -/
def TrimSpace (s : Str) : Str :=
  ((s.dropWhile unicode.IsSpace).reverse.dropWhile unicode.IsSpace).reverse

/-- Go's `strings.ToLower`. -/
def ToLower (s : Str) : Str := s.map unicode.ToLower

/-- Go's `strings.ReplaceAll(s, old, new)` for one-character `old` and `new`. -/
def ReplaceAll (s : Str) (old new : Char) : Str :=
  s.map (fun c => if c = old then new else c)

/-- The scanning loop of `strings.Fields`: `cur` is the field being read. -/
def fieldsFrom : Str → Str → List Str
  | cur, [] => if cur = [] then [] else [cur]
  | cur, c :: cs =>
    if unicode.IsSpace c then
      (if cur = [] then fieldsFrom [] cs else cur :: fieldsFrom [] cs)
    else fieldsFrom (cur ++ [c]) cs

/-- Go's `strings.Fields`: the maximal runs of non-space characters. -/
def Fields (s : Str) : List Str := fieldsFrom [] s

/-- Go's `strings.Contains(s, sub)` for a one-character `sub`. -/
def Contains (s : Str) (sub : Char) : Bool := s.elem sub

/-- The scanning loop of `strings.Split`: `cur` is the piece being read. -/
def splitFrom (sep : Char) : Str → Str → List Str
  | cur, [] => [cur]
  | cur, c :: cs =>
    if c = sep then cur :: splitFrom sep [] cs else splitFrom sep (cur ++ [c]) cs

/-- Go's `strings.Split(s, sep)` for a one-character `sep`: one more piece
than there are separators. -/
def Split (s : Str) (sep : Char) : List Str := splitFrom sep [] s

/-- Go's `strings.Join`. -/
def Join : List Str → Str → Str
  | [], _ => []
  | [a], _ => a
  | a :: b :: rest, sep => a ++ sep ++ Join (b :: rest) sep

/-- Go's `strings.HasPrefix(s, p)` for a one-character `p`. -/
def HasPrefix (s : Str) (p : Char) : Bool :=
  match s with
  | [] => false
  | c :: _ => c == p

end strings

namespace strconv

/-- The largest Go `int` (64 bits). -/
def maxInt : Int := 9223372036854775807

/-- The smallest Go `int` (64 bits). -/
def minInt : Int := -9223372036854775808

/-- The digit loop of `strconv.Atoi`: `n = n*10 + digit`, a syntax error on
any other character. -/
def parseDigits : Str → Nat → Option Nat
  | [], acc => some acc
  | c :: cs, acc =>
    if 48 ≤ c.toNat ∧ c.toNat ≤ 57 then parseDigits cs (acc * 10 + (c.toNat - 48))
    else none

/-- Go's `strconv.Atoi`: an optional sign and one or more decimal digits, the
value within the range of `int`; `none` stands for a non-nil error. -/
def Atoi (s : Str) : Option Int :=
  let neg : Bool := match s with
    | c :: _ => c == '-'
    | [] => false
  let body : Str := match s with
    | c :: r => if c = '-' ∨ c = '+' then r else s
    | [] => s
  if body = [] then none
  else match parseDigits body 0 with
    | none => none
    | some n =>
      let v : Int := if neg then -(n : Int) else (n : Int)
      if minInt ≤ v ∧ v ≤ maxInt then some v else none

/-- Go's `strconv.Itoa`, also what `fmt`'s `%d` prints. -/
def Itoa (i : Int) : Str :=
  match i with
  | Int.ofNat n => Nat.toDigits 10 n
  | Int.negSucc n => '-' :: Nat.toDigits 10 (n + 1)

end strconv

/-! ## Port-specification parsing (`parsePorts`) -/

/-- The errors `parsePorts` and `readPortsFromFile` return, one constructor
for each `fmt.Errorf` call, holding the values the message is formatted with. -/
inductive PortError where
  /-- The message is `invalid port range: %s`. -/
  | invalidPortRange (part : Str)
  /-- The message is `invalid start port: %s`. -/
  | invalidStartPort (s : Str)
  /-- The message is `invalid end port: %s`. -/
  | invalidEndPort (s : Str)
  /-- The message is `start port must be <= end port`. -/
  | startAfterEnd
  /-- The message is `port %d out of range (1-65535)`. -/
  | portOutOfRange (p : Int)
  /-- The message is `invalid port: %s`. -/
  | invalidPort (part : Str)
  /-- The message is `failed to open file: %v`. -/
  | openFailed
  /-- The message is `error reading file: %v`. -/
  | readFailed
  /-- The message is `no ports found in file`. -/
  | noPortsInFile
  deriving DecidableEq, Repr

deriving instance DecidableEq for Except

/-- The error classes the specification names. -/
inductive ErrorKind where
  | InvalidRange | PortOutOfRange | InvalidPort | EmptyFile | IOError
  deriving DecidableEq, Repr

/-- The class of each error, as section 4 of the specification assigns them. -/
def PortError.kind : PortError → ErrorKind
  | .invalidPortRange _ => .InvalidRange
  | .invalidStartPort _ => .InvalidRange
  | .invalidEndPort _ => .InvalidRange
  | .startAfterEnd => .InvalidRange
  | .portOutOfRange _ => .PortOutOfRange
  | .invalidPort _ => .InvalidPort
  | .openFailed => .IOError
  | .readFailed => .IOError
  | .noPortsInFile => .EmptyFile

/-- The loop `for p := start; p <= end; p++` of `parsePorts`, with the number
of iterations left (`end - p + 1`) as the first argument: an out-of-range `p`
returns the error, any other `p` is appended. -/
def rangeLoop : Nat → Int → List Int → Except PortError (List Int)
  | 0, _, ports => .ok ports
  | n + 1, p, ports =>
    if p < 1 ∨ p > 65535 then .error (.portOutOfRange p)
    else rangeLoop n (p + 1) (ports ++ [p])

/-- One iteration of the loop over `parts` in `parsePorts`. -/
def parsePart (part : Str) (ports : List Int) : Except PortError (List Int) :=
  if strings.Contains part '-' then
    match strings.Split part '-' with
    | [r0, r1] =>
      match strconv.Atoi (strings.TrimSpace r0) with
      | none => .error (.invalidStartPort r0)
      | some start =>
        match strconv.Atoi (strings.TrimSpace r1) with
        | none => .error (.invalidEndPort r1)
        | some stop =>
          if start > stop then .error .startAfterEnd
          else rangeLoop (stop - start + 1).toNat start ports
    | _ => .error (.invalidPortRange part)
  else
    match strconv.Atoi (strings.TrimSpace part) with
    | none => .error (.invalidPort part)
    | some port =>
      if port < 1 ∨ port > 65535 then .error (.portOutOfRange port)
      else .ok (ports ++ [port])

/-- The loop `for _, part := range parts` of `parsePorts`. -/
def parseParts : List Str → List Int → Except PortError (List Int)
  | [], ports => .ok ports
  | part :: rest, ports =>
    match parsePart part ports with
    | .error e => .error e
    | .ok ports1 => parseParts rest ports1

/-- The loop `for p := 1; p <= 65535; p++ { ports = append(ports, p) }`, with
the number of iterations left as the first argument. -/
def appendUpTo : Nat → Int → List Int → List Int
  | 0, _, ports => ports
  | n + 1, p, ports => appendUpTo n (p + 1) (ports ++ [p])

/-- All ports, `1` to `65535`, as both loops of `scanner-port` build them. -/
@[irreducible]
def fullRange : List Int := appendUpTo 65535 1 []

namespace ScannerIP

/-- `parsePorts` of `scanner-ip/main.go`. -/
def parsePorts (portStr : Str) : Except PortError (List Int) :=
  let portStr := strings.ReplaceAll portStr ',' ' '
  let parts := strings.Fields portStr
  parseParts parts []

end ScannerIP

namespace ScannerPort

/-- `parsePorts` of `scanner-port/main.go`. -/
def parsePorts (portStr : Str) : Except PortError (List Int) :=
  let portStr := strings.TrimSpace portStr
  if strings.ToLower portStr = "all".toList then .ok fullRange
  else
    let portStr := strings.ReplaceAll portStr ',' ' '
    let parts := strings.Fields portStr
    parseParts parts []

end ScannerPort

/-! ## Port files (`readPortsFromFile`) -/

/-- The port file as the tools see it: whether `os.Open` succeeds, the lines
`bufio.Scanner` yields, and whether `scanner.Err()` is non-nil after them. -/
structure PortFile where
  opens : Bool
  lines : List Str
  scanFails : Bool
  deriving DecidableEq, Repr

/-- The loop of `readPortsFromFile` over the scanned lines: each line is
trimmed, and empty lines and lines that begin with `#` are skipped. -/
def collectLines : List Str → List Str → List Str
  | [], portStrs => portStrs
  | text :: rest, portStrs =>
    let line := strings.TrimSpace text
    if line = [] ∨ strings.HasPrefix line '#' then collectLines rest portStrs
    else collectLines rest (portStrs ++ [line])

namespace ScannerIP

/-- `readPortsFromFile` of `scanner-ip/main.go`. -/
def readPortsFromFile (file : PortFile) : Except PortError (List Int) :=
  if file.opens = false then .error .openFailed
  else
    let portStrs := collectLines file.lines []
    if file.scanFails then .error .readFailed
    else if portStrs.length = 0 then .error .noPortsInFile
    else parsePorts (strings.Join portStrs [' '])

end ScannerIP

namespace ScannerPort

/-- `readPortsFromFile` of `scanner-port/main.go`. -/
def readPortsFromFile (file : PortFile) : Except PortError (List Int) :=
  if file.opens = false then .error .openFailed
  else
    let portStrs := collectLines file.lines []
    if file.scanFails then .error .readFailed
    else if portStrs.length = 0 then .error .noPortsInFile
    else parsePorts (strings.Join portStrs [' '])

end ScannerPort

/-! ## Building the port set (`main`, up to the call of `scanPorts`) -/

/-- The ways `main` leaves with `os.Exit(1)` while it collects the ports. -/
inductive ExitError where
  /-- The message is `Error reading ports from file: %v`. -/
  | readingFile (e : PortError)
  /-- The message is `Error parsing ports: %v`. -/
  | parsingPorts (e : PortError)
  /-- The message is `Error: No valid ports specified`. -/
  | noValidPorts
  deriving DecidableEq, Repr

/-- The state of the loop that removes duplicates: the map `portMap`, as the
list of the keys it holds (each is stored with the value `true`, and an absent
key reads as `false`), and the slice `ports`. -/
structure DedupState where
  portMap : List Int
  ports : List Int
  deriving DecidableEq, Repr

/-- One iteration of the loop that removes duplicates. -/
def dedupStep (st : DedupState) (port : Int) : DedupState :=
  if st.portMap.elem port = false then
    { portMap := port :: st.portMap, ports := st.ports ++ [port] }
  else st

/-- The loop `for _, port := range allPorts` that removes duplicates, the same
in both tools; its result is the slice `ports`. -/
def removeDuplicates (allPorts : List Int) : List Int :=
  (allPorts.foldl dedupStep { portMap := [], ports := [] }).ports

namespace ScannerIP

/-- The block `if *portFile != ""` of `main`: the ports of the port file are
appended to `allPorts`, which is empty before it (`none` stands for an empty
flag `-f`). -/
def portsFromFile (portFile : Option PortFile) : Except ExitError (List Int) :=
  match portFile with
  | none => .ok []
  | some file =>
    match readPortsFromFile file with
    | .error e => .error (.readingFile e)
    | .ok filePorts => .ok ([] ++ filePorts)

/-- The block `if flag.NArg() > 1` of `main`: the positional arguments after
the IP address are joined by spaces and parsed, and the ports appended. -/
def portsFromArgs (args : List Str) (allPorts : List Int) : Except ExitError (List Int) :=
  if args.length > 0 then
    let portStr := strings.Join args [' ']
    match parsePorts portStr with
    | .error e => .error (.parsingPorts e)
    | .ok cmdPorts => .ok (allPorts ++ cmdPorts)
  else .ok allPorts

/-- The ports `main` of `scanner-ip/main.go` hands to `scanPorts`, from the
port file and the positional arguments after the IP address. -/
def buildPorts (portFile : Option PortFile) (args : List Str) :
    Except ExitError (List Int) :=
  match portsFromFile portFile with
  | .error e => .error e
  | .ok allPorts =>
    match portsFromArgs args allPorts with
    | .error e => .error e
    | .ok allPorts =>
      let ports := removeDuplicates allPorts
      if ports.length = 0 then .error .noValidPorts
      else .ok ports

end ScannerIP

/-- The loop of `main` of `scanner-port/main.go` that looks for a range or the
keyword `all` in the lines of the port file, before the file is parsed. -/
def fileHasRangeOrAll : List Str → Bool
  | [] => false
  | text :: rest =>
    let line := strings.TrimSpace text
    if line = [] ∨ strings.HasPrefix line '#' then fileHasRangeOrAll rest
    else if strings.ToLower line = "all".toList ∨ strings.Contains line '-' = true then true
    else fileHasRangeOrAll rest

/-- What `main` of `scanner-port/main.go` has when it calls `scanPorts`: the
ports, the flag `isRangeOrAll`, and (not a variable of the program) whether the
branch `len(allPorts) == 0` that defaults to all ports was taken. -/
structure PortSet where
  ports : List Int
  isRangeOrAll : Bool
  defaulted : Bool
  deriving DecidableEq, Repr

namespace ScannerPort

/-- The block `if *portFile != ""` of `main`: the lines of the file are
searched for a range or `all` if the file opens, then the file is parsed and
its ports appended to `allPorts`, which is empty before it (`none` stands for
an empty flag `-f`). The result is `allPorts` and `isRangeOrAll`. -/
def portsFromFile (portFile : Option PortFile) : Except ExitError (List Int × Bool) :=
  match portFile with
  | none => .ok ([], false)
  | some file =>
    let isRangeOrAll := if file.opens then fileHasRangeOrAll file.lines else false
    match readPortsFromFile file with
    | .error e => .error (.readingFile e)
    | .ok filePorts => .ok ([] ++ filePorts, isRangeOrAll)

/-- The block `if flag.NArg() > 1` of `main`: the positional arguments after
the IP address are joined by spaces and parsed, the ports appended, and
`isRangeOrAll` set if the joined text is `all` or has a hyphen. -/
def portsFromArgs (args : List Str) (allPorts : List Int) (isRangeOrAll : Bool) :
    Except ExitError (List Int × Bool) :=
  if args.length > 0 then
    let originalPortStr := strings.Join args [' ']
    match parsePorts originalPortStr with
    | .error e => .error (.parsingPorts e)
    | .ok cmdPorts =>
      let originalPortStrLower := strings.ToLower (strings.TrimSpace originalPortStr)
      if originalPortStrLower = "all".toList ∨ strings.Contains originalPortStr '-' = true
      then .ok (allPorts ++ cmdPorts, true)
      else .ok (allPorts ++ cmdPorts, isRangeOrAll)
  else .ok (allPorts, isRangeOrAll)

/-- The rest of `main` up to the call of `scanPorts`: the default to all
ports when `allPorts` is empty, the removal of duplicates, and the exit when no
port is left. -/
def finishPorts (allPorts : List Int) (isRangeOrAll : Bool) : Except ExitError PortSet :=
  let defaulted : Bool := allPorts.length = 0
  let allPorts := if defaulted then appendUpTo 65535 1 allPorts else allPorts
  let isRangeOrAll := if defaulted then true else isRangeOrAll
  let ports := removeDuplicates allPorts
  if ports.length = 0 then .error .noValidPorts
  else .ok { ports := ports, isRangeOrAll := isRangeOrAll, defaulted := defaulted }

/-- The ports and the flag `isRangeOrAll` that `main` of
`scanner-port/main.go` builds, from the port file and the positional arguments
after the IP address. -/
def buildPorts (portFile : Option PortFile) (args : List Str) :
    Except ExitError PortSet :=
  match portsFromFile portFile with
  | .error e => .error e
  | .ok fromFile =>
    match portsFromArgs args fromFile.1 fromFile.2 with
    | .error e => .error e
    | .ok fromArgs => finishPorts fromArgs.1 fromArgs.2

end ScannerPort

/-! ## Scanning (`tcping`, `scanPorts`) -/

/-- The value of a Go `int64` (a `time.Duration`) computed by an addition that
overflows: the sum is taken modulo `2^64` into `[-2^63, 2^63)`. -/
def wrap64 (x : Int) : Int :=
  (x + 9223372036854775808) % 18446744073709551616 - 9223372036854775808

/-- The field `Status` of a `ScanResult`. -/
inductive Status where
  | SUCCESS | FAILED
  deriving DecidableEq, Repr

/-- The struct `ScanResult`; `Duration` in nanoseconds. -/
structure ScanResult where
  IP : Str
  Port : Int
  Status : Status
  Duration : Int
  Error : Option Str
  deriving DecidableEq, Repr

/-- What `net.DialTimeout` and the clock do for one probe: whether the
connection was made, the nanoseconds elapsed, and the error text otherwise. -/
structure Dial where
  connected : Bool
  elapsed : Int
  err : Str
  deriving DecidableEq, Repr

/-- The network during one run: the outcome of the `k`-th probe of the run
(from 0) when it dials the given port. -/
abbrev Network := Nat → Int → Dial

/-- The function `tcping`, the same in both tools, as the `k`-th probe. -/
def tcping (net : Network) (k : Nat) (ip : Str) (port : Int) : ScanResult :=
  let dial := net k port
  if dial.connected = false then
    { IP := ip, Port := port, Duration := dial.elapsed, Status := .FAILED,
      Error := some dial.err }
  else
    { IP := ip, Port := port, Duration := dial.elapsed, Status := .SUCCESS, Error := none }

/-- The file `result.txt` behind an open handle: its content, and whether
writes to it succeed. -/
structure File where
  content : Str
  writable : Bool
  deriving DecidableEq, Repr

/-- The method `WriteString` on a file opened with `O_APPEND`: the file after
the call, and whether the error is nil. -/
def File.WriteString (f : File) (s : Str) : File × Bool :=
  if f.writable then ({ f with content := f.content ++ s }, true) else (f, false)

namespace ScannerIP

/-- What `scanPorts` of `scanner-ip/main.go` prints in its summary. -/
structure Report where
  /-- The first number of `%d ports scanned, %d open, %d closed`. -/
  scanned : Int
  /-- The second number, `successCount`. -/
  opened : Int
  /-- The third number, `failedCount`. -/
  closed : Int
  /-- The average of `Average response time:`, printed when `successCount > 0`. -/
  average : Option Int
  deriving DecidableEq, Repr

/-- The variables of `scanPorts` that its loop updates. -/
structure ScanState where
  successCount : Int
  failedCount : Int
  totalDuration : Int
  deriving DecidableEq, Repr

/-- The body of the loop of `scanPorts` in `scanner-ip/main.go`. -/
def scanStep (st : ScanState) (result : ScanResult) : ScanState :=
  if result.Status = .SUCCESS then
    { st with successCount := st.successCount + 1,
              totalDuration := wrap64 (st.totalDuration + result.Duration) }
  else
    { st with failedCount := st.failedCount + 1 }

/-- The loop `for _, port := range ports` of `scanPorts`, from the `k`-th probe. -/
def scanLoop (net : Network) (ip : Str) : Nat → List Int → ScanState → ScanState
  | _, [], st => st
  | k, port :: rest, st => scanLoop net ip (k + 1) rest (scanStep st (tcping net k ip port))

/-- `scanPorts` of `scanner-ip/main.go`. -/
def scanPorts (net : Network) (ip : Str) (ports : List Int) : Report :=
  let st := scanLoop net ip 0 ports { successCount := 0, failedCount := 0, totalDuration := 0 }
  { scanned := ports.length, opened := st.successCount, closed := st.failedCount,
    average := if st.successCount > 0 then some (st.totalDuration.tdiv st.successCount)
               else none }

end ScannerIP

namespace ScannerPort

/-- What `scanPorts` of `scanner-port/main.go` prints in its summary, what it
returns, and what it leaves behind its two pointer arguments. -/
structure Report where
  /-- The first number of `%d ports scanned, %d open, %d closed`. -/
  scanned : Int
  /-- The second number, `successCount`. -/
  opened : Int
  /-- The third number, `failedCount`. -/
  closed : Int
  /-- The average of `Average response time:`, printed when `successCount > 0`. -/
  average : Option Int
  /-- The returned slice `openPorts`. -/
  openPorts : List Int
  /-- The file behind `resultFile` after the scan, if a handle was given. -/
  resultFile : Option File
  /-- The value of `*headerWritten` after the scan. -/
  headerWritten : Bool
  deriving DecidableEq, Repr

/-- The variables of `scanPorts` that its loop updates, with the file behind
`resultFile` and the value behind `headerWritten`. -/
structure ScanState where
  successCount : Int
  failedCount : Int
  totalDuration : Int
  openPorts : List Int
  resultFile : Option File
  headerWritten : Bool
  deriving DecidableEq, Repr

/-- The header line `# Open ports for %s` with its newline. -/
def headerLine (ip : Str) : Str := "# Open ports for ".toList ++ ip ++ ['\n']

/-- The line `%d` of a port with its newline. -/
def portLine (port : Int) : Str := strconv.Itoa port ++ ['\n']

/-- The part of the loop body that appends to the result file: the header if
it has not been written, marked as written only when the write succeeds, then
the port. -/
def appendToFile (ip : Str) (port : Int) (file : File) (headerWritten : Bool) :
    File × Bool :=
  let afterHeader : File × Bool :=
    if headerWritten = false then
      let w := file.WriteString (headerLine ip)
      if w.2 = false then (w.1, headerWritten) else (w.1, true)
    else (file, headerWritten)
  ((afterHeader.1.WriteString (portLine port)).1, afterHeader.2)

/-- The body of the loop of `scanPorts` in `scanner-port/main.go`. -/
def scanStep (ip : Str) (port : Int) (st : ScanState) (result : ScanResult) : ScanState :=
  if result.Status = .SUCCESS then
    let st1 : ScanState :=
      { st with successCount := st.successCount + 1,
                totalDuration := wrap64 (st.totalDuration + result.Duration),
                openPorts := st.openPorts ++ [port] }
    match st1.resultFile with
    | some file =>
      let w := appendToFile ip port file st1.headerWritten
      { st1 with resultFile := some w.1, headerWritten := w.2 }
    | none => st1
  else
    { st with failedCount := st.failedCount + 1 }

/-- The loop `for _, port := range ports` of `scanPorts`, from the `k`-th probe. -/
def scanLoop (net : Network) (ip : Str) : Nat → List Int → ScanState → ScanState
  | _, [], st => st
  | k, port :: rest, st =>
    scanLoop net ip (k + 1) rest (scanStep ip port st (tcping net k ip port))

/-- `scanPorts` of `scanner-port/main.go`; `resultFile` is `none` for a nil
handle. -/
def scanPorts (net : Network) (ip : Str) (ports : List Int) (resultFile : Option File)
    (headerWritten : Bool) : Report :=
  let st := scanLoop net ip 0 ports
    { successCount := 0, failedCount := 0, totalDuration := 0, openPorts := [],
      resultFile := resultFile, headerWritten := headerWritten }
  { scanned := ports.length, opened := st.successCount, closed := st.failedCount,
    average := if st.successCount > 0 then some (st.totalDuration.tdiv st.successCount)
               else none,
    openPorts := st.openPorts, resultFile := st.resultFile,
    headerWritten := st.headerWritten }

end ScannerPort

/-- The file `result.txt` of the working directory as `main` meets it: its
content (`none` when it does not exist, which is when `os.Stat` fails), whether
`os.OpenFile` succeeds, and whether the writes to the opened file succeed. -/
structure Disk where
  resultTxt : Option Str
  opens : Bool
  writable : Bool
  deriving DecidableEq, Repr

namespace ScannerPort

/-- The block `if isRangeOrAll` of `main`: `result.txt` is opened for appending
(and created if it does not exist), and `headerWritten` is set when the file
was not new or empty. The result is `resultFile` (`none` for nil) and
`headerWritten`. -/
def openResultFile (isRangeOrAll : Bool) (disk : Disk) : Option File × Bool :=
  if isRangeOrAll then
    let isNewFile : Bool :=
      match disk.resultTxt with
      | none => true
      | some content => content.length = 0
    if disk.opens then
      (some { content := disk.resultTxt.getD [], writable := disk.writable }, !isNewFile)
    else (none, false)
  else (none, false)

/-- The file `result.txt` after the run: what is behind the handle if one was
opened, and as it was otherwise. -/
def diskAfter (disk : Disk) (resultFile : Option File) : Disk :=
  match resultFile with
  | some file => { disk with resultTxt := some file.content }
  | none => disk

/-- The end of `main`, from the block `if isRangeOrAll` on: the result file is
opened for a range or `all`, and `scanPorts` is called. The result is the
report of `scanPorts` and `result.txt` after the run. -/
def scanAndSave (net : Network) (ip : Str) (set : PortSet) (disk : Disk) : Report × Disk :=
  let opened := openResultFile set.isRangeOrAll disk
  let report := scanPorts net ip set.ports opened.1 opened.2
  (report, diskAfter disk report.resultFile)

/-- The function `main` of `scanner-port/main.go` after the IP address `ip` has
been validated: the ports are built, then scanned and saved. -/
def main (portFile : Option PortFile) (args : List Str) (net : Network) (ip : Str)
    (disk : Disk) : Except ExitError (Report × Disk) :=
  match buildPorts portFile args with
  | .error e => .error e
  | .ok set => .ok (scanAndSave net ip set disk)

end ScannerPort

/-! ## Notions used to state the properties -/

namespace strconv

/-- The characters `0` to `9`. -/
def IsDigit (c : Char) : Prop := 48 ≤ c.toNat ∧ c.toNat ≤ 57

end strconv

/-- The integers `start`, `start + 1`, ..., `start + n - 1`. -/
def upFrom (start : Int) (n : Nat) : List Int :=
  (List.range n).map (fun (i : Nat) => start + (i : Int))

/-- The ports of the port file are `filePorts`: none without a file, the result
of `read` otherwise. -/
def FilePortsAre (read : PortFile → Except PortError (List Int)) (portFile : Option PortFile)
    (filePorts : List Int) : Prop :=
  match portFile with
  | none => filePorts = []
  | some file => read file = .ok filePorts

/-- The ports of the positional arguments are `cmdPorts`: none without
arguments, the result of `parse` on the arguments joined by spaces otherwise. -/
def ArgPortsAre (parse : Str → Except PortError (List Int)) (args : List Str)
    (cmdPorts : List Int) : Prop :=
  if args = [] then cmdPorts = [] else parse (strings.Join args [' ']) = .ok cmdPorts

/-- Whether the classification loop over the port file sets `isRangeOrAll`. -/
def fileFlag (portFile : Option PortFile) : Bool :=
  match portFile with
  | none => false
  | some file => fileHasRangeOrAll file.lines

/-- Whether the positional arguments set `isRangeOrAll`. -/
def argFlag (args : List Str) : Bool :=
  decide (args ≠ [] ∧
    (strings.ToLower (strings.TrimSpace (strings.Join args [' '])) = "all".toList ∨
      strings.Contains (strings.Join args [' ']) '-' = true))

/-- The ports of the list whose probe connects, when the first of them is the
`k`-th probe of the run. -/
def openAmong (net : Network) (k : Nat) (ports : List Int) : List Int :=
  ((ports.enumFrom k).filter (fun kp => (net kp.1 kp.2).connected)).map Prod.snd

/-- The ports `ports` put in front of the ports of a parse that succeeds; an
error stays as it is. -/
def appendParsed (ports : List Int) (r : Except PortError (List Int)) :
    Except PortError (List Int) :=
  match r with
  | .error e => .error e
  | .ok more => .ok (ports ++ more)

/-- Two parses put together: the error of the first, else the error of the
second, else the ports of the first followed by the ports of the second. -/
def bothParsed (ra rb : Except PortError (List Int)) : Except PortError (List Int) :=
  match ra with
  | .error e => .error e
  | .ok pa => appendParsed pa rb

/-- The lines of a port file that are kept: each line trimmed, without the
lines that are then empty or begin with `#`. -/
def keptLines (lines : List Str) : List Str :=
  (lines.map strings.TrimSpace).filter
    (fun line => !(decide (line = []) || strings.HasPrefix line '#'))

/-- The state in which `scanPorts` of `scanner-port` enters its loop. -/
def ScannerPort.startState (resultFile : Option File) (headerWritten : Bool) :
    ScannerPort.ScanState :=
  { successCount := 0, failedCount := 0, totalDuration := 0, openPorts := [],
    resultFile := resultFile, headerWritten := headerWritten }

/-- The elapsed times of the probes of `ports` that connect, in order. -/
def openDurations (net : Network) (ports : List Int) : List Int :=
  (ports.enum.filter (fun kp => (net kp.1 kp.2).connected)).map
    (fun kp => (net kp.1 kp.2).elapsed)

/-- One run of `scanner-port` with ports already built: the network, the
target, the ports and the flag `isRangeOrAll`, and whether `result.txt` can be
opened and written in that run. -/
structure Run where
  net : Network
  ip : Str
  set : PortSet
  opens : Bool
  writable : Bool

/-- The file `result.txt` after one run, from the file before it. -/
def Run.after (r : Run) (resultTxt : Option Str) : Option Str :=
  (ScannerPort.scanAndSave r.net r.ip r.set
    { resultTxt := resultTxt, opens := r.opens, writable := r.writable }).2.resultTxt

/-- The file `result.txt` after the runs, one after the other. -/
def runAll (runs : List Run) (resultTxt : Option Str) : Option Str :=
  runs.foldl (fun txt r => r.after txt) resultTxt

/-- The open ports that a run records: the ports whose probe connects, if the
result file opens. -/
def Run.recorded (r : Run) : List Int :=
  if r.opens then openAmong r.net 0 r.set.ports else []

/-- The header of the first run that records a port, if there is one. -/
def sinkHeader : List Run → Str
  | [] => []
  | r :: rest => if r.recorded = [] then sinkHeader rest else ScannerPort.headerLine r.ip

/-- The lines of a text: the pieces between its newlines. -/
def fileLines (s : Str) : List Str := strings.Split s '\n'

/-- A line is a header when it begins with `# Open ports for `. -/
def isHeaderLine (line : Str) : Bool := "# Open ports for ".toList.isPrefixOf line

/-- The number of header lines of a text. -/
def headerCount (s : Str) : Nat := ((fileLines s).filter isHeaderLine).length

/-- The text that the runs, started on a missing or empty `result.txt`, are to
leave in it: the header of the first run that records a port, then one line
for each recorded port, run after run. -/
def sinkText (runs : List Run) : Str :=
  sinkHeader runs ++ (((runs.map Run.recorded).flatten).map ScannerPort.portLine).flatten


/-! ## Lemmas on the string functions -/

namespace strings

theorem fieldsFrom_spaces (cur sp : Str) (hsp : ∀ c ∈ sp, unicode.IsSpace c = true) :
    fieldsFrom cur sp = fieldsFrom cur [] := by
  induction sp generalizing cur with
  | nil => rfl
  | cons c cs ih =>
    have hc : unicode.IsSpace c = true := hsp c (List.mem_cons_self _ _)
    have hcs : ∀ d ∈ cs, unicode.IsSpace d = true := fun d hd => hsp d (List.mem_cons_of_mem _ hd)
    simp only [fieldsFrom, hc, if_true]
    rw [ih [] hcs]
    simp [fieldsFrom]

theorem fieldsFrom_append_space (cur a b : Str) (sp : Char) (hsp : unicode.IsSpace sp = true) :
    fieldsFrom cur (a ++ sp :: b) = fieldsFrom cur a ++ Fields b := by
  induction a generalizing cur with
  | nil =>
    simp only [List.nil_append, fieldsFrom, hsp, if_true, Fields]
    split <;> simp
  | cons c cs ih =>
    simp only [List.cons_append, fieldsFrom, List.append_eq]
    by_cases hc : unicode.IsSpace c = true
    · simp only [hc, if_true]
      split
      · exact ih []
      · rw [ih []]; simp
    · simp only [hc]
      exact ih (cur ++ [c])

theorem Fields_append_space (a b : Str) (sp : Char) (hsp : unicode.IsSpace sp = true) :
    Fields (a ++ sp :: b) = Fields a ++ Fields b :=
  fieldsFrom_append_space [] a b sp hsp

theorem fieldsFrom_nospace (cur t : Str) (ht : ∀ c ∈ t, unicode.IsSpace c = false) :
    fieldsFrom cur t = fieldsFrom (cur ++ t) [] := by
  induction t generalizing cur with
  | nil => simp
  | cons c cs ih =>
    have hc : unicode.IsSpace c = false := ht c (List.mem_cons_self _ _)
    have hcs : ∀ d ∈ cs, unicode.IsSpace d = false := fun d hd => ht d (List.mem_cons_of_mem _ hd)
    simp only [fieldsFrom, hc]
    rw [ih (cur ++ [c]) hcs, List.append_assoc]
    rfl

theorem Fields_token (t : Str) (hne : t ≠ []) (ht : ∀ c ∈ t, unicode.IsSpace c = false) :
    Fields t = [t] := by
  unfold Fields
  rw [fieldsFrom_nospace [] t ht]
  simp [fieldsFrom, hne]

theorem Fields_spaces_append (sp s : Str) (hsp : ∀ c ∈ sp, unicode.IsSpace c = true) :
    Fields (sp ++ s) = Fields s := by
  induction sp with
  | nil => rfl
  | cons c cs ih =>
    have hc : unicode.IsSpace c = true := hsp c (List.mem_cons_self _ _)
    have hcs : ∀ d ∈ cs, unicode.IsSpace d = true := fun d hd => hsp d (List.mem_cons_of_mem _ hd)
    have := ih hcs
    simp only [Fields] at this ⊢
    simp only [List.cons_append, fieldsFrom, hc, if_true]
    exact this

theorem fieldsFrom_append_spaces (cur s sp : Str) (hsp : ∀ c ∈ sp, unicode.IsSpace c = true) :
    fieldsFrom cur (s ++ sp) = fieldsFrom cur s := by
  induction s generalizing cur with
  | nil => simpa using fieldsFrom_spaces cur sp hsp
  | cons c cs ih =>
    simp only [List.cons_append, fieldsFrom, List.append_eq]
    rw [ih [], ih (cur ++ [c])]

theorem Fields_append_spaces (s sp : Str) (hsp : ∀ c ∈ sp, unicode.IsSpace c = true) :
    Fields (s ++ sp) = Fields s :=
  fieldsFrom_append_spaces [] s sp hsp

/-- Joining tokens with a white-space separator and splitting again gives the
tokens back. -/
theorem Fields_Join (ts : List Str) (sp : Char) (hsp : unicode.IsSpace sp = true)
    (hne : ∀ t ∈ ts, t ≠ []) (hts : ∀ t ∈ ts, ∀ c ∈ t, unicode.IsSpace c = false) :
    Fields (Join ts [sp]) = ts := by
  induction ts with
  | nil => rfl
  | cons a rest ih =>
    have ha : Fields a = [a] :=
      Fields_token a (hne a (List.mem_cons_self _ _)) (hts a (List.mem_cons_self _ _))
    cases rest with
    | nil => simpa [Join] using ha
    | cons b rest =>
      have ih1 := ih (fun t ht => hne t (List.mem_cons_of_mem _ ht))
        (fun t ht => hts t (List.mem_cons_of_mem _ ht))
      simp only [Join, List.append_assoc, List.singleton_append]
      rw [Fields_append_space a _ sp hsp, ha, ih1]
      rfl

/-- What `TrimSpace` removes is white space on both sides. -/
theorem TrimSpace_decomp (s : Str) :
    ∃ pre post : Str, s = pre ++ TrimSpace s ++ post ∧
      (∀ c ∈ pre, unicode.IsSpace c = true) ∧ (∀ c ∈ post, unicode.IsSpace c = true) := by
  refine ⟨s.takeWhile unicode.IsSpace,
    ((s.dropWhile unicode.IsSpace).reverse.takeWhile unicode.IsSpace).reverse, ?_, ?_, ?_⟩
  · have h1 : s = s.takeWhile unicode.IsSpace ++ s.dropWhile unicode.IsSpace :=
      (List.takeWhile_append_dropWhile _ _).symm
    have h2 : (s.dropWhile unicode.IsSpace).reverse =
        (s.dropWhile unicode.IsSpace).reverse.takeWhile unicode.IsSpace ++
        (s.dropWhile unicode.IsSpace).reverse.dropWhile unicode.IsSpace :=
      (List.takeWhile_append_dropWhile _ _).symm
    have h3 : s.dropWhile unicode.IsSpace = TrimSpace s ++
        ((s.dropWhile unicode.IsSpace).reverse.takeWhile unicode.IsSpace).reverse := by
      calc s.dropWhile unicode.IsSpace
          = ((s.dropWhile unicode.IsSpace).reverse).reverse := (List.reverse_reverse _).symm
        _ = ((s.dropWhile unicode.IsSpace).reverse.takeWhile unicode.IsSpace ++
              (s.dropWhile unicode.IsSpace).reverse.dropWhile unicode.IsSpace).reverse := by
            rw [List.takeWhile_append_dropWhile]
        _ = _ := List.reverse_append _ _
    rw [List.append_assoc, ← h3]
    exact h1
  · intro c hc
    exact List.mem_takeWhile_imp hc
  · intro c hc
    exact List.mem_takeWhile_imp (List.mem_reverse.mp hc)

end strings

namespace strings

theorem TrimSpace_nospace (t : Str) (ht : ∀ c ∈ t, unicode.IsSpace c = false) :
    TrimSpace t = t := by
  have key : ∀ l : Str, (∀ c ∈ l, unicode.IsSpace c = false) →
      l.dropWhile unicode.IsSpace = l := by
    intro l hl
    cases l with
    | nil => rfl
    | cons c cs => simp [List.dropWhile, hl c (List.mem_cons_self _ _)]
  unfold TrimSpace
  rw [key t ht, key t.reverse (fun c hc => ht c (List.mem_reverse.mp hc)), List.reverse_reverse]

theorem splitFrom_nosep (sep : Char) (cur a rest : Str) (ha : sep ∉ a) :
    splitFrom sep cur (a ++ rest) = splitFrom sep (cur ++ a) rest := by
  induction a generalizing cur with
  | nil => simp
  | cons c cs ih =>
    have hc : c ≠ sep := fun h => ha (h ▸ List.mem_cons_self _ _)
    have hcs : sep ∉ cs := fun h => ha (List.mem_cons_of_mem _ h)
    simp only [List.cons_append, splitFrom, hc, if_false, List.append_eq]
    rw [ih (cur ++ [c]) hcs, List.append_assoc]
    rfl

theorem Split_nosep (sep : Char) (a : Str) (ha : sep ∉ a) : Split a sep = [a] := by
  have := splitFrom_nosep sep [] a [] ha
  simpa [Split, splitFrom] using this

theorem Split_once (sep : Char) (a b : Str) (ha : sep ∉ a) (hb : sep ∉ b) :
    Split (a ++ sep :: b) sep = [a, b] := by
  unfold Split
  rw [splitFrom_nosep sep [] a _ ha]
  simp only [List.nil_append, splitFrom, if_true]
  have := Split_nosep sep b hb
  unfold Split at this
  rw [this]

end strings

namespace strconv

theorem IsDigit.not_space {c : Char} (h : IsDigit c) : unicode.IsSpace c = false := by
  unfold IsDigit at h
  simp only [unicode.IsSpace, Bool.or_eq_false_iff, Bool.and_eq_false_iff, decide_eq_false_iff_not,
    beq_eq_false_iff_ne, ne_eq]
  omega

theorem IsDigit.ne_of_toNat {c d : Char} (h : IsDigit c) (hd : d.toNat < 48 ∨ 57 < d.toNat) :
    c ≠ d := by
  intro hcd
  subst hcd
  unfold IsDigit at h
  omega

theorem digitChar_toNat (d : Nat) (h : d < 10) : (Nat.digitChar d).toNat = 48 + d := by
  interval_cases d <;> rfl

theorem toDigitsCore_append (fuel n : Nat) (ds : List Char) :
    Nat.toDigitsCore 10 fuel n ds = Nat.toDigitsCore 10 fuel n [] ++ ds := by
  induction fuel generalizing n ds with
  | zero => simp [Nat.toDigitsCore]
  | succ f ih =>
    simp only [Nat.toDigitsCore]
    split
    · simp
    · rw [ih (n / 10) (Nat.digitChar (n % 10) :: ds), ih (n / 10) [Nat.digitChar (n % 10)]]
      simp

theorem toDigitsCore_fuel (f1 f2 n : Nat) (ds : List Char) (h1 : n < f1) (h2 : n < f2) :
    Nat.toDigitsCore 10 f1 n ds = Nat.toDigitsCore 10 f2 n ds := by
  induction f1 generalizing f2 n ds with
  | zero => omega
  | succ f ih =>
    cases f2 with
    | zero => omega
    | succ g =>
      simp only [Nat.toDigitsCore]
      split
      · rfl
      · rename_i hn
        have : n / 10 < n := Nat.div_lt_self (by omega) (by omega)
        exact ih g (n / 10) _ (by omega) (by omega)

theorem toDigits_small (n : Nat) (h : n < 10) : Nat.toDigits 10 n = [Nat.digitChar n] := by
  have h0 : n / 10 = 0 := Nat.div_eq_of_lt h
  have h1 : n % 10 = n := Nat.mod_eq_of_lt h
  simp [Nat.toDigits, Nat.toDigitsCore, h0, h1]

theorem toDigits_step (n : Nat) (h : 10 ≤ n) :
    Nat.toDigits 10 n = Nat.toDigits 10 (n / 10) ++ [Nat.digitChar (n % 10)] := by
  have h0 : n / 10 ≠ 0 := by
    have := Nat.div_pos h (by norm_num : 0 < 10)
    omega
  have hlt : n / 10 < n := Nat.div_lt_self (by omega) (by omega)
  unfold Nat.toDigits
  rw [Nat.toDigitsCore]
  simp only [h0, if_false]
  rw [toDigitsCore_append, toDigitsCore_fuel n (n / 10 + 1) (n / 10) [] hlt (by omega)]

theorem parseDigits_snoc (l : Str) (c : Char) (acc : Nat) (hc : IsDigit c) :
    parseDigits (l ++ [c]) acc =
      (parseDigits l acc).map (fun v => v * 10 + (c.toNat - 48)) := by
  induction l generalizing acc with
  | nil =>
    unfold IsDigit at hc
    simp [parseDigits, hc]
  | cons d ds ih =>
    simp only [List.cons_append, parseDigits, List.append_eq]
    split
    · exact ih _
    · rfl

/-- The decimal rendering of a natural number consists of digits and reads
back as that number. -/
theorem toDigits_spec (n : Nat) :
    (∀ c ∈ Nat.toDigits 10 n, IsDigit c) ∧ Nat.toDigits 10 n ≠ [] ∧
      parseDigits (Nat.toDigits 10 n) 0 = some n := by
  induction n using Nat.strong_induction_on with
  | _ n ih =>
    by_cases h : n < 10
    · rw [toDigits_small n h]
      have hd := digitChar_toNat n h
      refine ⟨?_, by simp, ?_⟩
      · intro c hc
        rw [List.mem_singleton] at hc
        subst hc
        unfold IsDigit
        omega
      · have h1 : 48 ≤ (Nat.digitChar n).toNat ∧ (Nat.digitChar n).toNat ≤ 57 := by omega
        rw [parseDigits, if_pos h1, parseDigits, hd]
        simp
    · have h10 : 10 ≤ n := by omega
      have hlt : n / 10 < n := Nat.div_lt_self (by omega) (by omega)
      obtain ⟨ih1, _, ih3⟩ := ih (n / 10) hlt
      have hd := digitChar_toNat (n % 10) (Nat.mod_lt _ (by norm_num))
      have hdig : IsDigit (Nat.digitChar (n % 10)) := by
        unfold IsDigit
        omega
      rw [toDigits_step n h10]
      refine ⟨?_, by simp, ?_⟩
      · intro c hc
        rcases List.mem_append.mp hc with hc | hc
        · exact ih1 c hc
        · rw [List.mem_singleton] at hc
          subst hc
          exact hdig
      · rw [parseDigits_snoc _ _ _ hdig, ih3, hd]
        simp only [Option.map_some', Option.some.injEq]
        omega

theorem Atoi_digits (s : Str) (n : Nat) (hs : ∀ c ∈ s, IsDigit c) (hne : s ≠ [])
    (hp : parseDigits s 0 = some n) :
    Atoi s = if (n : Int) ≤ maxInt then some (n : Int) else none := by
  cases s with
  | nil => exact absurd rfl hne
  | cons c r =>
    have hc : IsDigit c := hs c (List.mem_cons_self _ _)
    have h1 : c ≠ '-' := hc.ne_of_toNat (by decide)
    have h2 : c ≠ '+' := hc.ne_of_toNat (by decide)
    have hmin : minInt ≤ (n : Int) := by
      unfold minInt
      omega
    simp [Atoi, h1, h2, hp, hmin]

theorem Atoi_toDigits (n : Nat) (h : (n : Int) ≤ maxInt) :
    Atoi (Nat.toDigits 10 n) = some (n : Int) := by
  obtain ⟨h1, h2, h3⟩ := toDigits_spec n
  rw [Atoi_digits _ n h1 h2 h3, if_pos h]

theorem Atoi_toDigits_big (n : Nat) (h : maxInt < (n : Int)) :
    Atoi (Nat.toDigits 10 n) = none := by
  obtain ⟨h1, h2, h3⟩ := toDigits_spec n
  rw [Atoi_digits _ n h1 h2 h3, if_neg (by omega)]

theorem Itoa_ofNat (n : Nat) : Itoa (n : Int) = Nat.toDigits 10 n := rfl

theorem Itoa_nonneg (i : Int) (h : 0 ≤ i) : Itoa i = Nat.toDigits 10 i.toNat := by
  obtain ⟨n, rfl⟩ := Int.eq_ofNat_of_zero_le h
  rfl

end strconv
namespace unicode

theorem ToLower_eq_a (c : Char) (h : ToLower c = 'a') : c = 'a' ∨ c = 'A' := by
  unfold ToLower at h
  simp only at h
  split at h
  · rename_i hr
    right
    have hc : c = Char.ofNat c.toNat := (Char.ofNat_toNat c).symm
    generalize c.toNat = n at hr h hc
    obtain ⟨h1, h2⟩ := hr
    subst hc
    interval_cases n <;> first | rfl | exact absurd h (by decide)
  · split at h
    · exact absurd h (by decide)
    · split at h
      · exact absurd h (by decide)
      · exact Or.inl h

theorem IsSpace_ne_comma (c : Char) (h : IsSpace c = true) : c ≠ ',' := by
  intro hc
  subst hc
  exact absurd h (by decide)

end unicode

namespace strings

theorem mem_Join (ts : List Str) (sep : Str) (c : Char) (h : c ∈ Join ts sep) :
    (∃ t ∈ ts, c ∈ t) ∨ c ∈ sep := by
  induction ts with
  | nil => simp [Join] at h
  | cons a rest ih =>
    cases rest with
    | nil => exact Or.inl ⟨a, List.mem_cons_self _ _, by simpa [Join] using h⟩
    | cons b rest =>
      simp only [Join, List.mem_append] at h
      rcases h with (h | h) | h
      · exact Or.inl ⟨a, List.mem_cons_self _ _, h⟩
      · exact Or.inr h
      · rcases ih h with ⟨t, ht, hc⟩ | hc
        · exact Or.inl ⟨t, List.mem_cons_of_mem _ ht, hc⟩
        · exact Or.inr hc

theorem ReplaceAll_append (a b : Str) (o n : Char) :
    ReplaceAll (a ++ b) o n = ReplaceAll a o n ++ ReplaceAll b o n := by
  simp [ReplaceAll]

theorem ReplaceAll_absent (a : Str) (o n : Char) (h : o ∉ a) : ReplaceAll a o n = a := by
  unfold ReplaceAll
  conv_rhs => rw [← List.map_id a]
  apply List.map_congr_left
  intro c hc
  have : c ≠ o := fun hco => h (hco ▸ hc)
  simp [this]

theorem ReplaceAll_spaces (a : Str) (h : ∀ c ∈ a, unicode.IsSpace c = true) :
    ∀ c ∈ ReplaceAll a ',' ' ', unicode.IsSpace c = true := by
  intro c hc
  unfold ReplaceAll at hc
  obtain ⟨d, hd, rfl⟩ := List.mem_map.mp hc
  split
  · decide
  · exact h d hd

/-- Replacing the commas of a joined list of comma-free tokens, the separator
a comma or a space, gives the tokens joined by spaces. -/
theorem ReplaceAll_Join (ts : List Str) (sep : Char) (hsep : sep = ',' ∨ sep = ' ')
    (hts : ∀ t ∈ ts, ',' ∉ t) :
    ReplaceAll (Join ts [sep]) ',' ' ' = Join ts [' '] := by
  induction ts with
  | nil => rfl
  | cons a rest ih =>
    have ha := ReplaceAll_absent a ',' ' ' (hts a (List.mem_cons_self _ _))
    cases rest with
    | nil => simpa [Join] using ha
    | cons b rest =>
      have ih1 := ih (fun t ht => hts t (List.mem_cons_of_mem _ ht))
      simp only [Join]
      rw [ReplaceAll_append, ReplaceAll_append, ha, ih1]
      rcases hsep with rfl | rfl <;> rfl

/-- The fields of a specification do not depend on surrounding white space. -/
theorem Fields_ReplaceAll_TrimSpace (s : Str) :
    Fields (ReplaceAll (TrimSpace s) ',' ' ') = Fields (ReplaceAll s ',' ' ') := by
  obtain ⟨pre, post, hs, hpre, hpost⟩ := TrimSpace_decomp s
  conv_rhs => rw [hs]
  rw [ReplaceAll_append, ReplaceAll_append, Fields_append_spaces _ _ (ReplaceAll_spaces post hpost),
    Fields_spaces_append _ _ (ReplaceAll_spaces pre hpre)]

theorem mem_of_mem_TrimSpace (s : Str) (c : Char) (h : c ∈ TrimSpace s) : c ∈ s := by
  obtain ⟨pre, post, hs, _, _⟩ := TrimSpace_decomp s
  rw [hs]
  simp [h]

/-- A specification that is the keyword `all` has a letter `a` or `A`. -/
theorem exists_a_of_all (s : Str) (h : ToLower (TrimSpace s) = "all".toList) :
    ∃ c ∈ s, c = 'a' ∨ c = 'A' := by
  unfold ToLower at h
  cases ht : TrimSpace s with
  | nil => rw [ht] at h; exact absurd h (by decide)
  | cons x r =>
    rw [ht] at h
    have hx : unicode.ToLower x = 'a' := by
      have := congrArg List.head? h
      simpa using this
    exact ⟨x, mem_of_mem_TrimSpace s x (by rw [ht]; exact List.mem_cons_self _ _),
      unicode.ToLower_eq_a x hx⟩

end strings

/-! ## Lemmas on `parsePorts` -/

theorem upFrom_succ (start : Int) (n : Nat) :
    upFrom start (n + 1) = start :: upFrom (start + 1) n := by
  unfold upFrom
  rw [List.range_succ_eq_map]
  simp only [List.map_cons, List.map_map, Nat.cast_zero, add_zero, List.cons.injEq, true_and]
  apply List.map_congr_left
  intro i _
  simp only [Function.comp_apply, Nat.succ_eq_add_one]
  push_cast
  ring

theorem mem_upFrom (start : Int) (n : Nat) (x : Int) :
    x ∈ upFrom start n ↔ start ≤ x ∧ x < start + n := by
  unfold upFrom
  simp only [List.mem_map, List.mem_range]
  constructor
  · rintro ⟨i, hi, rfl⟩
    omega
  · intro ⟨h1, h2⟩
    refine ⟨(x - start).toNat, ?_, ?_⟩ <;> omega

theorem rangeLoop_ok (n : Nat) (p : Int) (ports : List Int) (h1 : 1 ≤ p)
    (h2 : p + n ≤ 65536) : rangeLoop n p ports = .ok (ports ++ upFrom p n) := by
  induction n generalizing p ports with
  | zero => simp [rangeLoop, upFrom]
  | succ n ih =>
    have hp : ¬(p < 1 ∨ p > 65535) := by
      push_cast at h2
      omega
    rw [rangeLoop, if_neg hp, ih (p + 1) _ (by omega) (by push_cast at h2 ⊢; omega), upFrom_succ]
    simp

theorem rangeLoop_first (n : Nat) (p : Int) (ports : List Int) (hn : 0 < n)
    (hp : p < 1 ∨ p > 65535) : rangeLoop n p ports = .error (.portOutOfRange p) := by
  cases n with
  | zero => omega
  | succ n => rw [rangeLoop, if_pos hp]

theorem rangeLoop_over (n : Nat) (p : Int) (ports : List Int) (h1 : 1 ≤ p) (h2 : p ≤ 65535)
    (h3 : 65536 < p + n) : rangeLoop n p ports = .error (.portOutOfRange 65536) := by
  induction n generalizing p ports with
  | zero => simp at h3; omega
  | succ n ih =>
    have hp : ¬(p < 1 ∨ p > 65535) := by omega
    rw [rangeLoop, if_neg hp]
    push_cast at h3
    by_cases h : p = 65535
    · subst h
      have : rangeLoop n (65535 + 1) (ports ++ [65535]) = .error (.portOutOfRange (65535 + 1)) :=
        rangeLoop_first n _ _ (by omega) (by omega)
      exact this
    · exact ih (p + 1) _ (by omega) (by omega) (by omega)

theorem appendUpTo_eq (n : Nat) (p : Int) (ports : List Int) :
    appendUpTo n p ports = ports ++ upFrom p n := by
  induction n generalizing p ports with
  | zero => simp [appendUpTo, upFrom]
  | succ n ih =>
    rw [appendUpTo, ih, upFrom_succ]
    simp

theorem fullRange_eq : fullRange = upFrom 1 65535 := by
  unfold fullRange
  rw [appendUpTo_eq, List.nil_append]

/-- A token without a hyphen that reads as the integer `v`. -/
theorem parsePart_number (t : Str) (v : Int) (ports : List Int) (hd : '-' ∉ t)
    (hv : strconv.Atoi (strings.TrimSpace t) = some v) :
    parsePart t ports =
      if v < 1 ∨ v > 65535 then .error (.portOutOfRange v) else .ok (ports ++ [v]) := by
  have hc : strings.Contains t '-' = false := by
    simpa [strings.Contains] using hd
  unfold parsePart
  rw [hc]
  simp only [Bool.false_eq_true, if_false, hv]

/-- A token without a hyphen that does not read as an integer. -/
theorem parsePart_invalid (t : Str) (ports : List Int) (hd : '-' ∉ t)
    (hv : strconv.Atoi (strings.TrimSpace t) = none) :
    parsePart t ports = .error (.invalidPort t) := by
  have hc : strings.Contains t '-' = false := by
    simpa [strings.Contains] using hd
  unfold parsePart
  rw [hc]
  simp only [Bool.false_eq_true, if_false, hv]

/-- A token `a-b` whose two sides have no hyphen. -/
theorem parsePart_range (a b : Str) (ports : List Int) (ha : '-' ∉ a) (hb : '-' ∉ b) :
    parsePart (a ++ '-' :: b) ports =
      match strconv.Atoi (strings.TrimSpace a) with
      | none => .error (.invalidStartPort a)
      | some start =>
        match strconv.Atoi (strings.TrimSpace b) with
        | none => .error (.invalidEndPort b)
        | some stop =>
          if start > stop then .error .startAfterEnd
          else rangeLoop (stop - start + 1).toNat start ports := by
  have hc : strings.Contains (a ++ '-' :: b) '-' = true := by
    simp [strings.Contains]
  unfold parsePart
  rw [hc, strings.Split_once '-' a b ha hb]
  simp only [if_true]

theorem toDigits_props (n : Nat) :
    '-' ∉ Nat.toDigits 10 n ∧ ',' ∉ Nat.toDigits 10 n ∧ Nat.toDigits 10 n ≠ [] ∧
      (∀ c ∈ Nat.toDigits 10 n, unicode.IsSpace c = false) ∧
      strings.TrimSpace (Nat.toDigits 10 n) = Nat.toDigits 10 n ∧
      (∀ c ∈ Nat.toDigits 10 n, c ≠ 'a' ∧ c ≠ 'A') := by
  obtain ⟨h1, h2, _⟩ := strconv.toDigits_spec n
  have hsp : ∀ c ∈ Nat.toDigits 10 n, unicode.IsSpace c = false := fun c hc => (h1 c hc).not_space
  refine ⟨?_, ?_, h2, hsp, strings.TrimSpace_nospace _ hsp, ?_⟩
  · intro h
    exact (h1 _ h).ne_of_toNat (by decide) rfl
  · intro h
    exact (h1 _ h).ne_of_toNat (by decide) rfl
  · intro c hc
    exact ⟨(h1 c hc).ne_of_toNat (by decide), (h1 c hc).ne_of_toNat (by decide)⟩

/-- The decimal rendering of a port number parses as that port. -/
theorem parsePart_Itoa (p : Int) (ports : List Int) (h1 : 1 ≤ p) (h2 : p ≤ 65535) :
    parsePart (strconv.Itoa p) ports = .ok (ports ++ [p]) := by
  obtain ⟨n, rfl⟩ := Int.eq_ofNat_of_zero_le (by omega : 0 ≤ p)
  obtain ⟨hd, _, _, _, htrim, _⟩ := toDigits_props n
  have hat : strconv.Atoi (strings.TrimSpace (Nat.toDigits 10 n)) = some (n : Int) := by
    rw [htrim]
    exact strconv.Atoi_toDigits n (by unfold strconv.maxInt; omega)
  rw [strconv.Itoa_ofNat, parsePart_number _ _ ports hd hat, if_neg (by omega)]

theorem parseParts_Itoa (L : List Int) (ports : List Int) (hL : ∀ p ∈ L, 1 ≤ p ∧ p ≤ 65535) :
    parseParts (L.map strconv.Itoa) ports = .ok (ports ++ L) := by
  induction L generalizing ports with
  | nil => simp [parseParts]
  | cons p rest ih =>
    have hp := hL p (List.mem_cons_self _ _)
    simp only [List.map_cons, parseParts, parsePart_Itoa p ports hp.1 hp.2]
    rw [ih _ (fun q hq => hL q (List.mem_cons_of_mem _ hq))]
    simp

/-- The `scanner-port` parser is the `scanner-ip` parser behind the test for
the keyword `all`. -/
theorem ScannerPort.parsePorts_eq (s : Str) :
    ScannerPort.parsePorts s =
      if strings.ToLower (strings.TrimSpace s) = "all".toList then .ok fullRange
      else ScannerIP.parsePorts s := by
  unfold ScannerPort.parsePorts ScannerIP.parsePorts
  simp only [strings.Fields_ReplaceAll_TrimSpace]

theorem ScannerPort.parsePorts_of_no_a (s : Str) (h : ∀ c ∈ s, c ≠ 'a' ∧ c ≠ 'A') :
    ScannerPort.parsePorts s = ScannerIP.parsePorts s := by
  rw [ScannerPort.parsePorts_eq, if_neg]
  intro hall
  obtain ⟨c, hc, hca⟩ := strings.exists_a_of_all s hall
  rcases hca with rfl | rfl
  · exact (h _ hc).1 rfl
  · exact (h _ hc).2 rfl

theorem length_upFrom (start : Int) (n : Nat) : (upFrom start n).length = n := by
  simp [upFrom]

theorem pairwise_upFrom (start : Int) (n : Nat) : (upFrom start n).Pairwise (· < ·) := by
  unfold upFrom
  rw [List.pairwise_map]
  refine (List.pairwise_lt_range n).imp ?_
  intro a b hab
  omega

theorem nodup_upFrom (start : Int) (n : Nat) : (upFrom start n).Nodup :=
  (pairwise_upFrom start n).imp (fun h => ne_of_lt h)

theorem parseParts_single (t : Str) : parseParts [t] [] = parsePart t [] := by
  simp only [parseParts]
  cases parsePart t [] <;> rfl

/-- A specification that is one token is parsed as that token. -/
theorem ScannerIP.parsePorts_token (t : Str) (hne : t ≠ [])
    (hsp : ∀ c ∈ t, unicode.IsSpace c = false) (hcomma : ',' ∉ t) :
    ScannerIP.parsePorts t = parsePart t [] := by
  unfold ScannerIP.parsePorts
  simp only [strings.ReplaceAll_absent t ',' ' ' hcomma, strings.Fields_token t hne hsp,
    parseParts_single]

/-- A list of port numbers, written in decimal and joined by commas or by
spaces, parses to the list. -/
theorem ScannerIP.parsePorts_Join (L : List Int) (sep : Char) (hsep : sep = ',' ∨ sep = ' ')
    (hL : ∀ p ∈ L, 1 ≤ p ∧ p ≤ 65535) :
    ScannerIP.parsePorts (strings.Join (L.map strconv.Itoa) [sep]) = .ok L := by
  have htok : ∀ t ∈ L.map strconv.Itoa, ∃ n : Nat, t = Nat.toDigits 10 n := by
    intro t ht
    obtain ⟨p, hp, rfl⟩ := List.mem_map.mp ht
    exact ⟨p.toNat, strconv.Itoa_nonneg p (by have := hL p hp; omega)⟩
  have h1 : ∀ t ∈ L.map strconv.Itoa, ',' ∉ t := by
    intro t ht
    obtain ⟨n, rfl⟩ := htok t ht
    exact (toDigits_props n).2.1
  have h2 : ∀ t ∈ L.map strconv.Itoa, t ≠ [] := by
    intro t ht
    obtain ⟨n, rfl⟩ := htok t ht
    exact (toDigits_props n).2.2.1
  have h3 : ∀ t ∈ L.map strconv.Itoa, ∀ c ∈ t, unicode.IsSpace c = false := by
    intro t ht
    obtain ⟨n, rfl⟩ := htok t ht
    exact (toDigits_props n).2.2.2.1
  unfold ScannerIP.parsePorts
  simp only [strings.ReplaceAll_Join _ sep hsep h1,
    strings.Fields_Join _ ' ' (by decide) h2 h3, parseParts_Itoa L [] hL, List.nil_append]

theorem no_a_Join (L : List Int) (sep : Char) (hsep : sep = ',' ∨ sep = ' ')
    (hL : ∀ p ∈ L, 1 ≤ p ∧ p ≤ 65535) :
    ∀ c ∈ strings.Join (L.map strconv.Itoa) [sep], c ≠ 'a' ∧ c ≠ 'A' := by
  intro c hc
  rcases strings.mem_Join _ _ c hc with ⟨t, ht, hct⟩ | hc
  · obtain ⟨p, hp, rfl⟩ := List.mem_map.mp ht
    rw [strconv.Itoa_nonneg p (by have := hL p hp; omega)] at hct
    exact (toDigits_props _).2.2.2.2.2 c hct
  · rw [List.mem_singleton] at hc
    subst hc
    rcases hsep with rfl | rfl <;> exact ⟨by decide, by decide⟩

/-- What the characters of `<a>-<b>` are, for natural numbers `a` and `b`. -/
theorem rangeSpec_props (a b : Nat) :
    Nat.toDigits 10 a ++ '-' :: Nat.toDigits 10 b ≠ [] ∧
      (∀ c ∈ Nat.toDigits 10 a ++ '-' :: Nat.toDigits 10 b, unicode.IsSpace c = false) ∧
      ',' ∉ Nat.toDigits 10 a ++ '-' :: Nat.toDigits 10 b ∧
      (∀ c ∈ Nat.toDigits 10 a ++ '-' :: Nat.toDigits 10 b, c ≠ 'a' ∧ c ≠ 'A') := by
  obtain ⟨_, ha1, _, ha3, _, ha5⟩ := toDigits_props a
  obtain ⟨_, hb1, _, hb3, _, hb5⟩ := toDigits_props b
  refine ⟨by simp, ?_, ?_, ?_⟩
  · intro c hc
    rcases List.mem_append.mp hc with h | h
    · exact ha3 c h
    · rcases List.mem_cons.mp h with h | h
      · subst h; decide
      · exact hb3 c h
  · intro hc
    rcases List.mem_append.mp hc with h | h
    · exact ha1 h
    · rcases List.mem_cons.mp h with h | h
      · exact absurd h (by decide)
      · exact hb1 h
  · intro c hc
    rcases List.mem_append.mp hc with h | h
    · exact ha5 c h
    · rcases List.mem_cons.mp h with h | h
      · subst h; exact ⟨by decide, by decide⟩
      · exact hb5 c h

/-- The parse of `<a>-<b>` for natural numbers `a` and `b` that fit a Go `int`. -/
theorem ScannerIP.parsePorts_range (a b : Nat) (ha : (a : Int) ≤ strconv.maxInt)
    (hb : (b : Int) ≤ strconv.maxInt) :
    ScannerIP.parsePorts (Nat.toDigits 10 a ++ '-' :: Nat.toDigits 10 b) =
      if (a : Int) > (b : Int) then .error .startAfterEnd
      else rangeLoop ((b : Int) - (a : Int) + 1).toNat (a : Int) [] := by
  obtain ⟨h1, h2, h3, _⟩ := rangeSpec_props a b
  rw [ScannerIP.parsePorts_token _ h1 h2 h3,
    parsePart_range _ _ _ (toDigits_props a).1 (toDigits_props b).1,
    (toDigits_props a).2.2.2.2.1, (toDigits_props b).2.2.2.2.1,
    strconv.Atoi_toDigits a ha, strconv.Atoi_toDigits b hb]

/-- The parse of the decimal rendering of a natural number. -/
theorem ScannerIP.parsePorts_number (n : Nat) :
    ScannerIP.parsePorts (Nat.toDigits 10 n) =
      if strconv.maxInt < (n : Int) then .error (.invalidPort (Nat.toDigits 10 n))
      else if (n : Int) < 1 ∨ (n : Int) > 65535 then .error (.portOutOfRange (n : Int))
      else .ok [(n : Int)] := by
  obtain ⟨h1, h2, h3, h4, h5, _⟩ := toDigits_props n
  rw [ScannerIP.parsePorts_token _ h3 h4 h2]
  by_cases h : strconv.maxInt < (n : Int)
  · rw [if_pos h, parsePart_invalid _ _ h1 (by rw [h5]; exact strconv.Atoi_toDigits_big n h)]
  · rw [if_neg h, parsePart_number _ (n : Int) _ h1
      (by rw [h5]; exact strconv.Atoi_toDigits n (by omega))]
    rfl

namespace unicode

theorem ToLower_eq_l (c : Char) (h : ToLower c = 'l') : c = 'l' ∨ c = 'L' := by
  unfold ToLower at h
  simp only at h
  split at h
  · rename_i hr
    right
    have hc : c = Char.ofNat c.toNat := (Char.ofNat_toNat c).symm
    generalize c.toNat = n at hr h hc
    obtain ⟨h1, h2⟩ := hr
    subst hc
    interval_cases n <;> first | rfl | exact absurd h (by decide)
  · split at h
    · exact absurd h (by decide)
    · split at h
      · exact absurd h (by decide)
      · exact Or.inl h

end unicode

namespace strings

theorem dropWhile_spaces_append (pre l : Str) (hpre : ∀ c ∈ pre, unicode.IsSpace c = true) :
    (pre ++ l).dropWhile unicode.IsSpace = l.dropWhile unicode.IsSpace := by
  induction pre with
  | nil => rfl
  | cons c cs ih =>
    rw [List.cons_append, List.dropWhile_cons, if_pos (hpre c (List.mem_cons_self _ _))]
    exact ih (fun d hd => hpre d (List.mem_cons_of_mem _ hd))

theorem dropWhile_head_nospace (c : Char) (r : Str) (hc : unicode.IsSpace c = false) :
    (c :: r).dropWhile unicode.IsSpace = c :: r := by
  rw [List.dropWhile_cons, if_neg (by simp [hc])]

/-- Trimming removes exactly the surrounding white space of a text that begins
and ends with a character that is not white space. -/
theorem TrimSpace_pad (pre post r r2 : Str) (x z : Char)
    (hpre : ∀ c ∈ pre, unicode.IsSpace c = true) (hpost : ∀ c ∈ post, unicode.IsSpace c = true)
    (hx : unicode.IsSpace x = false) (hz : unicode.IsSpace z = false)
    (hrev : (x :: r).reverse = z :: r2) :
    TrimSpace (pre ++ (x :: r) ++ post) = x :: r := by
  unfold TrimSpace
  rw [List.append_assoc, dropWhile_spaces_append pre _ hpre, List.cons_append,
    dropWhile_head_nospace x _ hx, ← List.cons_append, List.reverse_append,
    dropWhile_spaces_append post.reverse _ (fun c hc => hpost c (List.mem_reverse.mp hc)),
    hrev, dropWhile_head_nospace z _ hz, ← hrev, List.reverse_reverse]

end strings

/-- White space around a specification does not change what `scanner-ip` parses. -/
theorem ScannerIP.parsePorts_pad (pre s post : Str)
    (hpre : ∀ c ∈ pre, unicode.IsSpace c = true) (hpost : ∀ c ∈ post, unicode.IsSpace c = true) :
    ScannerIP.parsePorts (pre ++ s ++ post) = ScannerIP.parsePorts s := by
  unfold ScannerIP.parsePorts
  simp only [strings.ReplaceAll_append,
    strings.Fields_append_spaces _ _ (strings.ReplaceAll_spaces post hpost),
    strings.Fields_spaces_append _ _ (strings.ReplaceAll_spaces pre hpre)]

theorem mem_fullRange (p : Int) : p ∈ fullRange ↔ 1 ≤ p ∧ p ≤ 65535 := by
  rw [fullRange_eq, mem_upFrom]
  constructor <;> intro h <;> constructor <;> omega

/-- The keyword `all`, in any letter case and with white space around it, in
both tools. -/
theorem parsePorts_all (pre post : Str) (x y z : Char)
    (hpre : ∀ c ∈ pre, unicode.IsSpace c = true) (hpost : ∀ c ∈ post, unicode.IsSpace c = true)
    (hx : x = 'a' ∨ x = 'A') (hy : y = 'l' ∨ y = 'L') (hz : z = 'l' ∨ z = 'L') :
    ScannerPort.parsePorts (pre ++ [x, y, z] ++ post) = .ok fullRange ∧
      ScannerIP.parsePorts (pre ++ [x, y, z] ++ post) = .error (.invalidPort [x, y, z]) := by
  have hxs : unicode.IsSpace x = false := by rcases hx with rfl | rfl <;> decide
  have hzs : unicode.IsSpace z = false := by rcases hz with rfl | rfl <;> decide
  have htrim : strings.TrimSpace (pre ++ [x, y, z] ++ post) = [x, y, z] :=
    strings.TrimSpace_pad pre post [y, z] [y, x] x z hpre hpost hxs hzs rfl
  have hlow : strings.ToLower [x, y, z] = "all".toList := by
    rcases hx with rfl | rfl <;> rcases hy with rfl | rfl <;> rcases hz with rfl | rfl <;> decide
  constructor
  · rw [ScannerPort.parsePorts_eq, htrim, if_pos hlow]
  · rw [ScannerIP.parsePorts_pad pre _ post hpre hpost]
    rcases hx with rfl | rfl <;> rcases hy with rfl | rfl <;> rcases hz with rfl | rfl <;> decide

/-! ## Lemmas on the removal of duplicates -/

/-- The state of the loop after the list `l`: the map holds the elements of
`l`, and `ports` is `l` without the later repeats. -/
theorem dedup_foldl (l : List Int) :
    (∀ k, k ∈ (l.foldl dedupStep { portMap := [], ports := [] }).portMap ↔ k ∈ l) ∧
      (l.foldl dedupStep { portMap := [], ports := [] }).ports = l.reverse.dedup.reverse := by
  induction l using List.reverseRecOn with
  | nil => exact ⟨fun k => Iff.rfl, rfl⟩
  | append_singleton pre x ih =>
    obtain ⟨ih1, ih2⟩ := ih
    rw [List.foldl_append, List.foldl_cons, List.foldl_nil]
    generalize List.foldl dedupStep { portMap := [], ports := [] } pre = st at ih1 ih2
    unfold dedupStep
    by_cases hx : x ∈ pre
    · have hel : List.elem x st.portMap = true := List.elem_iff.mpr ((ih1 x).mpr hx)
      rw [hel]
      simp only [Bool.true_eq_false, if_false]
      refine ⟨fun k => ?_, ?_⟩
      · rw [ih1 k, List.mem_append, List.mem_singleton]
        constructor
        · exact Or.inl
        · rintro (h | rfl)
          · exact h
          · exact hx
      · rw [ih2, List.reverse_append, List.reverse_singleton, List.singleton_append,
          List.dedup_cons_of_mem (List.mem_reverse.mpr hx)]
    · have hel : List.elem x st.portMap = false := by
        cases h : List.elem x st.portMap with
        | false => rfl
        | true => exact absurd ((ih1 x).mp (List.elem_iff.mp h)) hx
      rw [hel]
      simp only [if_true]
      refine ⟨fun k => ?_, ?_⟩
      · rw [List.mem_cons, ih1 k, List.mem_append, List.mem_singleton]
        exact or_comm
      · rw [ih2, List.reverse_append, List.reverse_singleton, List.singleton_append,
          List.dedup_cons_of_not_mem (fun h => hx (List.mem_reverse.mp h)), List.reverse_cons]

theorem removeDuplicates_eq (l : List Int) : removeDuplicates l = l.reverse.dedup.reverse :=
  (dedup_foldl l).2

theorem removeDuplicates_nodup (l : List Int) : (removeDuplicates l).Nodup := by
  rw [removeDuplicates_eq]
  exact List.nodup_reverse.mpr (List.nodup_dedup _)

theorem mem_removeDuplicates (l : List Int) (x : Int) : x ∈ removeDuplicates l ↔ x ∈ l := by
  rw [removeDuplicates_eq, List.mem_reverse, List.mem_dedup, List.mem_reverse]

theorem removeDuplicates_sublist (l : List Int) : (removeDuplicates l).Sublist l := by
  rw [removeDuplicates_eq]
  have h := List.dedup_sublist l.reverse
  have h2 := h.reverse
  rwa [List.reverse_reverse] at h2

theorem removeDuplicates_snoc (pre : List Int) (x : Int) :
    removeDuplicates (pre ++ [x]) =
      if x ∈ pre then removeDuplicates pre else removeDuplicates pre ++ [x] := by
  rw [removeDuplicates_eq, removeDuplicates_eq, List.reverse_append, List.reverse_singleton,
    List.singleton_append]
  by_cases hx : x ∈ pre
  · rw [if_pos hx, List.dedup_cons_of_mem (List.mem_reverse.mpr hx)]
  · rw [if_neg hx, List.dedup_cons_of_not_mem (fun h => hx (List.mem_reverse.mp h)),
      List.reverse_cons]

theorem removeDuplicates_of_nodup (l : List Int) (h : l.Nodup) : removeDuplicates l = l := by
  rw [removeDuplicates_eq, (List.nodup_reverse.mpr h).dedup, List.reverse_reverse]

theorem removeDuplicates_eq_nil (l : List Int) : removeDuplicates l = [] ↔ l = [] := by
  constructor
  · intro h
    cases l with
    | nil => rfl
    | cons a t =>
      have : a ∈ removeDuplicates (a :: t) := (mem_removeDuplicates _ a).mpr (List.mem_cons_self _ _)
      rw [h] at this
      exact absurd this (List.not_mem_nil _)
  · rintro rfl
    rfl

/-! ## Lemmas on the ports that are parsed and built -/

theorem rangeLoop_inRange (n : Nat) (p : Int) (ports r : List Int)
    (h : rangeLoop n p ports = .ok r) (hp : ∀ x ∈ ports, 1 ≤ x ∧ x ≤ 65535) :
    ∀ x ∈ r, 1 ≤ x ∧ x ≤ 65535 := by
  induction n generalizing p ports with
  | zero =>
    rw [rangeLoop] at h
    cases h
    exact hp
  | succ n ih =>
    rw [rangeLoop] at h
    by_cases hout : p < 1 ∨ p > 65535
    · rw [if_pos hout] at h
      cases h
    · rw [if_neg hout] at h
      refine ih (p + 1) (ports ++ [p]) h ?_
      intro x hx
      rcases List.mem_append.mp hx with hx | hx
      · exact hp x hx
      · rw [List.mem_singleton] at hx
        subst hx
        omega

theorem parsePart_inRange (part : Str) (ports r : List Int)
    (h : parsePart part ports = .ok r) (hp : ∀ x ∈ ports, 1 ≤ x ∧ x ≤ 65535) :
    ∀ x ∈ r, 1 ≤ x ∧ x ≤ 65535 := by
  unfold parsePart at h
  split at h
  · split at h
    · split at h
      · cases h
      · split at h
        · cases h
        · split at h
          · cases h
          · exact rangeLoop_inRange _ _ _ _ h hp
    · cases h
  · split at h
    · cases h
    · split at h
      · cases h
      · rename_i port _ hout
        cases h
        intro x hx
        rcases List.mem_append.mp hx with hx | hx
        · exact hp x hx
        · rw [List.mem_singleton] at hx
          subst hx
          omega

theorem parseParts_inRange (parts : List Str) (ports r : List Int)
    (h : parseParts parts ports = .ok r) (hp : ∀ x ∈ ports, 1 ≤ x ∧ x ≤ 65535) :
    ∀ x ∈ r, 1 ≤ x ∧ x ≤ 65535 := by
  induction parts generalizing ports with
  | nil =>
    rw [parseParts] at h
    cases h
    exact hp
  | cons part rest ih =>
    rw [parseParts] at h
    split at h
    · cases h
    · rename_i ports1 h1
      exact ih ports1 h (parsePart_inRange part ports ports1 h1 hp)

/-- Every port that `parsePorts` of `scanner-ip` returns is in `[1, 65535]`. -/
theorem ScannerIP.ip_parsePorts_inRange (s : Str) (r : List Int)
    (h : ScannerIP.parsePorts s = .ok r) : ∀ x ∈ r, 1 ≤ x ∧ x ≤ 65535 :=
  parseParts_inRange _ [] r h (fun _ hx => absurd hx (List.not_mem_nil _))

/-- Every port that `parsePorts` of `scanner-port` returns is in `[1, 65535]`. -/
theorem ScannerPort.port_parsePorts_inRange (s : Str) (r : List Int)
    (h : ScannerPort.parsePorts s = .ok r) : ∀ x ∈ r, 1 ≤ x ∧ x ≤ 65535 := by
  rw [ScannerPort.parsePorts_eq] at h
  split at h
  · have hr : fullRange = r := Except.ok.inj h
    rw [← hr]
    exact fun x hx => (mem_fullRange x).mp hx
  · exact ScannerIP.ip_parsePorts_inRange s r h

theorem ScannerIP.ip_readPortsFromFile_ok (file : PortFile) (r : List Int)
    (h : ScannerIP.readPortsFromFile file = .ok r) :
    file.opens = true ∧ file.scanFails = false ∧ collectLines file.lines [] ≠ [] ∧
      ScannerIP.parsePorts (strings.Join (collectLines file.lines []) [' ']) = .ok r := by
  unfold ScannerIP.readPortsFromFile at h
  split at h
  · cases h
  · rename_i h1
    simp only at h
    split at h
    · cases h
    · rename_i h2
      split at h
      · cases h
      · rename_i h3
        refine ⟨by simpa using h1, by simpa using h2, ?_, h⟩
        intro h4
        rw [h4] at h3
        exact h3 rfl

theorem ScannerPort.port_readPortsFromFile_ok (file : PortFile) (r : List Int)
    (h : ScannerPort.readPortsFromFile file = .ok r) :
    file.opens = true ∧ file.scanFails = false ∧ collectLines file.lines [] ≠ [] ∧
      ScannerPort.parsePorts (strings.Join (collectLines file.lines []) [' ']) = .ok r := by
  unfold ScannerPort.readPortsFromFile at h
  split at h
  · cases h
  · rename_i h1
    simp only at h
    split at h
    · cases h
    · rename_i h2
      split at h
      · cases h
      · rename_i h3
        refine ⟨by simpa using h1, by simpa using h2, ?_, h⟩
        intro h4
        rw [h4] at h3
        exact h3 rfl

theorem length_pos_iff_ne_nil (args : List Str) : args.length > 0 ↔ args ≠ [] := by
  cases args <;> simp

/-- When `scanner-ip` builds its ports, they are the ports of the file followed
by the ports of the arguments, without duplicates, and there is one at least. -/
theorem ScannerIP.ip_buildPorts_ok (portFile : Option PortFile) (args : List Str)
    (ports : List Int) (h : ScannerIP.buildPorts portFile args = .ok ports) :
    ∃ filePorts cmdPorts, FilePortsAre ScannerIP.readPortsFromFile portFile filePorts ∧
      ArgPortsAre ScannerIP.parsePorts args cmdPorts ∧
      ports = removeDuplicates (filePorts ++ cmdPorts) ∧ ports ≠ [] := by
  unfold ScannerIP.buildPorts at h
  split at h
  · cases h
  · rename_i fp hfile
    split at h
    · cases h
    · rename_i all hargs
      simp only at h
      split at h
      · cases h
      · rename_i hlen
        cases h
        have hF : FilePortsAre ScannerIP.readPortsFromFile portFile fp := by
          unfold ScannerIP.portsFromFile at hfile
          unfold FilePortsAre
          split at hfile
          · cases hfile
            rfl
          · split at hfile
            · cases hfile
            · rename_i fps hread
              cases hfile
              simpa using hread
        have hne : removeDuplicates all ≠ [] := by
          intro hnil
          rw [hnil] at hlen
          exact hlen rfl
        unfold ScannerIP.portsFromArgs at hargs
        split at hargs
        · rename_i hpos
          simp only at hargs
          split at hargs
          · cases hargs
          · rename_i cmd hparse
            cases hargs
            refine ⟨fp, cmd, hF, ?_, rfl, hne⟩
            unfold ArgPortsAre
            rw [if_neg ((length_pos_iff_ne_nil args).mp hpos)]
            exact hparse
        · rename_i hpos
          cases hargs
          refine ⟨fp, [], hF, ?_, by rw [List.append_nil], hne⟩
          unfold ArgPortsAre
          rw [if_pos]
          by_contra hne2
          exact hpos ((length_pos_iff_ne_nil args).mpr hne2)

theorem fullRange_ne_nil : fullRange ≠ [] := by
  intro h
  have := congrArg List.length h
  rw [fullRange_eq, length_upFrom] at this
  exact absurd this (by decide)

theorem removeDuplicates_fullRange : removeDuplicates fullRange = fullRange :=
  removeDuplicates_of_nodup _ (by rw [fullRange_eq]; exact nodup_upFrom _ _)

/-- The end of the building in `scanner-port`: all ports when nothing was
collected, the collected ports without duplicates otherwise. -/
theorem ScannerPort.finishPorts_eq (allPorts : List Int) (isRangeOrAll : Bool) :
    ScannerPort.finishPorts allPorts isRangeOrAll =
      if allPorts = [] then
        .ok { ports := fullRange, isRangeOrAll := true, defaulted := true }
      else
        .ok { ports := removeDuplicates allPorts, isRangeOrAll := isRangeOrAll,
              defaulted := false } := by
  unfold ScannerPort.finishPorts
  by_cases h : allPorts = []
  · subst h
    have h1 : appendUpTo 65535 1 [] = fullRange := by
      unfold fullRange
      rfl
    have h2 : ¬ fullRange.length = 0 := by
      rw [fullRange_eq, length_upFrom]
      decide
    simp only [List.length_nil, decide_True, if_true, h1, removeDuplicates_fullRange, if_neg h2]
  · have h1 : ¬ allPorts.length = 0 := fun hl => h (List.length_eq_zero.mp hl)
    have h2 : (removeDuplicates allPorts).length ≠ 0 := fun hl =>
      h ((removeDuplicates_eq_nil _).mp (List.length_eq_zero.mp hl))
    simp only [h1, decide_False, Bool.false_eq_true, if_false, if_neg h2, if_neg h]

theorem ScannerPort.portsFromFile_ok (portFile : Option PortFile) (x : List Int × Bool)
    (h : ScannerPort.portsFromFile portFile = .ok x) :
    FilePortsAre ScannerPort.readPortsFromFile portFile x.1 ∧ x.2 = fileFlag portFile := by
  unfold ScannerPort.portsFromFile at h
  unfold FilePortsAre fileFlag
  split at h
  · cases h
    exact ⟨rfl, rfl⟩
  · rename_i file
    simp only at h
    split at h
    · cases h
    · rename_i fps hread
      cases h
      have hopen := (ScannerPort.port_readPortsFromFile_ok file fps hread).1
      simp only [List.nil_append, hopen, if_true]
      exact ⟨hread, trivial⟩

theorem ScannerPort.portsFromArgs_ok (args : List Str) (allPorts : List Int) (b : Bool)
    (x : List Int × Bool) (h : ScannerPort.portsFromArgs args allPorts b = .ok x) :
    ∃ cmdPorts, ArgPortsAre ScannerPort.parsePorts args cmdPorts ∧
      x.1 = allPorts ++ cmdPorts ∧ x.2 = (argFlag args || b) := by
  unfold ScannerPort.portsFromArgs at h
  unfold ArgPortsAre argFlag
  split at h
  · rename_i hpos
    have hne : args ≠ [] := (length_pos_iff_ne_nil args).mp hpos
    simp only at h
    split at h
    · cases h
    · rename_i cmd hparse
      refine ⟨cmd, by rw [if_neg hne]; exact hparse, ?_⟩
      split at h
      · rename_i hflag
        cases h
        refine ⟨rfl, ?_⟩
        simp only [ne_eq, hne, not_false_eq_true, true_and, hflag, decide_True, Bool.true_or]
      · rename_i hflag
        cases h
        refine ⟨rfl, ?_⟩
        simp only [ne_eq, hne, not_false_eq_true, true_and, hflag, decide_False, Bool.false_or]
  · rename_i hpos
    have he : args = [] := by
      by_contra hne
      exact hpos ((length_pos_iff_ne_nil args).mpr hne)
    cases h
    refine ⟨[], by rw [if_pos he], by rw [List.append_nil], ?_⟩
    simp [he]

/-- When `scanner-port` builds its ports: they are all ports when the file and
the arguments give no port, and otherwise the ports of the file followed by
the ports of the arguments, without duplicates. -/
theorem ScannerPort.port_buildPorts_ok (portFile : Option PortFile) (args : List Str)
    (r : PortSet) (h : ScannerPort.buildPorts portFile args = .ok r) :
    ∃ filePorts cmdPorts, FilePortsAre ScannerPort.readPortsFromFile portFile filePorts ∧
      ArgPortsAre ScannerPort.parsePorts args cmdPorts ∧
      r = if filePorts ++ cmdPorts = [] then
            { ports := fullRange, isRangeOrAll := true, defaulted := true }
          else
            { ports := removeDuplicates (filePorts ++ cmdPorts),
              isRangeOrAll := argFlag args || fileFlag portFile, defaulted := false } := by
  unfold ScannerPort.buildPorts at h
  split at h
  · cases h
  · rename_i x hfile
    split at h
    · cases h
    · rename_i y hargs
      obtain ⟨hF, hflag⟩ := ScannerPort.portsFromFile_ok portFile x hfile
      obtain ⟨cmd, hA, hy1, hy2⟩ := ScannerPort.portsFromArgs_ok args x.1 x.2 y hargs
      refine ⟨x.1, cmd, hF, hA, ?_⟩
      rw [ScannerPort.finishPorts_eq, hy1, hy2, hflag] at h
      split at h
      · rename_i hnil
        rw [if_pos hnil]
        exact (Except.ok.inj h).symm
      · rename_i hnil
        rw [if_neg hnil]
        exact (Except.ok.inj h).symm

theorem mem_TrimSpace_of_nospace (s : Str) (c : Char) (hc : unicode.IsSpace c = false) :
    c ∈ strings.TrimSpace s ↔ c ∈ s := by
  constructor
  · exact strings.mem_of_mem_TrimSpace s c
  · intro h
    obtain ⟨pre, post, hs, hpre, hpost⟩ := strings.TrimSpace_decomp s
    rw [hs] at h
    rcases List.mem_append.mp h with h | h
    · rcases List.mem_append.mp h with h | h
      · rw [hpre c h] at hc
        cases hc
      · exact h
    · rw [hpost c h] at hc
      cases hc

/-- The classification loop finds a range or `all` exactly when some line that
is neither empty nor a comment, once trimmed, is `all` in any letter case or
has a hyphen. -/
theorem fileHasRangeOrAll_iff (lines : List Str) :
    fileHasRangeOrAll lines = true ↔
      ∃ text ∈ lines, strings.TrimSpace text ≠ [] ∧
        strings.HasPrefix (strings.TrimSpace text) '#' = false ∧
        (strings.ToLower (strings.TrimSpace text) = "all".toList ∨ '-' ∈ text) := by
  induction lines with
  | nil => simp [fileHasRangeOrAll]
  | cons text rest ih =>
    have hdash : strings.Contains (strings.TrimSpace text) '-' = true ↔ '-' ∈ text := by
      unfold strings.Contains
      rw [List.elem_iff]
      exact mem_TrimSpace_of_nospace text '-' (by decide)
    rw [fileHasRangeOrAll]
    simp only [List.mem_cons, exists_eq_or_imp]
    by_cases hskip : strings.TrimSpace text = [] ∨ strings.HasPrefix (strings.TrimSpace text) '#' = true
    · rw [if_pos hskip, ih]
      constructor
      · intro h
        exact Or.inr h
      · rintro (⟨h1, h2, _⟩ | h)
        · rcases hskip with hs | hs
          · exact absurd hs h1
          · rw [h2] at hs
            cases hs
        · exact h
    · rw [if_neg hskip]
      have h1 : strings.TrimSpace text ≠ [] := fun h => hskip (Or.inl h)
      have h2 : strings.HasPrefix (strings.TrimSpace text) '#' = false := by
        cases h : strings.HasPrefix (strings.TrimSpace text) '#' with
        | false => rfl
        | true => exact absurd (Or.inr h) hskip
      by_cases hflag : strings.ToLower (strings.TrimSpace text) = "all".toList ∨
          strings.Contains (strings.TrimSpace text) '-' = true
      · rw [if_pos hflag]
        simp only [true_iff]
        left
        refine ⟨h1, h2, ?_⟩
        rcases hflag with h | h
        · exact Or.inl h
        · exact Or.inr (hdash.mp h)
      · rw [if_neg hflag, ih]
        constructor
        · intro h
          exact Or.inr h
        · rintro (⟨_, _, h⟩ | h)
          · exfalso
            apply hflag
            rcases h with h | h
            · exact Or.inl h
            · exact Or.inr (hdash.mpr h)
          · exact h

theorem FilePortsAre.file_inRange_ip {portFile : Option PortFile} {filePorts : List Int}
    (h : FilePortsAre ScannerIP.readPortsFromFile portFile filePorts) :
    ∀ x ∈ filePorts, 1 ≤ x ∧ x ≤ 65535 := by
  unfold FilePortsAre at h
  split at h
  · subst h
    exact fun _ hx => absurd hx (List.not_mem_nil _)
  · exact ScannerIP.ip_parsePorts_inRange _ _ (ScannerIP.ip_readPortsFromFile_ok _ _ h).2.2.2

theorem FilePortsAre.file_inRange_port {portFile : Option PortFile} {filePorts : List Int}
    (h : FilePortsAre ScannerPort.readPortsFromFile portFile filePorts) :
    ∀ x ∈ filePorts, 1 ≤ x ∧ x ≤ 65535 := by
  unfold FilePortsAre at h
  split at h
  · subst h
    exact fun _ hx => absurd hx (List.not_mem_nil _)
  · exact ScannerPort.port_parsePorts_inRange _ _ (ScannerPort.port_readPortsFromFile_ok _ _ h).2.2.2

theorem ArgPortsAre.arg_inRange_ip {args : List Str} {cmdPorts : List Int}
    (h : ArgPortsAre ScannerIP.parsePorts args cmdPorts) :
    ∀ x ∈ cmdPorts, 1 ≤ x ∧ x ≤ 65535 := by
  unfold ArgPortsAre at h
  split at h
  · subst h
    exact fun _ hx => absurd hx (List.not_mem_nil _)
  · exact ScannerIP.ip_parsePorts_inRange _ _ h

theorem ArgPortsAre.arg_inRange_port {args : List Str} {cmdPorts : List Int}
    (h : ArgPortsAre ScannerPort.parsePorts args cmdPorts) :
    ∀ x ∈ cmdPorts, 1 ≤ x ∧ x ≤ 65535 := by
  unfold ArgPortsAre at h
  split at h
  · subst h
    exact fun _ hx => absurd hx (List.not_mem_nil _)
  · exact ScannerPort.port_parsePorts_inRange _ _ h

/-- What `scanner-ip` hands to `scanPorts` is not empty, has no duplicates and
holds ports of `[1, 65535]` only. -/
theorem ScannerIP.ip_buildPorts_wellFormed (portFile : Option PortFile) (args : List Str)
    (ports : List Int) (h : ScannerIP.buildPorts portFile args = .ok ports) :
    ports ≠ [] ∧ ports.Nodup ∧ ∀ p ∈ ports, 1 ≤ p ∧ p ≤ 65535 := by
  obtain ⟨fp, ap, hF, hA, rfl, hne⟩ := ScannerIP.ip_buildPorts_ok portFile args ports h
  refine ⟨hne, removeDuplicates_nodup _, ?_⟩
  intro p hp
  rcases List.mem_append.mp ((mem_removeDuplicates _ p).mp hp) with hp | hp
  · exact hF.file_inRange_ip p hp
  · exact hA.arg_inRange_ip p hp

/-- What `scanner-port` hands to `scanPorts` is not empty, has no duplicates
and holds ports of `[1, 65535]` only. -/
theorem ScannerPort.port_buildPorts_wellFormed (portFile : Option PortFile) (args : List Str)
    (r : PortSet) (h : ScannerPort.buildPorts portFile args = .ok r) :
    r.ports ≠ [] ∧ r.ports.Nodup ∧ ∀ p ∈ r.ports, 1 ≤ p ∧ p ≤ 65535 := by
  obtain ⟨fp, ap, hF, hA, hr⟩ := ScannerPort.port_buildPorts_ok portFile args r h
  by_cases hnil : fp ++ ap = []
  · rw [if_pos hnil] at hr
    have hports : r.ports = fullRange := congrArg PortSet.ports hr
    rw [hports]
    refine ⟨fullRange_ne_nil, ?_, fun p hp => (mem_fullRange p).mp hp⟩
    rw [fullRange_eq]
    exact nodup_upFrom _ _
  · rw [if_neg hnil] at hr
    subst hr
    refine ⟨fun h0 => hnil ((removeDuplicates_eq_nil _).mp h0), removeDuplicates_nodup _, ?_⟩
    intro p hp
    rcases List.mem_append.mp ((mem_removeDuplicates _ p).mp hp) with hp | hp
    · exact hF.file_inRange_port p hp
    · exact hA.arg_inRange_port p hp

theorem fileFlag_iff (portFile : Option PortFile) :
    fileFlag portFile = true ↔
      ∃ file, portFile = some file ∧ ∃ text ∈ file.lines, strings.TrimSpace text ≠ [] ∧
        strings.HasPrefix (strings.TrimSpace text) '#' = false ∧
        (strings.ToLower (strings.TrimSpace text) = "all".toList ∨ '-' ∈ text) := by
  unfold fileFlag
  cases portFile with
  | none => simp
  | some file =>
    simp only [Option.some.injEq, exists_eq_left']
    exact fileHasRangeOrAll_iff file.lines

theorem argFlag_iff (args : List Str) :
    argFlag args = true ↔
      args ≠ [] ∧
        (strings.ToLower (strings.TrimSpace (strings.Join args [' '])) = "all".toList ∨
          '-' ∈ strings.Join args [' ']) := by
  unfold argFlag strings.Contains
  rw [decide_eq_true_iff, List.elem_iff]

/-- With one positional argument that has no letter `a`, the block that parses
the arguments appends its ports, and sets the flag exactly when the argument has
a hyphen. -/
theorem ScannerPort.portsFromArgs_single (t : Str) (cmdPorts allPorts : List Int) (b : Bool)
    (hparse : ScannerPort.parsePorts t = .ok cmdPorts) (ha : ∀ c ∈ t, c ≠ 'a' ∧ c ≠ 'A') :
    ScannerPort.portsFromArgs [t] allPorts b =
      .ok (allPorts ++ cmdPorts, if strings.Contains t '-' = true then true else b) := by
  have hall : ¬ strings.ToLower (strings.TrimSpace t) = "all".toList := by
    intro hall
    obtain ⟨c, hc, hca⟩ := strings.exists_a_of_all t hall
    rcases hca with rfl | rfl
    · exact (ha _ hc).1 rfl
    · exact (ha _ hc).2 rfl
  unfold ScannerPort.portsFromArgs
  have hj : strings.Join [t] [' '] = t := rfl
  simp only [List.length_singleton, gt_iff_lt, Nat.lt_one_iff, Nat.one_ne_zero, zero_lt_one,
    if_true, hj, hparse, hall, false_or]
  split <;> rfl

theorem ScannerPort.buildPorts_none (args : List Str) :
    ScannerPort.buildPorts none args =
      match ScannerPort.portsFromArgs args [] false with
      | .error e => .error e
      | .ok fromArgs => ScannerPort.finishPorts fromArgs.1 fromArgs.2 := rfl

/-- Building from one positional argument that has no letter `a`. -/
theorem ScannerPort.buildPorts_single (t : Str) (cmdPorts : List Int)
    (hparse : ScannerPort.parsePorts t = .ok cmdPorts) (ha : ∀ c ∈ t, c ≠ 'a' ∧ c ≠ 'A') :
    ScannerPort.buildPorts none [t] =
      if cmdPorts = [] then
        .ok { ports := fullRange, isRangeOrAll := true, defaulted := true }
      else
        .ok { ports := removeDuplicates cmdPorts,
              isRangeOrAll := if strings.Contains t '-' = true then true else false,
              defaulted := false } := by
  rw [ScannerPort.buildPorts_none, ScannerPort.portsFromArgs_single t cmdPorts [] false hparse ha]
  simp only [List.nil_append]
  rw [ScannerPort.finishPorts_eq]

theorem ScannerPort.parsePorts_Itoa (p : Int) (h1 : 1 ≤ p) (h2 : p ≤ 65535) :
    ScannerPort.parsePorts (strconv.Itoa p) = .ok [p] ∧
      ∀ c ∈ strconv.Itoa p, c ≠ 'a' ∧ c ≠ 'A' := by
  obtain ⟨n, rfl⟩ := Int.eq_ofNat_of_zero_le (by omega : 0 ≤ p)
  rw [strconv.Itoa_ofNat]
  refine ⟨?_, (toDigits_props n).2.2.2.2.2⟩
  rw [ScannerPort.parsePorts_of_no_a _ (toDigits_props n).2.2.2.2.2, ScannerIP.parsePorts_number,
    if_neg (by unfold strconv.maxInt; omega), if_neg (by omega)]

theorem ScannerPort.parsePorts_sameRange (p : Int) (h1 : 1 ≤ p) (h2 : p ≤ 65535) :
    ScannerPort.parsePorts (strconv.Itoa p ++ '-' :: strconv.Itoa p) = .ok [p] ∧
      ∀ c ∈ strconv.Itoa p ++ '-' :: strconv.Itoa p, c ≠ 'a' ∧ c ≠ 'A' := by
  obtain ⟨n, rfl⟩ := Int.eq_ofNat_of_zero_le (by omega : 0 ≤ p)
  rw [strconv.Itoa_ofNat]
  refine ⟨?_, (rangeSpec_props n n).2.2.2⟩
  rw [ScannerPort.parsePorts_of_no_a _ (rangeSpec_props n n).2.2.2,
    ScannerIP.parsePorts_range n n (by unfold strconv.maxInt; omega)
      (by unfold strconv.maxInt; omega),
    if_neg (by omega), rangeLoop_ok _ _ _ h1 (by omega)]
  have : ((n : Int) - (n : Int) + 1).toNat = 1 := by omega
  rw [this, upFrom_succ, List.nil_append]
  rfl

/-! ## Lemmas on `scanPorts` -/

theorem tcping_status (net : Network) (k : Nat) (ip : Str) (port : Int) :
    (tcping net k ip port).Status = .SUCCESS ↔ (net k port).connected = true := by
  unfold tcping
  cases h : (net k port).connected <;> simp [h]

theorem ScannerPort.scanStep_open (ip : Str) (port : Int) (st : ScannerPort.ScanState)
    (result : ScanResult) (h : result.Status = .SUCCESS) :
    (ScannerPort.scanStep ip port st result).successCount = st.successCount + 1 ∧
      (ScannerPort.scanStep ip port st result).failedCount = st.failedCount ∧
      (ScannerPort.scanStep ip port st result).openPorts = st.openPorts ++ [port] := by
  unfold ScannerPort.scanStep
  rw [if_pos h]
  cases st.resultFile <;> exact ⟨rfl, rfl, rfl⟩

theorem ScannerPort.scanStep_closed (ip : Str) (port : Int) (st : ScannerPort.ScanState)
    (result : ScanResult) (h : ¬ result.Status = .SUCCESS) :
    (ScannerPort.scanStep ip port st result).successCount = st.successCount ∧
      (ScannerPort.scanStep ip port st result).failedCount = st.failedCount + 1 ∧
      (ScannerPort.scanStep ip port st result).openPorts = st.openPorts := by
  unfold ScannerPort.scanStep
  rw [if_neg h]
  exact ⟨rfl, rfl, rfl⟩

theorem openAmong_cons (net : Network) (k : Nat) (port : Int) (rest : List Int) :
    openAmong net k (port :: rest) =
      if (net k port).connected = true then port :: openAmong net (k + 1) rest
      else openAmong net (k + 1) rest := by
  unfold openAmong
  rw [List.enumFrom_cons, List.filter_cons]
  split <;> rfl

theorem openAmong_sublist (net : Network) (k : Nat) (ports : List Int) :
    (openAmong net k ports).Sublist ports := by
  unfold openAmong
  have h := (List.filter_sublist (p := fun kp => (net kp.1 kp.2).connected)
    (ports.enumFrom k)).map Prod.snd
  rwa [List.enumFrom_map_snd] at h

theorem openAmong_length_le (net : Network) (k : Nat) (ports : List Int) :
    (openAmong net k ports).length ≤ ports.length :=
  (openAmong_sublist net k ports).length_le

/-- The counters and the list of open ports after the loop of `scanPorts` in
`scanner-port`. -/
theorem ScannerPort.port_scanLoop_counts (net : Network) (ip : Str) (k : Nat) (ports : List Int)
    (st : ScannerPort.ScanState) :
    (ScannerPort.scanLoop net ip k ports st).successCount =
        st.successCount + (openAmong net k ports).length ∧
      (ScannerPort.scanLoop net ip k ports st).failedCount =
        st.failedCount + (ports.length - (openAmong net k ports).length : Int) ∧
      (ScannerPort.scanLoop net ip k ports st).openPorts =
        st.openPorts ++ openAmong net k ports := by
  induction ports generalizing k st with
  | nil => simp [ScannerPort.scanLoop, openAmong]
  | cons port rest ih =>
    rw [ScannerPort.scanLoop, openAmong_cons]
    obtain ⟨ih1, ih2, ih3⟩ := ih (k + 1) (ScannerPort.scanStep ip port st (tcping net k ip port))
    rw [ih1, ih2, ih3]
    by_cases hc : (net k port).connected = true
    · obtain ⟨h1, h2, h3⟩ := ScannerPort.scanStep_open ip port st _
        ((tcping_status net k ip port).mpr hc)
      rw [h1, h2, h3, if_pos hc]
      refine ⟨?_, ?_, ?_⟩
      · simp only [List.length_cons]
        push_cast
        ring
      · simp only [List.length_cons]
        push_cast
        ring
      · simp
    · obtain ⟨h1, h2, h3⟩ := ScannerPort.scanStep_closed ip port st _
        (fun h => hc ((tcping_status net k ip port).mp h))
      rw [h1, h2, h3, if_neg hc]
      refine ⟨rfl, ?_, rfl⟩
      simp only [List.length_cons]
      push_cast
      ring

/-- The counters after the loop of `scanPorts` in `scanner-ip`. -/
theorem ScannerIP.ip_scanLoop_counts (net : Network) (ip : Str) (k : Nat) (ports : List Int)
    (st : ScannerIP.ScanState) :
    (ScannerIP.scanLoop net ip k ports st).successCount =
        st.successCount + (openAmong net k ports).length ∧
      (ScannerIP.scanLoop net ip k ports st).failedCount =
        st.failedCount + (ports.length - (openAmong net k ports).length : Int) := by
  induction ports generalizing k st with
  | nil => simp [ScannerIP.scanLoop, openAmong]
  | cons port rest ih =>
    rw [ScannerIP.scanLoop, openAmong_cons]
    obtain ⟨ih1, ih2⟩ := ih (k + 1) (ScannerIP.scanStep st (tcping net k ip port))
    rw [ih1, ih2]
    unfold ScannerIP.scanStep
    by_cases hc : (net k port).connected = true
    · rw [if_pos ((tcping_status net k ip port).mpr hc), if_pos hc]
      refine ⟨?_, ?_⟩
      · simp only [List.length_cons]
        push_cast
        ring
      · simp only [List.length_cons]
        push_cast
        ring
    · rw [if_neg (fun h => hc ((tcping_status net k ip port).mp h)), if_neg hc]
      refine ⟨rfl, ?_⟩
      simp only [List.length_cons]
      push_cast
      ring

/-! ## Lemmas on tokens, the keyword `all` and port files -/

namespace strings

theorem fieldsFrom_eq_nil (cur a : Str) (h : fieldsFrom cur a = []) :
    cur = [] ∧ ∀ c ∈ a, unicode.IsSpace c = true := by
  induction a generalizing cur with
  | nil =>
    rw [fieldsFrom] at h
    split at h
    · rename_i hc
      exact ⟨hc, fun _ hx => absurd hx (List.not_mem_nil _)⟩
    · cases h
  | cons c cs ih =>
    rw [fieldsFrom] at h
    split at h
    · rename_i hsp
      split at h
      · rename_i hc
        obtain ⟨_, h2⟩ := ih [] h
        refine ⟨hc, ?_⟩
        intro d hd
        rcases List.mem_cons.mp hd with rfl | hd
        · exact hsp
        · exact h2 d hd
      · cases h
    · obtain ⟨h1, _⟩ := ih (cur ++ [c]) h
      simp at h1

theorem Fields_eq_nil (a : Str) (h : Fields a = []) : ∀ c ∈ a, unicode.IsSpace c = true :=
  (fieldsFrom_eq_nil [] a h).2

theorem Fields_spaces (a : Str) (h : ∀ c ∈ a, unicode.IsSpace c = true) : Fields a = [] := by
  unfold Fields
  rw [fieldsFrom_spaces [] a h]
  rfl

theorem dropWhile_spaces (a : Str) (h : ∀ c ∈ a, unicode.IsSpace c = true) :
    a.dropWhile unicode.IsSpace = [] := by
  have := dropWhile_spaces_append a [] h
  simpa using this

theorem TrimSpace_spaces_append (pre s : Str) (hpre : ∀ c ∈ pre, unicode.IsSpace c = true) :
    TrimSpace (pre ++ s) = TrimSpace s := by
  unfold TrimSpace
  rw [dropWhile_spaces_append pre s hpre]

theorem TrimSpace_append_spaces (s post : Str) (hpost : ∀ c ∈ post, unicode.IsSpace c = true) :
    TrimSpace (s ++ post) = TrimSpace s := by
  unfold TrimSpace
  congr 1
  induction s with
  | nil =>
    rw [List.nil_append, dropWhile_spaces post hpost]
    rfl
  | cons c cs ih =>
    rw [List.cons_append, List.dropWhile_cons, List.dropWhile_cons]
    by_cases hc : unicode.IsSpace c = true
    · rw [if_pos hc, if_pos hc]
      exact ih
    · rw [if_neg hc, if_neg hc, ← List.cons_append, List.reverse_append,
        dropWhile_spaces_append post.reverse _ (fun d hd => hpost d (List.mem_reverse.mp hd))]

theorem TrimSpace_spaces (a : Str) (h : ∀ c ∈ a, unicode.IsSpace c = true) :
    TrimSpace a = [] := by
  unfold TrimSpace
  rw [dropWhile_spaces a h]
  rfl

/-- A text that is the keyword `all` once trimmed and lowered is three letters,
`a` or `A`, then `l` or `L` twice, with white space around them. -/
theorem keyword_decomp (s : Str) (h : ToLower (TrimSpace s) = "all".toList) :
    ∃ pre post : Str, ∃ x y z : Char, s = pre ++ [x, y, z] ++ post ∧
      (∀ c ∈ pre, unicode.IsSpace c = true) ∧ (∀ c ∈ post, unicode.IsSpace c = true) ∧
      (x = 'a' ∨ x = 'A') ∧ (y = 'l' ∨ y = 'L') ∧ (z = 'l' ∨ z = 'L') := by
  obtain ⟨pre, post, hs, hpre, hpost⟩ := TrimSpace_decomp s
  unfold ToLower at h
  have hlen : (TrimSpace s).length = 3 := by
    have := congrArg List.length h
    simpa using this
  match ht : TrimSpace s, hlen with
  | [x, y, z], _ =>
    rw [ht] at h hs
    simp only [List.map_cons, List.map_nil] at h
    have hx : unicode.ToLower x = 'a' := by
      have := congrArg (fun l => l.head?) h
      simpa using this
    have hy : unicode.ToLower y = 'l' := by
      have := congrArg (fun l => l.tail.head?) h
      simpa using this
    have hz : unicode.ToLower z = 'l' := by
      have := congrArg (fun l => l.tail.tail.head?) h
      simpa using this
    exact ⟨pre, post, x, y, z, hs, hpre, hpost, unicode.ToLower_eq_a x hx,
      unicode.ToLower_eq_l y hy, unicode.ToLower_eq_l z hz⟩

end strings

/-- Whether a text is the keyword `all`, as `parsePorts` of `scanner-port`
tests it. -/
theorem keyword_props (s : Str)
    (h : strings.ToLower (strings.TrimSpace s) = "all".toList) :
    ',' ∉ s ∧ ∃ t, strings.Fields s = [t] ∧ strings.TrimSpace s = t := by
  obtain ⟨pre, post, x, y, z, hs, hpre, hpost, hx, hy, hz⟩ := strings.keyword_decomp s h
  have hxs : unicode.IsSpace x = false := by rcases hx with rfl | rfl <;> decide
  have hys : unicode.IsSpace y = false := by rcases hy with rfl | rfl <;> decide
  have hzs : unicode.IsSpace z = false := by rcases hz with rfl | rfl <;> decide
  have hxc : x ≠ ',' := by rcases hx with rfl | rfl <;> decide
  have hyc : y ≠ ',' := by rcases hy with rfl | rfl <;> decide
  have hzc : z ≠ ',' := by rcases hz with rfl | rfl <;> decide
  refine ⟨?_, [x, y, z], ?_, ?_⟩
  · rw [hs]
    intro hmem
    simp only [List.mem_append, List.mem_cons, List.mem_singleton, List.not_mem_nil,
      or_false] at hmem
    rcases hmem with (hm | hm | hm | hm) | hm
    · exact unicode.IsSpace_ne_comma _ (hpre _ hm) rfl
    · exact hxc hm.symm
    · exact hyc hm.symm
    · exact hzc hm.symm
    · exact unicode.IsSpace_ne_comma _ (hpost _ hm) rfl
  · rw [hs, strings.Fields_append_spaces _ _ hpost, strings.Fields_spaces_append _ _ hpre]
    apply strings.Fields_token _ (by simp)
    intro c hc
    simp only [List.mem_cons, List.mem_singleton, List.not_mem_nil, or_false] at hc
    rcases hc with rfl | rfl | rfl
    · exact hxs
    · exact hys
    · exact hzs
  · rw [hs]
    exact strings.TrimSpace_pad pre post [y, z] [y, x] x z hpre hpost hxs hzs rfl

/-- Two texts joined by a space are the keyword `all` only if one of them is. -/
theorem keyword_of_space_join (a b : Str)
    (h : strings.ToLower (strings.TrimSpace (a ++ ' ' :: b)) = "all".toList) :
    strings.ToLower (strings.TrimSpace a) = "all".toList ∨
      strings.ToLower (strings.TrimSpace b) = "all".toList := by
  obtain ⟨_, t, hf, _⟩ := keyword_props _ h
  rw [strings.Fields_append_space a b ' ' (by decide)] at hf
  have hcase : strings.Fields a = [] ∨ strings.Fields b = [] := by
    cases ha : strings.Fields a with
    | nil => exact Or.inl rfl
    | cons x xs =>
      cases hb : strings.Fields b with
      | nil => exact Or.inr rfl
      | cons y ys =>
        rw [ha, hb] at hf
        have := congrArg List.length hf
        simp at this
  rcases hcase with ha | hb
  · right
    have hsp := strings.Fields_eq_nil a ha
    rw [strings.TrimSpace_spaces_append a _ hsp,
      show (' ' :: b) = [' '] ++ b from rfl,
      strings.TrimSpace_spaces_append [' '] b (by decide)] at h
    exact h
  · left
    have hsp := strings.Fields_eq_nil b hb
    rw [strings.TrimSpace_append_spaces a (' ' :: b)] at h
    · exact h
    · intro c hc
      rcases List.mem_cons.mp hc with rfl | hc
      · decide
      · exact hsp c hc

/-- A text with a comma is not the keyword `all`. -/
theorem not_keyword_of_comma (s : Str) (h : ',' ∈ s) :
    ¬ strings.ToLower (strings.TrimSpace s) = "all".toList :=
  fun hk => (keyword_props s hk).1 h

theorem rangeLoop_acc (n : Nat) (p : Int) (ports : List Int) :
    rangeLoop n p ports = appendParsed ports (rangeLoop n p []) := by
  induction n generalizing p ports with
  | zero => simp [rangeLoop, appendParsed]
  | succ n ih =>
    rw [rangeLoop, rangeLoop]
    split
    · rfl
    · rw [ih (p + 1) (ports ++ [p]), ih (p + 1) ([] ++ [p])]
      cases rangeLoop n (p + 1) [] <;> simp [appendParsed]

theorem parsePart_acc (part : Str) (ports : List Int) :
    parsePart part ports = appendParsed ports (parsePart part []) := by
  unfold parsePart
  split
  · split
    · split
      · rfl
      · split
        · rfl
        · split
          · rfl
          · exact rangeLoop_acc _ _ _
    · rfl
  · split
    · rfl
    · split
      · rfl
      · simp [appendParsed]

theorem parseParts_acc (parts : List Str) (ports : List Int) :
    parseParts parts ports = appendParsed ports (parseParts parts []) := by
  induction parts generalizing ports with
  | nil => simp [parseParts, appendParsed]
  | cons part rest ih =>
    rw [parseParts, parseParts, parsePart_acc part ports]
    cases h : parsePart part [] with
    | error e => rfl
    | ok r =>
      simp only [appendParsed]
      rw [ih (ports ++ r), ih r]
      cases parseParts rest [] <;> simp [appendParsed]

theorem parseParts_append (xs ys : List Str) (ports : List Int) :
    parseParts (xs ++ ys) ports =
      match parseParts xs ports with
      | .error e => .error e
      | .ok r => parseParts ys r := by
  induction xs generalizing ports with
  | nil => rfl
  | cons x rest ih =>
    rw [List.cons_append, parseParts, parseParts]
    cases parsePart x ports with
    | error e => rfl
    | ok r => exact ih r

/-- In `scanner-ip`, the parse of two texts joined by a space or a comma is the
two parses put together. -/
theorem ScannerIP.parsePorts_sep (a b : Str) (sep : Char) (hsep : sep = ' ' ∨ sep = ',') :
    ScannerIP.parsePorts (a ++ sep :: b) =
      bothParsed (ScannerIP.parsePorts a) (ScannerIP.parsePorts b) := by
  have hr : strings.ReplaceAll (a ++ sep :: b) ',' ' ' =
      strings.ReplaceAll a ',' ' ' ++ ' ' :: strings.ReplaceAll b ',' ' ' := by
    rcases hsep with rfl | rfl <;> simp [strings.ReplaceAll]
  unfold ScannerIP.parsePorts bothParsed
  simp only [hr, strings.Fields_append_space _ _ ' ' (by decide), parseParts_append]
  cases parseParts (strings.Fields (strings.ReplaceAll a ',' ' ')) [] with
  | error e => rfl
  | ok r => exact parseParts_acc _ r

theorem bothParsed_ok (ra rb : Except PortError (List Int)) (r : List Int) :
    bothParsed ra rb = .ok r ↔ ∃ pa pb, ra = .ok pa ∧ rb = .ok pb ∧ r = pa ++ pb := by
  cases ra with
  | error e =>
    constructor
    · intro h
      cases h
    · rintro ⟨pa, pb, h1, _, _⟩
      cases h1
  | ok pa =>
    cases rb with
    | error e =>
      constructor
      · intro h
        cases h
      · rintro ⟨_, pb, _, h2, _⟩
        cases h2
    | ok pb =>
      constructor
      · intro h
        exact ⟨pa, pb, rfl, rfl, (Except.ok.inj h).symm⟩
      · rintro ⟨pa2, pb2, h1, h2, rfl⟩
        cases h1
        cases h2
        rfl

theorem collectLines_eq (lines portStrs : List Str) :
    collectLines lines portStrs = portStrs ++ keptLines lines := by
  induction lines generalizing portStrs with
  | nil => simp [collectLines, keptLines]
  | cons text rest ih =>
    rw [collectLines]
    by_cases hskip : strings.TrimSpace text = [] ∨
        strings.HasPrefix (strings.TrimSpace text) '#' = true
    · rw [if_pos hskip, ih]
      have : keptLines (text :: rest) = keptLines rest := by
        unfold keptLines
        rw [List.map_cons, List.filter_cons, if_neg]
        rcases hskip with h | h <;> simp [h]
      rw [this]
    · rw [if_neg hskip, ih]
      have : keptLines (text :: rest) = strings.TrimSpace text :: keptLines rest := by
        unfold keptLines
        rw [List.map_cons, List.filter_cons, if_pos]
        simp only [not_or] at hskip
        simp [hskip.1, hskip.2]
      rw [this]
      simp

theorem keptLines_append (a b : List Str) : keptLines (a ++ b) = keptLines a ++ keptLines b := by
  simp [keptLines]

theorem keptLines_skip (text : Str)
    (h : strings.TrimSpace text = [] ∨ strings.HasPrefix (strings.TrimSpace text) '#' = true) :
    keptLines [text] = [] := by
  unfold keptLines
  rw [List.map_cons, List.map_nil, List.filter_cons, if_neg]
  · rfl
  · rcases h with h | h <;> simp [h]

theorem rangeLoop_error (n : Nat) (p : Int) (ports : List Int) (e : PortError)
    (h : rangeLoop n p ports = .error e) : ∃ q, e = .portOutOfRange q := by
  induction n generalizing p ports with
  | zero =>
    rw [rangeLoop] at h
    cases h
  | succ n ih =>
    rw [rangeLoop] at h
    split at h
    · cases h
      exact ⟨p, rfl⟩
    · exact ih _ _ h

theorem parsePart_error (part : Str) (ports : List Int) (e : PortError)
    (h : parsePart part ports = .error e) : e ≠ .noPortsInFile := by
  unfold parsePart at h
  split at h
  · split at h
    · split at h
      · cases h
        exact fun h => PortError.noConfusion h
      · split at h
        · cases h
          exact fun h => PortError.noConfusion h
        · split at h
          · cases h
            exact fun h => PortError.noConfusion h
          · obtain ⟨q, rfl⟩ := rangeLoop_error _ _ _ _ h
            exact fun h => PortError.noConfusion h
    · cases h
      exact fun h => PortError.noConfusion h
  · split at h
    · cases h
      exact fun h => PortError.noConfusion h
    · split at h
      · cases h
        exact fun h => PortError.noConfusion h
      · cases h

theorem parseParts_error (parts : List Str) (ports : List Int) (e : PortError)
    (h : parseParts parts ports = .error e) : e ≠ .noPortsInFile := by
  induction parts generalizing ports with
  | nil =>
    rw [parseParts] at h
    cases h
  | cons part rest ih =>
    rw [parseParts] at h
    split at h
    · rename_i e1 h1
      cases h
      exact parsePart_error part ports _ h1
    · exact ih _ h

/-- No parse fails with the error of an empty port file. -/
theorem parsePorts_ne_noPorts (s : Str) :
    ScannerIP.parsePorts s ≠ .error .noPortsInFile ∧
      ScannerPort.parsePorts s ≠ .error .noPortsInFile := by
  have hip : ScannerIP.parsePorts s ≠ .error .noPortsInFile :=
    fun h => parseParts_error _ _ _ h rfl
  refine ⟨hip, ?_⟩
  rw [ScannerPort.parsePorts_eq]
  split
  · exact fun h => Except.noConfusion h
  · exact hip

/-- Reading a port file that opens and scans without an error. -/
theorem readPortsFromFile_lines (lines : List Str) :
    (ScannerIP.readPortsFromFile { opens := true, lines := lines, scanFails := false } =
      if keptLines lines = [] then .error .noPortsInFile
      else ScannerIP.parsePorts (strings.Join (keptLines lines) [' '])) ∧
    (ScannerPort.readPortsFromFile { opens := true, lines := lines, scanFails := false } =
      if keptLines lines = [] then .error .noPortsInFile
      else ScannerPort.parsePorts (strings.Join (keptLines lines) [' '])) := by
  constructor
  · simp [ScannerIP.readPortsFromFile, collectLines_eq]
  · simp [ScannerPort.readPortsFromFile, collectLines_eq]

/-- A text of white space and commas has no token. -/
theorem Fields_blank (s : Str) (h : ∀ c ∈ s, unicode.IsSpace c = true ∨ c = ',') :
    strings.Fields (strings.ReplaceAll s ',' ' ') = [] := by
  apply strings.Fields_spaces
  intro c hc
  unfold strings.ReplaceAll at hc
  obtain ⟨d, hd, rfl⟩ := List.mem_map.mp hc
  split
  · decide
  · rcases h d hd with h1 | h1
    · exact h1
    · rename_i hne
      exact absurd h1 hne

/-- A token that is `all` in some letter case is not a port. -/
theorem parsePart_all (t : Str) (ports : List Int)
    (h : strings.ToLower t = "all".toList) : parsePart t ports = .error (.invalidPort t) := by
  have hlen : t.length = 3 := by
    have := congrArg List.length h
    simpa [strings.ToLower] using this
  match t, hlen with
  | [x, y, z], _ =>
    unfold strings.ToLower at h
    simp only [List.map_cons, List.map_nil] at h
    have hx : unicode.ToLower x = 'a' := by
      have := congrArg (fun l => l.head?) h
      simpa using this
    have hy : unicode.ToLower y = 'l' := by
      have := congrArg (fun l => l.tail.head?) h
      simpa using this
    have hz : unicode.ToLower z = 'l' := by
      have := congrArg (fun l => l.tail.tail.head?) h
      simpa using this
    have key : parsePart [x, y, z] [] = .error (.invalidPort [x, y, z]) := by
      rcases unicode.ToLower_eq_a x hx with rfl | rfl <;>
        rcases unicode.ToLower_eq_l y hy with rfl | rfl <;>
        rcases unicode.ToLower_eq_l z hz with rfl | rfl <;> decide
    rw [parsePart_acc, key]
    rfl

/-! ## Lemmas on the average and on the result file -/

theorem wrap64_wrap_add (a b : Int) : wrap64 (wrap64 a + b) = wrap64 (a + b) := by
  unfold wrap64
  omega

theorem wrap64_idem (a : Int) : wrap64 (wrap64 a) = wrap64 a := by
  unfold wrap64
  omega

theorem wrap64_zero : wrap64 0 = 0 := by decide

theorem wrap64_of_fits (x : Int) (h1 : -9223372036854775808 ≤ x)
    (h2 : x ≤ 9223372036854775807) : wrap64 x = x := by
  unfold wrap64
  omega

/-- The elapsed times of the probes of `ports` that connect, when the first
probe is the `k`-th of the run: a list of pairs is filtered, as in
`openAmong`. -/
theorem openAmong_length_eq (net : Network) (k : Nat) (ports : List Int) :
    (((ports.enumFrom k).filter (fun kp => (net kp.1 kp.2).connected)).map
      (fun kp => (net kp.1 kp.2).elapsed)).length = (openAmong net k ports).length := by
  simp [openAmong]

theorem ScannerPort.scanStep_duration (ip : Str) (port : Int) (st : ScannerPort.ScanState)
    (result : ScanResult) :
    (ScannerPort.scanStep ip port st result).totalDuration =
      if result.Status = .SUCCESS then wrap64 (st.totalDuration + result.Duration)
      else st.totalDuration := by
  unfold ScannerPort.scanStep
  split
  · cases st.resultFile <;> rfl
  · rfl

theorem tcping_duration (net : Network) (k : Nat) (ip : Str) (port : Int) :
    (tcping net k ip port).Duration = (net k port).elapsed := by
  unfold tcping
  cases h : (net k port).connected <;> simp [h]

/-- The total of the durations after the loop of `scanPorts` in `scanner-port`:
the 64-bit sum of the elapsed times of the probes that connect. -/
theorem ScannerPort.port_scanLoop_duration (net : Network) (ip : Str) (k : Nat)
    (ports : List Int) (st : ScannerPort.ScanState)
    (hst : wrap64 st.totalDuration = st.totalDuration) :
    (ScannerPort.scanLoop net ip k ports st).totalDuration =
      wrap64 (st.totalDuration +
        (((ports.enumFrom k).filter (fun kp => (net kp.1 kp.2).connected)).map
          (fun kp => (net kp.1 kp.2).elapsed)).sum) := by
  induction ports generalizing k st with
  | nil => simpa [ScannerPort.scanLoop] using hst.symm
  | cons port rest ih =>
    rw [ScannerPort.scanLoop, List.enumFrom_cons, List.filter_cons]
    have hd := ScannerPort.scanStep_duration ip port st (tcping net k ip port)
    by_cases hc : (net k port).connected = true
    · rw [if_pos ((tcping_status net k ip port).mpr hc), tcping_duration] at hd
      rw [ih (k + 1) _ (by rw [hd]; exact wrap64_idem _), hd, if_pos hc, List.map_cons,
        List.sum_cons, wrap64_wrap_add, add_assoc]
    · rw [if_neg (fun h => hc ((tcping_status net k ip port).mp h))] at hd
      rw [ih (k + 1) _ (by rw [hd]; exact hst), hd, if_neg hc]

/-- The total of the durations after the loop of `scanPorts` in `scanner-ip`. -/
theorem ScannerIP.ip_scanLoop_duration (net : Network) (ip : Str) (k : Nat)
    (ports : List Int) (st : ScannerIP.ScanState)
    (hst : wrap64 st.totalDuration = st.totalDuration) :
    (ScannerIP.scanLoop net ip k ports st).totalDuration =
      wrap64 (st.totalDuration +
        (((ports.enumFrom k).filter (fun kp => (net kp.1 kp.2).connected)).map
          (fun kp => (net kp.1 kp.2).elapsed)).sum) := by
  induction ports generalizing k st with
  | nil => simpa [ScannerIP.scanLoop] using hst.symm
  | cons port rest ih =>
    rw [ScannerIP.scanLoop, List.enumFrom_cons, List.filter_cons]
    have hd : (ScannerIP.scanStep st (tcping net k ip port)).totalDuration =
        if (tcping net k ip port).Status = .SUCCESS then
          wrap64 (st.totalDuration + (tcping net k ip port).Duration)
        else st.totalDuration := by
      unfold ScannerIP.scanStep
      split <;> rfl
    by_cases hc : (net k port).connected = true
    · rw [if_pos ((tcping_status net k ip port).mpr hc), tcping_duration] at hd
      rw [ih (k + 1) _ (by rw [hd]; exact wrap64_idem _), hd, if_pos hc, List.map_cons,
        List.sum_cons, wrap64_wrap_add, add_assoc]
    · rw [if_neg (fun h => hc ((tcping_status net k ip port).mp h))] at hd
      rw [ih (k + 1) _ (by rw [hd]; exact hst), hd, if_neg hc]

/-- The average that both tools report: none without an open port, else the
64-bit sum of the elapsed times of the open probes divided by their number. -/
theorem scanPorts_average (net : Network) (ip : Str) (ports : List Int)
    (resultFile : Option File) (headerWritten : Bool) :
    (ScannerPort.scanPorts net ip ports resultFile headerWritten).average =
      (if (openDurations net ports).length = 0 then none
       else some ((wrap64 (openDurations net ports).sum).tdiv
        ((openDurations net ports).length : Int))) ∧
    (ScannerIP.scanPorts net ip ports).average =
      (if (openDurations net ports).length = 0 then none
       else some ((wrap64 (openDurations net ports).sum).tdiv
        ((openDurations net ports).length : Int))) := by
  have hlen : (openDurations net ports).length = (openAmong net 0 ports).length :=
    openAmong_length_eq net 0 ports
  have hP := ScannerPort.port_scanLoop_counts net ip 0 ports
    { successCount := 0, failedCount := 0, totalDuration := 0, openPorts := [],
      resultFile := resultFile, headerWritten := headerWritten }
  have hPd := ScannerPort.port_scanLoop_duration net ip 0 ports
    { successCount := 0, failedCount := 0, totalDuration := 0, openPorts := [],
      resultFile := resultFile, headerWritten := headerWritten } wrap64_zero
  have hI := ScannerIP.ip_scanLoop_counts net ip 0 ports
    { successCount := 0, failedCount := 0, totalDuration := 0 }
  have hId := ScannerIP.ip_scanLoop_duration net ip 0 ports
    { successCount := 0, failedCount := 0, totalDuration := 0 } wrap64_zero
  have hsum : (((ports.enumFrom 0).filter (fun kp => (net kp.1 kp.2).connected)).map
      (fun kp => (net kp.1 kp.2).elapsed)).sum = (openDurations net ports).sum := rfl
  simp only [zero_add, hsum] at hP hPd hI hId
  unfold ScannerPort.scanPorts ScannerIP.scanPorts
  simp only [hP.1, hPd, hI.1, hId, hlen]
  constructor <;>
  · by_cases h0 : (openAmong net 0 ports).length = 0
    · simp [h0]
    · have hpos : (0 : Int) < ((openAmong net 0 ports).length : Int) := by omega
      simp [h0, hpos]

theorem ScannerPort.scanLoop_append (net : Network) (ip : Str) (k : Nat) (pre rest : List Int)
    (st : ScannerPort.ScanState) :
    ScannerPort.scanLoop net ip k (pre ++ rest) st =
      ScannerPort.scanLoop net ip (k + pre.length) rest (ScannerPort.scanLoop net ip k pre st) := by
  induction pre generalizing k st with
  | nil => rfl
  | cons p ps ih =>
    rw [List.cons_append, ScannerPort.scanLoop, ScannerPort.scanLoop, ih, List.length_cons]
    congr 1
    omega

/-- What the loop body appends to a file whose writes succeed: the header if it
has not been written, then the line of the port. -/
theorem ScannerPort.appendToFile_writable (ip : Str) (port : Int) (content : Str)
    (headerWritten : Bool) :
    ScannerPort.appendToFile ip port { content := content, writable := true } headerWritten =
      ({ content := content ++ (if headerWritten = false then ScannerPort.headerLine ip else []) ++
          ScannerPort.portLine port, writable := true }, true) := by
  cases headerWritten <;> simp [ScannerPort.appendToFile, File.WriteString]

theorem ScannerPort.scanStep_file_open (ip : Str) (port : Int) (st : ScannerPort.ScanState)
    (result : ScanResult) (content : Str) (h : result.Status = .SUCCESS)
    (hf : st.resultFile = some { content := content, writable := true }) :
    (ScannerPort.scanStep ip port st result).resultFile =
        some { content := content ++
          (if st.headerWritten = false then ScannerPort.headerLine ip else []) ++
          ScannerPort.portLine port, writable := true } ∧
      (ScannerPort.scanStep ip port st result).headerWritten = true := by
  unfold ScannerPort.scanStep
  rw [if_pos h]
  simp [hf, ScannerPort.appendToFile_writable]

theorem ScannerPort.scanStep_file_closed (ip : Str) (port : Int) (st : ScannerPort.ScanState)
    (result : ScanResult) (h : ¬ result.Status = .SUCCESS) :
    (ScannerPort.scanStep ip port st result).resultFile = st.resultFile ∧
      (ScannerPort.scanStep ip port st result).headerWritten = st.headerWritten := by
  unfold ScannerPort.scanStep
  rw [if_neg h]
  exact ⟨rfl, rfl⟩

/-- The result file after the loop of `scanPorts`, when its writes succeed: the
content before, then the header if it was not written yet and a port is open,
then the lines of the open ports. -/
theorem ScannerPort.scanLoop_file (net : Network) (ip : Str) (k : Nat) (ports : List Int)
    (st : ScannerPort.ScanState) (content : Str)
    (hf : st.resultFile = some { content := content, writable := true }) :
    (ScannerPort.scanLoop net ip k ports st).resultFile =
      some { content := content ++
        (if st.headerWritten = false ∧ openAmong net k ports ≠ [] then ScannerPort.headerLine ip
         else []) ++
        ((openAmong net k ports).map ScannerPort.portLine).flatten, writable := true } := by
  induction ports generalizing k st content with
  | nil => simp [ScannerPort.scanLoop, openAmong, hf]
  | cons port rest ih =>
    rw [ScannerPort.scanLoop, openAmong_cons]
    by_cases hc : (net k port).connected = true
    · obtain ⟨h1, h2⟩ := ScannerPort.scanStep_file_open ip port st (tcping net k ip port) content
        ((tcping_status net k ip port).mpr hc) hf
      rw [ih (k + 1) _ _ h1, h2, if_pos hc]
      cases st.headerWritten <;> simp
    · obtain ⟨h1, h2⟩ := ScannerPort.scanStep_file_closed ip port st (tcping net k ip port)
        (fun h => hc ((tcping_status net k ip port).mp h))
      rw [ih (k + 1) _ content (h1.trans hf), h2, if_neg hc]

theorem ScannerPort.scanLoop_nil_handle (net : Network) (ip : Str) (k : Nat) (ports : List Int)
    (st : ScannerPort.ScanState) (hf : st.resultFile = none) :
    (ScannerPort.scanLoop net ip k ports st).resultFile = none := by
  induction ports generalizing k st with
  | nil => exact hf
  | cons port rest ih =>
    rw [ScannerPort.scanLoop]
    apply ih
    unfold ScannerPort.scanStep
    split
    · simp only [hf]
    · exact hf

/-- What `main` opens for a range or `all` when `result.txt` can be opened: the
file with its content, and `headerWritten` set when that content is not
empty. -/
theorem ScannerPort.openResultFile_bulk (disk : Disk) (hopen : disk.opens = true) :
    ScannerPort.openResultFile true disk =
      (some { content := disk.resultTxt.getD [], writable := disk.writable },
        decide (disk.resultTxt.getD [] ≠ [])) := by
  unfold ScannerPort.openResultFile
  simp only [if_true, hopen]
  cases h : disk.resultTxt with
  | none => simp
  | some c => cases c <;> simp

theorem ScannerPort.openResultFile_targeted (disk : Disk) :
    ScannerPort.openResultFile false disk = (none, false) := rfl

theorem ScannerPort.openResultFile_closed (b : Bool) (disk : Disk) (hopen : disk.opens = false) :
    ScannerPort.openResultFile b disk = (none, false) := by
  unfold ScannerPort.openResultFile
  cases b <;> simp [hopen]

theorem ScannerPort.scanPorts_resultFile (net : Network) (ip : Str) (ports : List Int)
    (resultFile : Option File) (headerWritten : Bool) :
    (ScannerPort.scanPorts net ip ports resultFile headerWritten).resultFile =
      (ScannerPort.scanLoop net ip 0 ports
        (ScannerPort.startState resultFile headerWritten)).resultFile := rfl

/-- The result file after a scan for a range or `all`, when `result.txt` can
be opened and written. -/
theorem ScannerPort.scanPorts_bulk_file (net : Network) (ip : Str) (ports : List Int)
    (disk : Disk) (hopen : disk.opens = true) (hwrite : disk.writable = true) :
    (ScannerPort.scanPorts net ip ports (ScannerPort.openResultFile true disk).1
        (ScannerPort.openResultFile true disk).2).resultFile =
      some { content := disk.resultTxt.getD [] ++
        (if disk.resultTxt.getD [] = [] ∧ openAmong net 0 ports ≠ [] then
          ScannerPort.headerLine ip else []) ++
        ((openAmong net 0 ports).map ScannerPort.portLine).flatten, writable := true } := by
  rw [ScannerPort.scanPorts_resultFile, ScannerPort.openResultFile_bulk disk hopen, hwrite,
    ScannerPort.scanLoop_file net ip 0 ports _ (disk.resultTxt.getD []) rfl]
  simp only [ScannerPort.startState, decide_eq_false_iff_not, ne_eq, not_not]

/-! ## Lemmas on successive runs and on the lines of the result file -/

theorem headerLine_ne_nil (ip : Str) : ScannerPort.headerLine ip ≠ [] := by
  simp [ScannerPort.headerLine]

/-- The result file after one run for a range or `all` whose writes succeed. -/
theorem Run.after_bulk (r : Run) (resultTxt : Option Str)
    (hb : r.set.isRangeOrAll = true) (hw : r.writable = true) :
    (r.after resultTxt).getD [] =
      resultTxt.getD [] ++
        (if resultTxt.getD [] = [] ∧ r.recorded ≠ [] then ScannerPort.headerLine r.ip else []) ++
        (r.recorded.map ScannerPort.portLine).flatten := by
  unfold Run.after Run.recorded ScannerPort.scanAndSave
  simp only [hb]
  cases ho : r.opens with
  | false =>
    rw [ScannerPort.openResultFile_closed true _ rfl]
    have h3 : (ScannerPort.scanPorts r.net r.ip r.set.ports none false).resultFile = none :=
      ScannerPort.scanLoop_nil_handle r.net r.ip 0 r.set.ports _ rfl
    simp [h3, ScannerPort.diskAfter]
  | true =>
    rw [ScannerPort.scanPorts_bulk_file r.net r.ip r.set.ports
      { resultTxt := resultTxt, opens := true, writable := r.writable } rfl hw]
    simp [ScannerPort.diskAfter]

theorem sinkHeader_eq_nil (runs : List Run) (h : sinkHeader runs = []) :
    ∀ r ∈ runs, r.recorded = [] := by
  induction runs with
  | nil => exact fun _ hr => absurd hr (List.not_mem_nil _)
  | cons x rest ih =>
    rw [sinkHeader] at h
    split at h
    · rename_i hx
      intro r hr
      rcases List.mem_cons.mp hr with rfl | hr
      · exact hx
      · exact ih h r hr
    · exact absurd h (headerLine_ne_nil _)

theorem sinkHeader_of_none (runs : List Run) (h : ∀ r ∈ runs, r.recorded = []) :
    sinkHeader runs = [] := by
  induction runs with
  | nil => rfl
  | cons x rest ih =>
    rw [sinkHeader, if_pos (h x (List.mem_cons_self _ _))]
    exact ih (fun r hr => h r (List.mem_cons_of_mem _ hr))

theorem sinkHeader_snoc (runs : List Run) (r : Run) :
    sinkHeader (runs ++ [r]) =
      if sinkHeader runs = [] then
        (if r.recorded = [] then [] else ScannerPort.headerLine r.ip)
      else sinkHeader runs := by
  induction runs with
  | nil => simp [sinkHeader]
  | cons x rest ih =>
    rw [List.cons_append, sinkHeader, sinkHeader]
    by_cases hx : x.recorded = []
    · rw [if_pos hx, if_pos hx]
      exact ih
    · rw [if_neg hx, if_neg hx, if_neg (headerLine_ne_nil _)]

theorem sinkHeader_cases (runs : List Run) :
    (sinkHeader runs = [] ∧ ∀ r ∈ runs, r.recorded = []) ∨
      ∃ r ∈ runs, r.recorded ≠ [] ∧ sinkHeader runs = ScannerPort.headerLine r.ip := by
  induction runs with
  | nil => exact Or.inl ⟨rfl, fun _ hr => absurd hr (List.not_mem_nil _)⟩
  | cons x rest ih =>
    rw [sinkHeader]
    by_cases hx : x.recorded = []
    · rw [if_pos hx]
      rcases ih with ⟨h1, h2⟩ | ⟨r, hr, h1, h2⟩
      · left
        refine ⟨h1, ?_⟩
        intro r hr
        rcases List.mem_cons.mp hr with rfl | hr
        · exact hx
        · exact h2 r hr
      · exact Or.inr ⟨r, List.mem_cons_of_mem _ hr, h1, h2⟩
    · rw [if_neg hx]
      exact Or.inr ⟨x, List.mem_cons_self _ _, hx, rfl⟩

theorem flatten_recorded_nil (runs : List Run) (h : ∀ r ∈ runs, r.recorded = []) :
    (runs.map Run.recorded).flatten = [] := by
  induction runs with
  | nil => rfl
  | cons x rest ih =>
    rw [List.map_cons, List.flatten_cons, h x (List.mem_cons_self _ _), List.nil_append]
    exact ih (fun r hr => h r (List.mem_cons_of_mem _ hr))

/-- The result file after successive runs for a range or `all` whose writes
succeed, started on a missing or empty file. -/
theorem runAll_text (runs : List Run) (start : Option Str) (hstart : start.getD [] = [])
    (hruns : ∀ r ∈ runs, r.set.isRangeOrAll = true ∧ r.writable = true) :
    (runAll runs start).getD [] = sinkText runs := by
  induction runs using List.reverseRecOn with
  | nil => simpa [runAll, sinkText, sinkHeader] using hstart
  | append_singleton runs r ih =>
    have ih1 := ih (fun x hx => hruns x (List.mem_append_left _ hx))
    obtain ⟨hb, hw⟩ := hruns r (List.mem_append_right _ (List.mem_singleton_self r))
    have hstep : runAll (runs ++ [r]) start = r.after (runAll runs start) := by
      simp [runAll, List.foldl_append]
    rw [hstep, Run.after_bulk r _ hb hw, ih1]
    unfold sinkText
    rw [sinkHeader_snoc, List.map_append, List.flatten_append, List.map_append,
      List.flatten_append]
    simp only [List.map_cons, List.map_nil, List.flatten_cons, List.flatten_nil,
      List.append_nil]
    by_cases hh : sinkHeader runs = []
    · have hnone := sinkHeader_eq_nil runs hh
      rw [hh, flatten_recorded_nil runs hnone]
      by_cases hr : r.recorded = []
      · simp [hr]
      · simp [hr]
    · rw [if_neg hh]
      have hne : ¬ (sinkHeader runs ++
          (List.map ScannerPort.portLine (runs.map Run.recorded).flatten).flatten = [] ∧
          r.recorded ≠ []) := by
        intro hc
        exact hh (List.append_eq_nil.mp hc.1).1
      rw [if_neg hne]
      simp

namespace strings

theorem Split_cons_line (sep : Char) (a rest : Str) (ha : sep ∉ a) :
    Split (a ++ sep :: rest) sep = a :: Split rest sep := by
  unfold Split
  rw [splitFrom_nosep sep [] a _ ha]
  simp [splitFrom]

/-- The pieces of lines that each end with the separator are the lines, and an
empty piece after the last. -/
theorem Split_lines (sep : Char) (ls : List Str) (h : ∀ l ∈ ls, sep ∉ l) :
    Split ((ls.map (fun l => l ++ [sep])).flatten) sep = ls ++ [[]] := by
  induction ls with
  | nil => rfl
  | cons l rest ih =>
    rw [List.map_cons, List.flatten_cons, List.append_assoc, List.singleton_append,
      Split_cons_line sep l _ (h l (List.mem_cons_self _ _)),
      ih (fun x hx => h x (List.mem_cons_of_mem _ hx))]
    rfl

end strings

theorem Itoa_chars (p : Int) :
    '\n' ∉ strconv.Itoa p ∧ isHeaderLine (strconv.Itoa p) = false := by
  have key : ∀ n : Nat, '\n' ∉ Nat.toDigits 10 n ∧
      ∃ c r, Nat.toDigits 10 n = c :: r ∧ strconv.IsDigit c := by
    intro n
    obtain ⟨h1, h2, _⟩ := strconv.toDigits_spec n
    refine ⟨fun h => (h1 _ h).ne_of_toNat (by decide) rfl, ?_⟩
    cases hd : Nat.toDigits 10 n with
    | nil => exact absurd hd h2
    | cons c r => exact ⟨c, r, rfl, h1 c (by rw [hd]; exact List.mem_cons_self _ _)⟩
  cases p with
  | ofNat n =>
    obtain ⟨h1, c, r, h2, h3⟩ := key n
    refine ⟨h1, ?_⟩
    show isHeaderLine (Nat.toDigits 10 n) = false
    rw [h2]
    have hc : c ≠ '#' := h3.ne_of_toNat (by decide)
    simp [isHeaderLine, List.isPrefixOf, hc.symm]
  | negSucc n =>
    obtain ⟨h1, _⟩ := key (n + 1)
    constructor
    · show '\n' ∉ '-' :: Nat.toDigits 10 (n + 1)
      intro h
      rcases List.mem_cons.mp h with h | h
      · exact absurd h (by decide)
      · exact h1 h
    · show isHeaderLine ('-' :: Nat.toDigits 10 (n + 1)) = false
      rfl

theorem isHeaderLine_header (ip : Str) :
    isHeaderLine ("# Open ports for ".toList ++ ip) = true := by
  unfold isHeaderLine
  rw [List.isPrefixOf_iff_prefix]
  exact List.prefix_append _ _

/-- The lines of the text that successive runs leave: the header, if a port was
recorded, the decimal of each recorded port, and an empty piece after the last
newline. -/
theorem fileLines_sinkText (runs : List Run) (hip : ∀ r ∈ runs, '\n' ∉ r.ip) :
    ((∀ r ∈ runs, r.recorded = []) ∧ fileLines (sinkText runs) = [[]]) ∨
      ∃ r ∈ runs, r.recorded ≠ [] ∧
        fileLines (sinkText runs) =
          ("# Open ports for ".toList ++ r.ip) ::
            (((runs.map Run.recorded).flatten).map strconv.Itoa ++ [[]]) := by
  have hbody : (((runs.map Run.recorded).flatten).map ScannerPort.portLine) =
      (((runs.map Run.recorded).flatten).map strconv.Itoa).map (fun l => l ++ ['\n']) := by
    rw [List.map_map]
    rfl
  have hnl : ∀ l ∈ ((runs.map Run.recorded).flatten).map strconv.Itoa, '\n' ∉ l := by
    intro l hl
    obtain ⟨p, _, rfl⟩ := List.mem_map.mp hl
    exact (Itoa_chars p).1
  rcases sinkHeader_cases runs with ⟨h1, h2⟩ | ⟨r, hr, h1, h2⟩
  · left
    refine ⟨h2, ?_⟩
    unfold sinkText fileLines
    rw [h1, flatten_recorded_nil runs h2]
    rfl
  · right
    refine ⟨r, hr, h1, ?_⟩
    unfold sinkText fileLines
    rw [h2, hbody]
    unfold ScannerPort.headerLine
    have hhdr : '\n' ∉ "# Open ports for ".toList ++ r.ip := by
      intro h
      rcases List.mem_append.mp h with h | h
      · exact absurd h (by decide)
      · exact hip r hr h
    rw [List.append_assoc, List.singleton_append, strings.Split_cons_line _ _ _ hhdr,
      strings.Split_lines _ _ hnl]

theorem filter_header_ports (ps : List Int) :
    (ps.map strconv.Itoa ++ [[]]).filter isHeaderLine = [] := by
  rw [List.filter_eq_nil_iff]
  intro l hl
  rcases List.mem_append.mp hl with hl | hl
  · obtain ⟨p, _, rfl⟩ := List.mem_map.mp hl
    simp [(Itoa_chars p).2]
  · rw [List.mem_singleton] at hl
    subst hl
    decide

/-! ## The claims -/

/-- C1: for every list `L` of integers in `[1, 65535]`, in both tools,
`parsePorts` of the decimal renderings of `L` joined by commas and of the same
renderings joined by single spaces both succeed and both return exactly `L`,
in the same order and with duplicates kept. -/
theorem C1_comma_and_space_lists (L : List Int) (hL : ∀ p ∈ L, 1 ≤ p ∧ p ≤ 65535) :
    ScannerIP.parsePorts (strings.Join (L.map strconv.Itoa) [',']) = .ok L ∧
    ScannerIP.parsePorts (strings.Join (L.map strconv.Itoa) [' ']) = .ok L ∧
    ScannerPort.parsePorts (strings.Join (L.map strconv.Itoa) [',']) = .ok L ∧
    ScannerPort.parsePorts (strings.Join (L.map strconv.Itoa) [' ']) = .ok L := by
  refine ⟨ScannerIP.parsePorts_Join L ',' (Or.inl rfl) hL,
    ScannerIP.parsePorts_Join L ' ' (Or.inr rfl) hL, ?_, ?_⟩
  · rw [ScannerPort.parsePorts_of_no_a _ (no_a_Join L ',' (Or.inl rfl) hL)]
    exact ScannerIP.parsePorts_Join L ',' (Or.inl rfl) hL
  · rw [ScannerPort.parsePorts_of_no_a _ (no_a_Join L ' ' (Or.inr rfl) hL)]
    exact ScannerIP.parsePorts_Join L ' ' (Or.inr rfl) hL

/-- C1 at the list `8081, 8082, 8083`: the texts `8081,8082,8083` and
`8081 8082 8083` both parse to it, in both tools. -/
theorem C1_witness :
    ScannerIP.parsePorts "8081,8082,8083".toList = .ok [8081, 8082, 8083] ∧
    ScannerIP.parsePorts "8081 8082 8083".toList = .ok [8081, 8082, 8083] ∧
    ScannerPort.parsePorts "8081,8082,8083".toList = .ok [8081, 8082, 8083] ∧
    ScannerPort.parsePorts "8081 8082 8083".toList = .ok [8081, 8082, 8083] :=
  C1_comma_and_space_lists [8081, 8082, 8083] (by decide)

/-- C2: for `start` and `end` in `[1, 65535]`, in both tools, `parsePorts` of
`<start>-<end>` succeeds exactly when `start <= end`; it then returns the
integers from `start` to `end` in ascending order, `end - start + 1` of them,
and when `start > end` it fails with the error `start port must be <= end
port`, which is of the invalid-range class, and returns no ports. -/
theorem C2_range (start stop : Int) (hs : 1 ≤ start ∧ start ≤ 65535)
    (he : 1 ≤ stop ∧ stop ≤ 65535) :
    (ScannerIP.parsePorts (strconv.Itoa start ++ '-' :: strconv.Itoa stop) =
      if start ≤ stop then .ok (upFrom start (stop - start + 1).toNat)
      else .error .startAfterEnd) ∧
    (ScannerPort.parsePorts (strconv.Itoa start ++ '-' :: strconv.Itoa stop) =
      if start ≤ stop then .ok (upFrom start (stop - start + 1).toNat)
      else .error .startAfterEnd) ∧
    (start ≤ stop →
      ((upFrom start (stop - start + 1).toNat).length : Int) = stop - start + 1 ∧
      (upFrom start (stop - start + 1).toNat).Pairwise (· < ·) ∧
      ∀ x, x ∈ upFrom start (stop - start + 1).toNat ↔ start ≤ x ∧ x ≤ stop) ∧
    PortError.startAfterEnd.kind = ErrorKind.InvalidRange := by
  obtain ⟨a, rfl⟩ := Int.eq_ofNat_of_zero_le (by omega : 0 ≤ start)
  obtain ⟨b, rfl⟩ := Int.eq_ofNat_of_zero_le (by omega : 0 ≤ stop)
  simp only [strconv.Itoa_ofNat]
  have hip : ScannerIP.parsePorts (Nat.toDigits 10 a ++ '-' :: Nat.toDigits 10 b) =
      if (a : Int) ≤ (b : Int) then .ok (upFrom (a : Int) ((b : Int) - (a : Int) + 1).toNat)
      else .error .startAfterEnd := by
    rw [ScannerIP.parsePorts_range a b
      (by unfold strconv.maxInt; omega) (by unfold strconv.maxInt; omega)]
    by_cases h : (a : Int) ≤ (b : Int)
    · rw [if_neg (by omega), if_pos h, rangeLoop_ok _ _ _ hs.1 (by omega), List.nil_append]
    · rw [if_pos (by omega), if_neg h]
  refine ⟨hip, ?_, ?_, rfl⟩
  · rw [ScannerPort.parsePorts_of_no_a _ (rangeSpec_props a b).2.2.2]
    exact hip
  · intro h
    refine ⟨?_, pairwise_upFrom _ _, ?_⟩
    · rw [length_upFrom]
      omega
    · intro x
      rw [mem_upFrom]
      constructor <;> intro hx <;> constructor <;> omega

/-- C2 at `8080-8082`, which gives 8080, 8081, 8082, and at `8082-8080`, which
fails. -/
theorem C2_witness :
    (ScannerIP.parsePorts "8080-8082".toList = .ok [8080, 8081, 8082] ∧
      ScannerPort.parsePorts "8080-8082".toList = .ok [8080, 8081, 8082]) ∧
    (ScannerIP.parsePorts "8082-8080".toList = .error .startAfterEnd ∧
      ScannerPort.parsePorts "8082-8080".toList = .error .startAfterEnd) :=
  ⟨⟨(C2_range 8080 8082 (by decide) (by decide)).1,
      (C2_range 8080 8082 (by decide) (by decide)).2.1⟩,
    ⟨(C2_range 8082 8080 (by decide) (by decide)).1,
      (C2_range 8082 8080 (by decide) (by decide)).2.1⟩⟩

/-- C3, the counterexample: `scanner-ip` has no keyword `all`; its `parsePorts`
reads `all` as a port token and fails with `invalid port: all`. -/
theorem C3_counterexample :
    ScannerIP.parsePorts "all".toList = .error (.invalidPort "all".toList) ∧
    ScannerIP.parsePorts " All ".toList = .error (.invalidPort "All".toList) := by
  decide

/-- C3, amended: in `scanner-port`, for every text that is `all` in any letter
case with any white space around it, `parsePorts` succeeds and returns exactly
the sequence 1, 2, ..., 65535: 65535 elements, strictly ascending, without
duplicates. In `scanner-ip` the same text fails with the invalid-port error. -/
theorem C3_all_keyword (pre post : Str) (x y z : Char)
    (hpre : ∀ c ∈ pre, unicode.IsSpace c = true) (hpost : ∀ c ∈ post, unicode.IsSpace c = true)
    (hx : x = 'a' ∨ x = 'A') (hy : y = 'l' ∨ y = 'L') (hz : z = 'l' ∨ z = 'L') :
    ScannerPort.parsePorts (pre ++ [x, y, z] ++ post) = .ok fullRange ∧
    fullRange = upFrom 1 65535 ∧
    fullRange.length = 65535 ∧
    fullRange.Pairwise (· < ·) ∧
    fullRange.Nodup ∧
    (∀ p : Int, p ∈ fullRange ↔ 1 ≤ p ∧ p ≤ 65535) ∧
    ScannerIP.parsePorts (pre ++ [x, y, z] ++ post) = .error (.invalidPort [x, y, z]) := by
  obtain ⟨h1, h2⟩ := parsePorts_all pre post x y z hpre hpost hx hy hz
  refine ⟨h1, fullRange_eq, ?_, ?_, ?_, mem_fullRange, h2⟩
  · rw [fullRange_eq, length_upFrom]
  · rw [fullRange_eq]
    exact pairwise_upFrom _ _
  · rw [fullRange_eq]
    exact nodup_upFrom _ _

/-- C3 at the text ` All `. -/
theorem C3_witness :
    ScannerPort.parsePorts " All ".toList = .ok fullRange ∧ fullRange.length = 65535 :=
  have h := C3_all_keyword [' '] [' '] 'A' 'l' 'l' (by decide) (by decide)
    (Or.inr rfl) (Or.inl rfl) (Or.inl rfl)
  ⟨h.1, h.2.2.1⟩

/-- C4, the counterexample: 9223372036854775808 is greater than 65535, and its
decimal rendering is rejected with `invalid port`, not with the out-of-range
error, because it does not fit a Go `int`. -/
theorem C4_counterexample :
    ScannerIP.parsePorts (strconv.Itoa 9223372036854775808) =
      .error (.invalidPort "9223372036854775808".toList) ∧
    ScannerPort.parsePorts (strconv.Itoa 9223372036854775808) =
      .error (.invalidPort "9223372036854775808".toList) ∧
    (PortError.invalidPort "9223372036854775808".toList).kind ≠ ErrorKind.PortOutOfRange := by
  decide

/-- C4, amended: in both tools, for every non-negative integer `n` that fits a
Go `int` and is 0 or greater than 65535, `parsePorts` of its decimal rendering
fails with the out-of-range error for `n`, while an `n` that does not fit fails
with the invalid-port error; and for every range `<start>-<end>` with
`0 <= start <= end`, `end` fitting a Go `int`, and `start < 1` or
`end > 65535`, `parsePorts` fails with the out-of-range error for the first
port of the range that is out of range, and returns no ports. -/
theorem C4_out_of_range (n start stop : Nat) :
    (((n = 0 ∨ 65535 < n) → (n : Int) ≤ strconv.maxInt →
      ScannerIP.parsePorts (strconv.Itoa n) = .error (.portOutOfRange n) ∧
      ScannerPort.parsePorts (strconv.Itoa n) = .error (.portOutOfRange n)) ∧
    (strconv.maxInt < (n : Int) →
      ScannerIP.parsePorts (strconv.Itoa n) = .error (.invalidPort (strconv.Itoa n)) ∧
      ScannerPort.parsePorts (strconv.Itoa n) = .error (.invalidPort (strconv.Itoa n)))) ∧
    (start ≤ stop → (stop : Int) ≤ strconv.maxInt → (start < 1 ∨ 65535 < stop) →
      ScannerIP.parsePorts (strconv.Itoa start ++ '-' :: strconv.Itoa stop) =
        .error (.portOutOfRange (if start < 1 ∨ 65535 < start then (start : Int) else 65536)) ∧
      ScannerPort.parsePorts (strconv.Itoa start ++ '-' :: strconv.Itoa stop) =
        .error (.portOutOfRange (if start < 1 ∨ 65535 < start then (start : Int) else 65536))) := by
  simp only [strconv.Itoa_ofNat]
  have hport : ∀ m : Nat, ScannerPort.parsePorts (Nat.toDigits 10 m) =
      ScannerIP.parsePorts (Nat.toDigits 10 m) := fun m =>
    ScannerPort.parsePorts_of_no_a _ (toDigits_props m).2.2.2.2.2
  refine ⟨⟨?_, ?_⟩, ?_⟩
  · intro h0 hmax
    have : ScannerIP.parsePorts (Nat.toDigits 10 n) = .error (.portOutOfRange n) := by
      rw [ScannerIP.parsePorts_number, if_neg (by omega), if_pos (by omega)]
    exact ⟨this, (hport n).trans this⟩
  · intro hmax
    have : ScannerIP.parsePorts (Nat.toDigits 10 n) =
        .error (.invalidPort (Nat.toDigits 10 n)) := by
      rw [ScannerIP.parsePorts_number, if_pos hmax]
    exact ⟨this, (hport n).trans this⟩
  · intro hle hmax hout
    have hmax1 : (start : Int) ≤ strconv.maxInt := by
      unfold strconv.maxInt at hmax ⊢
      omega
    have : ScannerIP.parsePorts (Nat.toDigits 10 start ++ '-' :: Nat.toDigits 10 stop) =
        .error (.portOutOfRange (if start < 1 ∨ 65535 < start then (start : Int) else 65536)) := by
      rw [ScannerIP.parsePorts_range start stop hmax1 hmax, if_neg (by omega)]
      by_cases h : start < 1 ∨ 65535 < start
      · rw [if_pos h, rangeLoop_first _ _ _ (by omega) (by omega)]
      · rw [if_neg h, rangeLoop_over _ _ _ (by omega) (by omega) (by omega)]
    exact ⟨this, (ScannerPort.parsePorts_of_no_a _ (rangeSpec_props start stop).2.2.2).trans this⟩

/-- C4 at `0`, `65536` and `70000-70001`. -/
theorem C4_witness :
    ScannerPort.parsePorts "0".toList = .error (.portOutOfRange 0) ∧
    ScannerPort.parsePorts "65536".toList = .error (.portOutOfRange 65536) ∧
    ScannerPort.parsePorts "70000-70001".toList = .error (.portOutOfRange 70000) ∧
    ScannerIP.parsePorts "0".toList = .error (.portOutOfRange 0) ∧
    ScannerIP.parsePorts "65536".toList = .error (.portOutOfRange 65536) ∧
    ScannerIP.parsePorts "70000-70001".toList = .error (.portOutOfRange 70000) :=
  have h1 := (C4_out_of_range 0 70000 70001).1.1 (by decide) (by decide)
  have h2 := (C4_out_of_range 65536 70000 70001).1.1 (by decide) (by decide)
  have h3 := (C4_out_of_range 0 70000 70001).2 (by decide) (by decide) (by decide)
  ⟨h1.2, h2.2, h3.2, h1.1, h2.1, h3.1⟩

/-- C5: for every list of ports (the ports of the file followed by the ports of
the arguments), the loop that removes duplicates returns a list that has no
duplicates, has exactly the values of the input, and keeps them in the order
of their first occurrence: it is a sublist of the input, an element is kept
exactly when it does not repeat an earlier one, and the result is the input
with every later repeat of a value deleted. For the file ports 80, 443 and the
argument ports 443, 22 it gives 80, 443, 22. -/
theorem C5_removeDuplicates (filePorts cmdPorts : List Int) :
    (removeDuplicates (filePorts ++ cmdPorts)).Nodup ∧
    (∀ p, p ∈ removeDuplicates (filePorts ++ cmdPorts) ↔ p ∈ filePorts ++ cmdPorts) ∧
    (removeDuplicates (filePorts ++ cmdPorts)).Sublist (filePorts ++ cmdPorts) ∧
    removeDuplicates (filePorts ++ cmdPorts) = (filePorts ++ cmdPorts).reverse.dedup.reverse ∧
    removeDuplicates [] = [] ∧
    (∀ (pre : List Int) (x : Int), removeDuplicates (pre ++ [x]) =
      if x ∈ pre then removeDuplicates pre else removeDuplicates pre ++ [x]) ∧
    removeDuplicates ([80, 443] ++ [443, 22]) = [80, 443, 22] :=
  ⟨removeDuplicates_nodup _, mem_removeDuplicates _, removeDuplicates_sublist _,
    removeDuplicates_eq _, rfl, removeDuplicates_snoc, by decide⟩

/-- C6: in both tools, whenever the building of the port set succeeds, the
sequence handed to `scanPorts` is not empty, has no duplicates, and every
element of it is in `[1, 65535]`, for any port file and any positional
arguments. -/
theorem C6_built_ports_wellformed (portFile : Option PortFile) (args : List Str) :
    (∀ ports, ScannerIP.buildPorts portFile args = .ok ports →
      ports ≠ [] ∧ ports.Nodup ∧ ∀ p ∈ ports, 1 ≤ p ∧ p ≤ 65535) ∧
    (∀ r, ScannerPort.buildPorts portFile args = .ok r →
      r.ports ≠ [] ∧ r.ports.Nodup ∧ ∀ p ∈ r.ports, 1 ≤ p ∧ p ≤ 65535) :=
  ⟨ScannerIP.ip_buildPorts_wellFormed portFile args, ScannerPort.port_buildPorts_wellFormed portFile args⟩

/-- C6 at the port file with the lines `80` and `443` and the arguments `443`
and `22`, which both tools build to 80, 443, 22. -/
theorem C6_witness :
    (ScannerIP.buildPorts (some ⟨true, ["80".toList, "443".toList], false⟩)
        ["443".toList, "22".toList] = .ok [80, 443, 22] ∧
      ScannerPort.buildPorts (some ⟨true, ["80".toList, "443".toList], false⟩)
        ["443".toList, "22".toList] = .ok ⟨[80, 443, 22], false, false⟩) ∧
    (([80, 443, 22] : List Int) ≠ [] ∧ ([80, 443, 22] : List Int).Nodup ∧
      ∀ p ∈ ([80, 443, 22] : List Int), 1 ≤ p ∧ p ≤ 65535) ∧
    ((⟨[80, 443, 22], false, false⟩ : PortSet).ports ≠ [] ∧
      (⟨[80, 443, 22], false, false⟩ : PortSet).ports.Nodup ∧
      ∀ p ∈ (⟨[80, 443, 22], false, false⟩ : PortSet).ports, 1 ≤ p ∧ p ≤ 65535) :=
  ⟨by decide,
    (C6_built_ports_wellformed (some ⟨true, ["80".toList, "443".toList], false⟩)
      ["443".toList, "22".toList]).1 [80, 443, 22] (by decide),
    (C6_built_ports_wellformed (some ⟨true, ["80".toList, "443".toList], false⟩)
      ["443".toList, "22".toList]).2 ⟨[80, 443, 22], false, false⟩ (by decide)⟩

/-- C7, the counterexample: the port file with the lines `# web-ports` and
`80` has a line with the character `-`, and `scanner-port` builds the port 80
from it with `isRangeOrAll` false (a Targeted scan), without the default. -/
theorem C7_counterexample :
    ScannerPort.buildPorts (some ⟨true, ["# web-ports".toList, "80".toList], false⟩) [] =
      .ok { ports := [80], isRangeOrAll := false, defaulted := false } ∧
    (∃ text ∈ ["# web-ports".toList, "80".toList], '-' ∈ text) := by
  decide

/-- C7, amended: in `scanner-port`, whenever the building succeeds, the scan is
Bulk (`isRangeOrAll` is true) if and only if the default to all ports was
taken, or some line of the port file that, once trimmed, is neither empty nor
a comment beginning with `#` is, once trimmed, `all` in any letter case or has
the character `-`, or there are positional arguments and, joined by spaces,
they are `all` once trimmed and in any letter case, or have the character
`-`. -/
theorem C7_scan_mode (portFile : Option PortFile) (args : List Str) (r : PortSet)
    (h : ScannerPort.buildPorts portFile args = .ok r) :
    r.isRangeOrAll = true ↔
      (r.defaulted = true ∨
       (∃ file, portFile = some file ∧ ∃ text ∈ file.lines,
          strings.TrimSpace text ≠ [] ∧
          strings.HasPrefix (strings.TrimSpace text) '#' = false ∧
          (strings.ToLower (strings.TrimSpace text) = "all".toList ∨ '-' ∈ text)) ∨
       (args ≠ [] ∧
          (strings.ToLower (strings.TrimSpace (strings.Join args [' '])) = "all".toList ∨
            '-' ∈ strings.Join args [' ']))) := by
  obtain ⟨fp, ap, _, _, hr⟩ := ScannerPort.port_buildPorts_ok portFile args r h
  rw [← fileFlag_iff, ← argFlag_iff]
  by_cases hnil : fp ++ ap = []
  · rw [if_pos hnil] at hr
    have h1 : r.isRangeOrAll = true := congrArg PortSet.isRangeOrAll hr
    have h2 : r.defaulted = true := congrArg PortSet.defaulted hr
    rw [h1, h2]
    simp
  · rw [if_neg hnil] at hr
    have h1 : r.isRangeOrAll = (argFlag args || fileFlag portFile) :=
      congrArg PortSet.isRangeOrAll hr
    have h2 : r.defaulted = false := congrArg PortSet.defaulted hr
    rw [h1, h2, Bool.or_eq_true]
    constructor
    · rintro (h | h)
      · exact Or.inr (Or.inr h)
      · exact Or.inr (Or.inl h)
    · rintro (h | h | h)
      · cases h
      · exact Or.inr h
      · exact Or.inl h

/-- C7 at the port file with the lines `# comment`, an empty line and
`8080-8082`: the ports are 8080, 8081, 8082 and the scan is Bulk, by the line
`8080-8082`. -/
theorem C7_witness :
    ScannerPort.buildPorts (some ⟨true, ["# comment".toList, [], "8080-8082".toList], false⟩) [] =
      .ok { ports := [8080, 8081, 8082], isRangeOrAll := true, defaulted := false } ∧
    ((⟨[8080, 8081, 8082], true, false⟩ : PortSet).isRangeOrAll = true ↔
      ((⟨[8080, 8081, 8082], true, false⟩ : PortSet).defaulted = true ∨
       (∃ file, some (⟨true, ["# comment".toList, [], "8080-8082".toList], false⟩ : PortFile) =
            some file ∧ ∃ text ∈ file.lines,
          strings.TrimSpace text ≠ [] ∧
          strings.HasPrefix (strings.TrimSpace text) '#' = false ∧
          (strings.ToLower (strings.TrimSpace text) = "all".toList ∨ '-' ∈ text)) ∨
       (([] : List Str) ≠ [] ∧
          (strings.ToLower (strings.TrimSpace (strings.Join ([] : List Str) [' '])) =
              "all".toList ∨
            '-' ∈ strings.Join ([] : List Str) [' ']))) ) :=
  ⟨by decide,
    C7_scan_mode (some ⟨true, ["# comment".toList, [], "8080-8082".toList], false⟩) []
      ⟨[8080, 8081, 8082], true, false⟩ (by decide)⟩

/-- C8: in `scanner-port`, for every port `p` in `[1, 65535]`, building from
the single positional argument `<p>-<p>` and no file gives the one port `p`
with `isRangeOrAll` true (Bulk), and building from the single positional
argument `<p>` gives the same port with `isRangeOrAll` false (Targeted). -/
theorem C8_mode_from_text (p : Int) (h1 : 1 ≤ p) (h2 : p ≤ 65535) :
    ScannerPort.buildPorts none [strconv.Itoa p ++ '-' :: strconv.Itoa p] =
      .ok { ports := [p], isRangeOrAll := true, defaulted := false } ∧
    ScannerPort.buildPorts none [strconv.Itoa p] =
      .ok { ports := [p], isRangeOrAll := false, defaulted := false } := by
  obtain ⟨hr1, hr2⟩ := ScannerPort.parsePorts_sameRange p h1 h2
  obtain ⟨hs1, hs2⟩ := ScannerPort.parsePorts_Itoa p h1 h2
  have hd : removeDuplicates [p] = [p] := rfl
  constructor
  · have hc : strings.Contains (strconv.Itoa p ++ '-' :: strconv.Itoa p) '-' = true := by
      simp [strings.Contains]
    rw [ScannerPort.buildPorts_single _ [p] hr1 hr2, if_neg (by simp), hd, hc]
    rfl
  · have hc : strings.Contains (strconv.Itoa p) '-' = false := by
      obtain ⟨n, rfl⟩ := Int.eq_ofNat_of_zero_le (by omega : 0 ≤ p)
      have := (toDigits_props n).1
      simpa [strings.Contains, strconv.Itoa_ofNat] using this
    rw [ScannerPort.buildPorts_single _ [p] hs1 hs2, if_neg (by simp), hd, hc]
    rfl

/-- C8 at the port 80: `80-80` is Bulk and `80` is Targeted. -/
theorem C8_witness :
    ScannerPort.buildPorts none ["80-80".toList] =
      .ok { ports := [80], isRangeOrAll := true, defaulted := false } ∧
    ScannerPort.buildPorts none ["80".toList] =
      .ok { ports := [80], isRangeOrAll := false, defaulted := false } :=
  C8_mode_from_text 80 (by decide) (by decide)

/-- C9, the counterexample: with the single positional argument `,`, which
parses to no port, `scanner-port` takes the default and builds all ports,
although a positional argument was given. -/
theorem C9_counterexample :
    ScannerPort.parsePorts ",".toList = .ok [] ∧
    ScannerPort.buildPorts none [",".toList] =
      .ok { ports := fullRange, isRangeOrAll := true, defaulted := true } := by
  have hp : ScannerPort.parsePorts ",".toList = .ok [] := by decide
  refine ⟨hp, ?_⟩
  rw [ScannerPort.buildPorts_single _ [] hp (by decide), if_pos rfl]

/-- C9, amended: in `scanner-port`, whenever the building succeeds, the default
to all ports 1..65535 is taken if and only if the port file and the positional
arguments together give no port; this is so when neither a file nor a
positional argument was given. When the default is not taken, the sequence
is the ports parsed from the file followed by the ports parsed from the
arguments, without duplicates, so each of its ports comes from those sources. -/
theorem C9_default_all (portFile : Option PortFile) (args : List Str) (r : PortSet)
    (h : ScannerPort.buildPorts portFile args = .ok r) :
    ∃ filePorts cmdPorts,
      FilePortsAre ScannerPort.readPortsFromFile portFile filePorts ∧
      ArgPortsAre ScannerPort.parsePorts args cmdPorts ∧
      (r.defaulted = true ↔ filePorts ++ cmdPorts = []) ∧
      (portFile = none → args = [] → r.defaulted = true) ∧
      (r.defaulted = true → r.ports = fullRange ∧ r.isRangeOrAll = true) ∧
      (r.defaulted = false → r.ports = removeDuplicates (filePorts ++ cmdPorts) ∧
        ∀ p ∈ r.ports, p ∈ filePorts ∨ p ∈ cmdPorts) := by
  obtain ⟨fp, ap, hF, hA, hr⟩ := ScannerPort.port_buildPorts_ok portFile args r h
  refine ⟨fp, ap, hF, hA, ?_⟩
  by_cases hnil : fp ++ ap = []
  · rw [if_pos hnil] at hr
    have h1 : r.isRangeOrAll = true := congrArg PortSet.isRangeOrAll hr
    have h2 : r.defaulted = true := congrArg PortSet.defaulted hr
    have h3 : r.ports = fullRange := congrArg PortSet.ports hr
    refine ⟨⟨fun _ => hnil, fun _ => h2⟩, fun _ _ => h2, fun _ => ⟨h3, h1⟩, ?_⟩
    intro hd
    rw [h2] at hd
    cases hd
  · rw [if_neg hnil] at hr
    have h2 : r.defaulted = false := congrArg PortSet.defaulted hr
    have h3 : r.ports = removeDuplicates (fp ++ ap) := congrArg PortSet.ports hr
    refine ⟨⟨?_, fun hn => absurd hn hnil⟩, ?_, ?_, ?_⟩
    · intro hd
      rw [h2] at hd
      cases hd
    · intro hpf hargs
      exfalso
      apply hnil
      subst hpf
      unfold FilePortsAre at hF
      unfold ArgPortsAre at hA
      rw [if_pos hargs] at hA
      simp only at hF
      rw [hF, hA]
      rfl
    · intro hd
      rw [h2] at hd
      cases hd
    · intro _
      refine ⟨h3, ?_⟩
      intro p hp
      rw [h3, mem_removeDuplicates] at hp
      exact List.mem_append.mp hp

/-- C9 at the single positional argument `80`: the default is not taken and the
sequence is the port 80. -/
theorem C9_witness :
    ScannerPort.buildPorts none ["80".toList] =
      .ok { ports := [80], isRangeOrAll := false, defaulted := false } ∧
    ∃ filePorts cmdPorts,
      FilePortsAre ScannerPort.readPortsFromFile none filePorts ∧
      ArgPortsAre ScannerPort.parsePorts ["80".toList] cmdPorts ∧
      ((⟨[80], false, false⟩ : PortSet).defaulted = true ↔ filePorts ++ cmdPorts = []) ∧
      ((none : Option PortFile) = none → ["80".toList] = [] →
        (⟨[80], false, false⟩ : PortSet).defaulted = true) ∧
      ((⟨[80], false, false⟩ : PortSet).defaulted = true →
        (⟨[80], false, false⟩ : PortSet).ports = fullRange ∧
        (⟨[80], false, false⟩ : PortSet).isRangeOrAll = true) ∧
      ((⟨[80], false, false⟩ : PortSet).defaulted = false →
        (⟨[80], false, false⟩ : PortSet).ports = removeDuplicates (filePorts ++ cmdPorts) ∧
        ∀ p ∈ (⟨[80], false, false⟩ : PortSet).ports, p ∈ filePorts ∨ p ∈ cmdPorts) :=
  ⟨by decide, C9_default_all none ["80".toList] ⟨[80], false, false⟩ (by decide)⟩

/-- C10: for every port sequence and every behaviour of the network,
`scanPorts` reports as scanned the length of the sequence, which is the open
count plus the closed count; in `scanner-port` the open count is the length of
the returned list of open ports, and that list is exactly the ports whose
probe connected, in the order of the sequence, hence a subsequence of it. In
`scanner-ip`, which returns no list, the open count is the number of ports
whose probe connected. -/
theorem C10_scan_report (net : Network) (ip : Str) (ports : List Int)
    (resultFile : Option File) (headerWritten : Bool) :
    ((ScannerPort.scanPorts net ip ports resultFile headerWritten).scanned = ports.length ∧
      (ScannerPort.scanPorts net ip ports resultFile headerWritten).scanned =
        (ScannerPort.scanPorts net ip ports resultFile headerWritten).opened +
        (ScannerPort.scanPorts net ip ports resultFile headerWritten).closed ∧
      (ScannerPort.scanPorts net ip ports resultFile headerWritten).opened =
        (ScannerPort.scanPorts net ip ports resultFile headerWritten).openPorts.length ∧
      (ScannerPort.scanPorts net ip ports resultFile headerWritten).openPorts =
        ((ports.enum.filter (fun kp => (net kp.1 kp.2).connected)).map Prod.snd) ∧
      (ScannerPort.scanPorts net ip ports resultFile headerWritten).openPorts.Sublist ports) ∧
    ((ScannerIP.scanPorts net ip ports).scanned = ports.length ∧
      (ScannerIP.scanPorts net ip ports).scanned =
        (ScannerIP.scanPorts net ip ports).opened + (ScannerIP.scanPorts net ip ports).closed ∧
      (ScannerIP.scanPorts net ip ports).opened =
        ((ports.enum.filter (fun kp => (net kp.1 kp.2).connected)).map Prod.snd).length) := by
  have hP := ScannerPort.port_scanLoop_counts net ip 0 ports
    { successCount := 0, failedCount := 0, totalDuration := 0, openPorts := [],
      resultFile := resultFile, headerWritten := headerWritten }
  have hI := ScannerIP.ip_scanLoop_counts net ip 0 ports
    { successCount := 0, failedCount := 0, totalDuration := 0 }
  obtain ⟨p1, p2, p3⟩ := hP
  obtain ⟨i1, i2⟩ := hI
  have hopen : openAmong net 0 ports =
      ((ports.enum.filter (fun kp => (net kp.1 kp.2).connected)).map Prod.snd) := rfl
  simp only [zero_add, List.nil_append] at p1 p2 p3 i1 i2
  unfold ScannerPort.scanPorts ScannerIP.scanPorts
  simp only [p1, p2, p3, i1, i2, ← hopen]
  refine ⟨⟨trivial, ?_, trivial, trivial, openAmong_sublist net 0 ports⟩, trivial, ?_, trivial⟩
  · ring
  · ring

/-- C11: for every port sequence and every behaviour of the network, in both
tools, the average response time is reported if and only if at least one
probe connected; when it is reported it is the sum of the elapsed times of the
probes that connected, as a Go `int64` computes it, divided by their number with
the division that truncates, so the elapsed times of the other probes do not
count and no division by zero is made. When that sum is in the range of
`int64`, as a sum of times that elapsed one after the other in one run is, it
is the exact sum that is divided. -/
theorem C11_average (net : Network) (ip : Str) (ports : List Int)
    (resultFile : Option File) (headerWritten : Bool) :
    ((ScannerPort.scanPorts net ip ports resultFile headerWritten).average.isSome = true ↔
      ∃ kp ∈ ports.enum, (net kp.1 kp.2).connected = true) ∧
    ((ScannerIP.scanPorts net ip ports).average.isSome = true ↔
      ∃ kp ∈ ports.enum, (net kp.1 kp.2).connected = true) ∧
    (ScannerPort.scanPorts net ip ports resultFile headerWritten).average =
      (if (openDurations net ports).length = 0 then none
       else some ((wrap64 (openDurations net ports).sum).tdiv
        ((openDurations net ports).length : Int))) ∧
    (ScannerIP.scanPorts net ip ports).average =
      (if (openDurations net ports).length = 0 then none
       else some ((wrap64 (openDurations net ports).sum).tdiv
        ((openDurations net ports).length : Int))) ∧
    (-9223372036854775808 ≤ (openDurations net ports).sum →
      (openDurations net ports).sum ≤ 9223372036854775807 →
      (ScannerPort.scanPorts net ip ports resultFile headerWritten).average =
        (if (openDurations net ports).length = 0 then none
         else some ((openDurations net ports).sum.tdiv
          ((openDurations net ports).length : Int))) ∧
      (ScannerIP.scanPorts net ip ports).average =
        (if (openDurations net ports).length = 0 then none
         else some ((openDurations net ports).sum.tdiv
          ((openDurations net ports).length : Int)))) := by
  obtain ⟨hP, hI⟩ := scanPorts_average net ip ports resultFile headerWritten
  have hex : (openDurations net ports).length ≠ 0 ↔
      ∃ kp ∈ ports.enum, (net kp.1 kp.2).connected = true := by
    unfold openDurations
    rw [List.length_map, Ne, List.length_eq_zero, List.filter_eq_nil_iff]
    simp
  refine ⟨?_, ?_, hP, hI, ?_⟩
  · rw [hP, ← hex]
    by_cases h0 : (openDurations net ports).length = 0 <;> simp [h0]
  · rw [hI, ← hex]
    by_cases h0 : (openDurations net ports).length = 0 <;> simp [h0]
  · intro h1 h2
    rw [hP, hI, wrap64_of_fits _ h1 h2]
    exact ⟨rfl, rfl⟩

/-- C11 at the ports 1, 2, 3, 4 when the probes of the even ports connect, the
`k`-th probe after `5 + k` nanoseconds: the average is `(6 + 8) / 2 = 7`. -/
theorem C11_witness :
    (ScannerPort.scanPorts (fun k p => ⟨p % 2 == 0, 5 + k, []⟩) [] [1, 2, 3, 4]
        none false).average = some 7 ∧
    (ScannerIP.scanPorts (fun k p => ⟨p % 2 == 0, 5 + k, []⟩) [] [1, 2, 3, 4]).average =
      some 7 ∧
    (ScannerPort.scanPorts (fun _ _ => ⟨false, 5, []⟩) [] [1, 2] none false).average = none :=
  have h := (C11_average (fun k p => ⟨p % 2 == 0, 5 + k, []⟩) [] [1, 2, 3, 4] none false).2.2.2.2
    (by decide) (by decide)
  ⟨h.1, h.2, by decide⟩

/-- C12: in `scanner-port`, starting from a `result.txt` that is missing or
empty, after any number of successive runs for a range or `all`, each with any
network, any target without a newline in it (as every address that `main`
accepts is) and any ports, the writes succeeding, the file is the header of the
first run that recorded an open port followed by one line for each recorded
port; so it has exactly one header line, its first line, of the form
`# Open ports for <ip>`, if an open port was ever recorded, and no header line
otherwise. -/
theorem C12_single_header (runs : List Run) (start : Option Str)
    (hstart : start = none ∨ start = some [])
    (hruns : ∀ r ∈ runs, r.set.isRangeOrAll = true ∧ r.writable = true ∧ '\n' ∉ r.ip) :
    (runAll runs start).getD [] = sinkText runs ∧
    ((∃ r ∈ runs, r.recorded ≠ []) →
      headerCount ((runAll runs start).getD []) = 1 ∧
      ∃ r ∈ runs, r.recorded ≠ [] ∧
        (fileLines ((runAll runs start).getD [])).head? =
          some ("# Open ports for ".toList ++ r.ip)) ∧
    ((∀ r ∈ runs, r.recorded = []) → headerCount ((runAll runs start).getD []) = 0) := by
  have hs : start.getD [] = [] := by
    rcases hstart with rfl | rfl <;> rfl
  have htext := runAll_text runs start hs (fun r hr => ⟨(hruns r hr).1, (hruns r hr).2.1⟩)
  have hlines := fileLines_sinkText runs (fun r hr => (hruns r hr).2.2)
  rw [htext]
  refine ⟨rfl, ?_, ?_⟩
  · rintro ⟨x, hx, hxr⟩
    rcases hlines with ⟨h1, _⟩ | ⟨r, hr, h1, h2⟩
    · exact absurd (h1 x hx) hxr
    · refine ⟨?_, r, hr, h1, ?_⟩
      · unfold headerCount
        rw [h2, List.filter_cons, isHeaderLine_header, if_pos rfl, filter_header_ports]
        rfl
      · rw [h2]
        rfl
  · intro hnone
    rcases hlines with ⟨_, h2⟩ | ⟨r, hr, h1, _⟩
    · unfold headerCount
      rw [h2]
      rfl
    · exact absurd (hnone r hr) h1

/-- C12 at two runs on a missing file, to 1.1.1.1 and then to 2.2.2.2, each on
the ports 1, 2 of which the port 2 is open: the file is one header, for
1.1.1.1, and two lines `2`. -/
theorem C12_witness :
    (runAll
      [⟨fun _ p => ⟨p % 2 == 0, 5, []⟩, "1.1.1.1".toList, ⟨[1, 2], true, false⟩, true, true⟩,
       ⟨fun _ p => ⟨p % 2 == 0, 5, []⟩, "2.2.2.2".toList, ⟨[1, 2], true, false⟩, true, true⟩]
      none).getD [] = "# Open ports for 1.1.1.1\n2\n2\n".toList ∧
    headerCount "# Open ports for 1.1.1.1\n2\n2\n".toList = 1 :=
  have h := C12_single_header
    [⟨fun _ p => ⟨p % 2 == 0, 5, []⟩, "1.1.1.1".toList, ⟨[1, 2], true, false⟩, true, true⟩,
     ⟨fun _ p => ⟨p % 2 == 0, 5, []⟩, "2.2.2.2".toList, ⟨[1, 2], true, false⟩, true, true⟩]
    none (Or.inl rfl) (by decide)
  ⟨h.1, by decide⟩

/-- C13: in `scanner-port`, for every content of `result.txt` before the run,
every port sequence and every behaviour of the network, when the file is
opened as `main` opens it for a range or `all` and its writes succeed, the
file after `scanPorts` has processed any prefix of the sequence is the content
before, followed by the header line if and only if that content was empty and
the prefix has an open port, followed by one decimal line for each open port
of the prefix in the order of discovery; and the scan of the whole sequence
goes on from the state after the prefix. -/
theorem C13_sink_append_only (net : Network) (ip : Str) (disk : Disk) (pre rest : List Int)
    (hopen : disk.opens = true) (hwrite : disk.writable = true) :
    (ScannerPort.scanPorts net ip pre (ScannerPort.openResultFile true disk).1
        (ScannerPort.openResultFile true disk).2).resultFile =
      some { content := disk.resultTxt.getD [] ++
        (if disk.resultTxt.getD [] = [] ∧ openAmong net 0 pre ≠ [] then
          ScannerPort.headerLine ip else []) ++
        ((openAmong net 0 pre).map ScannerPort.portLine).flatten, writable := true } ∧
    (ScannerPort.scanPorts net ip pre (ScannerPort.openResultFile true disk).1
        (ScannerPort.openResultFile true disk).2).resultFile =
      (ScannerPort.scanLoop net ip 0 pre
        (ScannerPort.startState (ScannerPort.openResultFile true disk).1
          (ScannerPort.openResultFile true disk).2)).resultFile ∧
    ScannerPort.scanLoop net ip 0 (pre ++ rest)
        (ScannerPort.startState (ScannerPort.openResultFile true disk).1
          (ScannerPort.openResultFile true disk).2) =
      ScannerPort.scanLoop net ip pre.length rest
        (ScannerPort.scanLoop net ip 0 pre
          (ScannerPort.startState (ScannerPort.openResultFile true disk).1
            (ScannerPort.openResultFile true disk).2)) ∧
    (∀ defaulted : Bool,
      (ScannerPort.scanAndSave net ip
          { ports := pre ++ rest, isRangeOrAll := true, defaulted := defaulted } disk).2.resultTxt =
        some (disk.resultTxt.getD [] ++
          (if disk.resultTxt.getD [] = [] ∧ openAmong net 0 (pre ++ rest) ≠ [] then
            ScannerPort.headerLine ip else []) ++
          ((openAmong net 0 (pre ++ rest)).map ScannerPort.portLine).flatten)) := by
  refine ⟨ScannerPort.scanPorts_bulk_file net ip pre disk hopen hwrite, rfl, ?_, ?_⟩
  · have := ScannerPort.scanLoop_append net ip 0 pre rest
      (ScannerPort.startState (ScannerPort.openResultFile true disk).1
        (ScannerPort.openResultFile true disk).2)
    rwa [Nat.zero_add] at this
  · intro defaulted
    unfold ScannerPort.scanAndSave
    simp only [ScannerPort.scanPorts_bulk_file net ip (pre ++ rest) disk hopen hwrite,
      ScannerPort.diskAfter]

/-- C13 at the file with the content `x`, a newline, and at the missing file,
for the ports 1, 2, 3, 4 of which the even ones are open: after the prefix
1, 2, 3 the file holds the line of the port 2, after a header if it was
missing. -/
theorem C13_witness :
    (ScannerPort.scanPorts (fun _ p => ⟨p % 2 == 0, 5, []⟩) "1.1.1.1".toList [1, 2, 3]
        (ScannerPort.openResultFile true ⟨some "x\n".toList, true, true⟩).1
        (ScannerPort.openResultFile true ⟨some "x\n".toList, true, true⟩).2).resultFile =
      some ⟨"x\n2\n".toList, true⟩ ∧
    (ScannerPort.scanPorts (fun _ p => ⟨p % 2 == 0, 5, []⟩) "1.1.1.1".toList [1, 2, 3]
        (ScannerPort.openResultFile true ⟨none, true, true⟩).1
        (ScannerPort.openResultFile true ⟨none, true, true⟩).2).resultFile =
      some ⟨"# Open ports for 1.1.1.1\n2\n".toList, true⟩ :=
  ⟨(C13_sink_append_only (fun _ p => ⟨p % 2 == 0, 5, []⟩) "1.1.1.1".toList
      ⟨some "x\n".toList, true, true⟩ [1, 2, 3] [4] rfl rfl).1,
    (C13_sink_append_only (fun _ p => ⟨p % 2 == 0, 5, []⟩) "1.1.1.1".toList
      ⟨none, true, true⟩ [1, 2, 3] [4] rfl rfl).1⟩

/-- C14: in `scanner-port`, for every port set whose flag `isRangeOrAll` is
false (a Targeted scan), `main` opens no result file, `scanPorts` is run with a
nil handle and leaves it nil, and `result.txt` after the run is as it was
before, whatever the network does; a handle is opened only when the flag is
true. -/
theorem C14_targeted_leaves_sink (net : Network) (ip : Str) (set : PortSet) (disk : Disk)
    (h : set.isRangeOrAll = false) :
    ScannerPort.openResultFile set.isRangeOrAll disk = (none, false) ∧
    ScannerPort.scanAndSave net ip set disk =
      (ScannerPort.scanPorts net ip set.ports none false, disk) ∧
    (ScannerPort.scanPorts net ip set.ports none false).resultFile = none ∧
    (∀ (portFile : Option PortFile) (args : List Str),
      ScannerPort.buildPorts portFile args = .ok set →
      ScannerPort.main portFile args net ip disk =
        .ok (ScannerPort.scanPorts net ip set.ports none false, disk)) ∧
    (∀ (other : PortSet) (file : File) (headerWritten : Bool),
      ScannerPort.openResultFile other.isRangeOrAll disk = (some file, headerWritten) →
      other.isRangeOrAll = true) := by
  have h1 : ScannerPort.openResultFile set.isRangeOrAll disk = (none, false) := by
    rw [h]
    rfl
  have h3 : (ScannerPort.scanPorts net ip set.ports none false).resultFile = none :=
    ScannerPort.scanLoop_nil_handle net ip 0 set.ports _ rfl
  have h2 : ScannerPort.scanAndSave net ip set disk =
      (ScannerPort.scanPorts net ip set.ports none false, disk) := by
    unfold ScannerPort.scanAndSave
    simp only [h1, h3, ScannerPort.diskAfter]
  refine ⟨h1, h2, h3, ?_, ?_⟩
  · intro portFile args hb
    unfold ScannerPort.main
    rw [hb]
    simp only [h2]
  · intro other file headerWritten ho
    cases hb : other.isRangeOrAll with
    | true => rfl
    | false =>
      rw [hb, ScannerPort.openResultFile_targeted] at ho
      cases ho

/-- C14 at the single port 80, open, with a `result.txt` that holds `x`: the
file is as before. -/
theorem C14_witness :
    (ScannerPort.scanAndSave (fun _ _ => ⟨true, 5, []⟩) "1.1.1.1".toList
        ⟨[80], false, false⟩ ⟨some "x".toList, true, true⟩).2 =
      ⟨some "x".toList, true, true⟩ ∧
    (ScannerPort.scanAndSave (fun _ _ => ⟨true, 5, []⟩) "1.1.1.1".toList
        ⟨[80], false, false⟩ ⟨some "x".toList, true, true⟩).1.openPorts = [80] :=
  have h := (C14_targeted_leaves_sink (fun _ _ => ⟨true, 5, []⟩) "1.1.1.1".toList
    ⟨[80], false, false⟩ ⟨some "x".toList, true, true⟩ rfl).2.1
  ⟨by rw [h], by decide⟩

/-- C15: for every list of lines of a port file that opens and is read without
an error, in both tools, `readPortsFromFile` fails with `no ports found in
file` exactly when no line is left after the lines that, once trimmed, are
empty or begin with `#` are dropped; otherwise its result is `parsePorts` of
the remaining trimmed lines joined by single spaces. Hence a line that is
blank or a comment can be put in or taken out anywhere without a change of
the result. -/
theorem C15_port_file_lines (lines : List Str) :
    (ScannerIP.readPortsFromFile { opens := true, lines := lines, scanFails := false } =
      if keptLines lines = [] then .error .noPortsInFile
      else ScannerIP.parsePorts (strings.Join (keptLines lines) [' '])) ∧
    (ScannerPort.readPortsFromFile { opens := true, lines := lines, scanFails := false } =
      if keptLines lines = [] then .error .noPortsInFile
      else ScannerPort.parsePorts (strings.Join (keptLines lines) [' '])) ∧
    (ScannerIP.readPortsFromFile { opens := true, lines := lines, scanFails := false } =
      .error .noPortsInFile ↔ keptLines lines = []) ∧
    (ScannerPort.readPortsFromFile { opens := true, lines := lines, scanFails := false } =
      .error .noPortsInFile ↔ keptLines lines = []) ∧
    (∀ (before after : List Str) (text : Str), lines = before ++ after →
      (strings.TrimSpace text = [] ∨ strings.HasPrefix (strings.TrimSpace text) '#' = true) →
      ScannerIP.readPortsFromFile
          { opens := true, lines := before ++ text :: after, scanFails := false } =
        ScannerIP.readPortsFromFile { opens := true, lines := lines, scanFails := false } ∧
      ScannerPort.readPortsFromFile
          { opens := true, lines := before ++ text :: after, scanFails := false } =
        ScannerPort.readPortsFromFile { opens := true, lines := lines, scanFails := false }) := by
  obtain ⟨h1, h2⟩ := readPortsFromFile_lines lines
  refine ⟨h1, h2, ?_, ?_, ?_⟩
  · rw [h1]
    constructor
    · intro h
      by_contra hne
      rw [if_neg hne] at h
      exact (parsePorts_ne_noPorts _).1 h
    · intro h
      rw [if_pos h]
  · rw [h2]
    constructor
    · intro h
      by_contra hne
      rw [if_neg hne] at h
      exact (parsePorts_ne_noPorts _).2 h
    · intro h
      rw [if_pos h]
  · intro before after text hl hskip
    obtain ⟨g1, g2⟩ := readPortsFromFile_lines (before ++ text :: after)
    have hk : keptLines (before ++ text :: after) = keptLines lines := by
      rw [hl, show before ++ text :: after = before ++ ([text] ++ after) from rfl,
        keptLines_append, keptLines_append, keptLines_skip text hskip, List.nil_append,
        keptLines_append]
    rw [g1, g2, h1, h2, hk]
    exact ⟨rfl, rfl⟩

/-- C15 at the lines `# comment`, an empty line and `8080-8082`, which give
8080, 8081, 8082, with or without the comment line. -/
theorem C15_witness :
    ScannerIP.readPortsFromFile ⟨true, ["# comment".toList, [], "8080-8082".toList], false⟩ =
      .ok [8080, 8081, 8082] ∧
    ScannerPort.readPortsFromFile ⟨true, ["# comment".toList, [], "8080-8082".toList], false⟩ =
      .ok [8080, 8081, 8082] ∧
    (ScannerIP.readPortsFromFile
        ⟨true, [] ++ "# comment".toList :: [[], "8080-8082".toList], false⟩ =
      ScannerIP.readPortsFromFile ⟨true, [[], "8080-8082".toList], false⟩ ∧
     ScannerPort.readPortsFromFile
        ⟨true, [] ++ "# comment".toList :: [[], "8080-8082".toList], false⟩ =
      ScannerPort.readPortsFromFile ⟨true, [[], "8080-8082".toList], false⟩) :=
  ⟨by decide, by decide,
    (C15_port_file_lines [[], "8080-8082".toList]).2.2.2.2 [] [[], "8080-8082".toList]
      "# comment".toList rfl (Or.inr (by decide))⟩

/-- C16, the counterexample: on the text `all` the two parsers differ:
`scanner-port` returns all ports, `scanner-ip` fails with `invalid port: all`. -/
theorem C16_counterexample :
    ScannerPort.parsePorts "all".toList = .ok fullRange ∧
    ScannerIP.parsePorts "all".toList = .error (.invalidPort "all".toList) :=
  parsePorts_all [] [] 'a' 'l' 'l' (fun _ h => absurd h (List.not_mem_nil _))
    (fun _ h => absurd h (List.not_mem_nil _)) (Or.inl rfl) (Or.inl rfl) (Or.inl rfl)

/-- C16, amended: for every text that is not the keyword `all` (once trimmed,
in any letter case), `parsePorts` of `scanner-port` and `parsePorts` of
`scanner-ip` give the same result, the same ports or the same error; on the
keyword, `scanner-port` returns all ports 1..65535 and `scanner-ip` fails with
the invalid-port error. -/
theorem C16_parsers_agree (s : Str) :
    (¬ strings.ToLower (strings.TrimSpace s) = "all".toList →
      ScannerPort.parsePorts s = ScannerIP.parsePorts s) ∧
    (strings.ToLower (strings.TrimSpace s) = "all".toList →
      ScannerPort.parsePorts s = .ok fullRange ∧
      ScannerIP.parsePorts s = .error (.invalidPort (strings.TrimSpace s))) := by
  constructor
  · intro h
    rw [ScannerPort.parsePorts_eq, if_neg h]
  · intro h
    obtain ⟨pre, post, x, y, z, hs, hpre, hpost, hx, hy, hz⟩ := strings.keyword_decomp s h
    have hxs : unicode.IsSpace x = false := by rcases hx with rfl | rfl <;> decide
    have hzs : unicode.IsSpace z = false := by rcases hz with rfl | rfl <;> decide
    have ht : strings.TrimSpace s = [x, y, z] := by
      rw [hs]
      exact strings.TrimSpace_pad pre post [y, z] [y, x] x z hpre hpost hxs hzs rfl
    rw [ht, hs]
    exact parsePorts_all pre post x y z hpre hpost hx hy hz

/-- C16 at the text `80,443`, on which the parsers agree, and at ` All `, on
which they do not. -/
theorem C16_witness :
    ScannerPort.parsePorts "80,443".toList = ScannerIP.parsePorts "80,443".toList ∧
    (ScannerPort.parsePorts " All ".toList = .ok fullRange ∧
      ScannerIP.parsePorts " All ".toList =
        .error (.invalidPort (strings.TrimSpace " All ".toList))) :=
  ⟨(C16_parsers_agree "80,443".toList).1 (by decide),
    (C16_parsers_agree " All ".toList).2 (by decide)⟩

/-- C17: for every two texts `a` and `b`, neither of them the keyword `all`,
in both tools, `parsePorts` of `a`, a space, `b` and of `a`, a comma, `b` is
the two parses put together: it succeeds exactly when `parsePorts` of `a` and
of `b` both succeed, with the ports of `a` followed by the ports of `b`,
duplicates kept, and it fails with the error of `a` if `parsePorts` of `a`
fails, else with the error of `b`. -/
theorem C17_tokens_independent (a b : Str)
    (ha : ¬ strings.ToLower (strings.TrimSpace a) = "all".toList)
    (hb : ¬ strings.ToLower (strings.TrimSpace b) = "all".toList) :
    ScannerIP.parsePorts (a ++ ' ' :: b) =
      bothParsed (ScannerIP.parsePorts a) (ScannerIP.parsePorts b) ∧
    ScannerIP.parsePorts (a ++ ',' :: b) =
      bothParsed (ScannerIP.parsePorts a) (ScannerIP.parsePorts b) ∧
    ScannerPort.parsePorts (a ++ ' ' :: b) =
      bothParsed (ScannerPort.parsePorts a) (ScannerPort.parsePorts b) ∧
    ScannerPort.parsePorts (a ++ ',' :: b) =
      bothParsed (ScannerPort.parsePorts a) (ScannerPort.parsePorts b) ∧
    (∀ (ra rb : Except PortError (List Int)) (r : List Int),
      bothParsed ra rb = .ok r ↔ ∃ pa pb, ra = .ok pa ∧ rb = .ok pb ∧ r = pa ++ pb) ∧
    (∀ (e : PortError) (rb : Except PortError (List Int)),
      bothParsed (.error e) rb = .error e) := by
  have hsp := ScannerIP.parsePorts_sep a b ' ' (Or.inl rfl)
  have hco := ScannerIP.parsePorts_sep a b ',' (Or.inr rfl)
  refine ⟨hsp, hco, ?_, ?_, bothParsed_ok, fun _ _ => rfl⟩
  · rw [ScannerPort.parsePorts_eq, ScannerPort.parsePorts_eq a, ScannerPort.parsePorts_eq b,
      if_neg ha, if_neg hb, if_neg]
    · exact hsp
    · intro h
      rcases keyword_of_space_join a b h with h | h
      · exact ha h
      · exact hb h
  · rw [ScannerPort.parsePorts_eq, ScannerPort.parsePorts_eq a, ScannerPort.parsePorts_eq b,
      if_neg ha, if_neg hb, if_neg (not_keyword_of_comma _ (by simp))]
    exact hco

/-- C17 at `80` and `80`: `80 80` and `80,80` give 80, 80; and at `x` and
`80`: the error of `x`. -/
theorem C17_witness :
    (ScannerPort.parsePorts "80 80".toList = .ok [80, 80] ∧
      ScannerPort.parsePorts "80,80".toList = .ok [80, 80] ∧
      ScannerIP.parsePorts "80 80".toList = .ok [80, 80] ∧
      ScannerIP.parsePorts "80,80".toList = .ok [80, 80]) ∧
    ScannerPort.parsePorts "x 80".toList = .error (.invalidPort "x".toList) :=
  have h1 := C17_tokens_independent "80".toList "80".toList (by decide) (by decide)
  have h2 := C17_tokens_independent "x".toList "80".toList (by decide) (by decide)
  ⟨⟨h1.2.2.1, h1.2.2.2.1, h1.1, h1.2.1⟩, h2.2.2.1⟩

/-- C18: for every text that consists of white space and commas only, the
empty text included, `parsePorts` succeeds and returns no port, in both
tools. -/
theorem C18_blank_spec (s : Str) (h : ∀ c ∈ s, unicode.IsSpace c = true ∨ c = ',') :
    ScannerIP.parsePorts s = .ok [] ∧ ScannerPort.parsePorts s = .ok [] := by
  have hip : ScannerIP.parsePorts s = .ok [] := by
    unfold ScannerIP.parsePorts
    simp only [Fields_blank s h]
    rfl
  refine ⟨hip, ?_⟩
  rw [ScannerPort.parsePorts_of_no_a s, hip]
  intro c hc
  rcases h c hc with h1 | rfl
  · constructor
    · rintro rfl
      exact absurd h1 (by decide)
    · rintro rfl
      exact absurd h1 (by decide)
  · exact ⟨by decide, by decide⟩

/-- C18 at the empty text and at the text of a space, a comma, a tab and a
comma. -/
theorem C18_witness :
    (ScannerIP.parsePorts [] = .ok [] ∧ ScannerPort.parsePorts [] = .ok []) ∧
    (ScannerIP.parsePorts [' ', ',', Char.ofNat 9, ','] = .ok [] ∧
      ScannerPort.parsePorts [' ', ',', Char.ofNat 9, ','] = .ok []) :=
  ⟨C18_blank_spec [] (by decide), C18_blank_spec [' ', ',', Char.ofNat 9, ','] (by decide)⟩

/-- C19, the counterexample: the text `0 all` has two tokens, one of them
`all`, and `parsePorts` of `scanner-port` fails on the token `0` with the
out-of-range error, not with the invalid-port error. -/
theorem C19_counterexample :
    strings.Fields (strings.ReplaceAll "0 all".toList ',' ' ') = ["0".toList, "all".toList] ∧
    ScannerPort.parsePorts "0 all".toList = .error (.portOutOfRange 0) ∧
    (PortError.portOutOfRange 0).kind ≠ ErrorKind.InvalidPort := by
  decide

/-- C19, amended: for every text that splits, on white space and commas, into
two or more tokens, or that has a comma, and has a token `all` in some letter
case, `parsePorts` of `scanner-port` fails and returns no ports: with the
error of an earlier token if one fails, and else with the invalid-port error
for the token `all`. A port file with the lines `all` and `80` is rejected
with that error. -/
theorem C19_all_among_tokens (s : Str) (before after : List Str) (t : Str)
    (htok : strings.Fields (strings.ReplaceAll s ',' ' ') = before ++ t :: after)
    (ht : strings.ToLower t = "all".toList)
    (hmany : 2 ≤ (strings.Fields (strings.ReplaceAll s ',' ' ')).length ∨ ',' ∈ s) :
    (∃ e, ScannerPort.parsePorts s = .error e) ∧
    (∀ ports, parseParts before [] = .ok ports →
      ScannerPort.parsePorts s = .error (.invalidPort t)) ∧
    (∀ e, parseParts before [] = .error e → ScannerPort.parsePorts s = .error e) ∧
    ScannerPort.readPortsFromFile ⟨true, ["all".toList, "80".toList], false⟩ =
      .error (.invalidPort "all".toList) ∧
    ScannerPort.buildPorts (some ⟨true, ["all".toList, "80".toList], false⟩) [] =
      .error (.readingFile (.invalidPort "all".toList)) := by
  have hnk : ¬ strings.ToLower (strings.TrimSpace s) = "all".toList := by
    intro hk
    obtain ⟨hc, u, hf, _⟩ := keyword_props s hk
    rcases hmany with h2 | h2
    · rw [strings.ReplaceAll_absent s ',' ' ' hc, hf] at h2
      simp at h2
    · exact hc h2
  have hp : ScannerPort.parsePorts s =
      match parseParts before [] with
      | .error e => .error e
      | .ok _ => .error (.invalidPort t) := by
    rw [ScannerPort.parsePorts_eq, if_neg hnk]
    unfold ScannerIP.parsePorts
    simp only [htok, parseParts_append]
    cases parseParts before [] with
    | error e => rfl
    | ok r =>
      simp only [parseParts, parsePart_all t r ht]
  refine ⟨?_, ?_, ?_, by decide, by decide⟩
  · rw [hp]
    cases parseParts before [] with
    | error e => exact ⟨e, rfl⟩
    | ok r => exact ⟨_, rfl⟩
  · intro ports h
    rw [hp, h]
  · intro e h
    rw [hp, h]

/-- C19 at the texts `all 80`, `80,all` and `all,`. -/
theorem C19_witness :
    ScannerPort.parsePorts "all 80".toList = .error (.invalidPort "all".toList) ∧
    ScannerPort.parsePorts "80,all".toList = .error (.invalidPort "all".toList) ∧
    ScannerPort.parsePorts "all,".toList = .error (.invalidPort "all".toList) :=
  ⟨(C19_all_among_tokens "all 80".toList [] ["80".toList] "all".toList (by decide) (by decide)
      (by decide)).2.1 [] (by decide),
    (C19_all_among_tokens "80,all".toList ["80".toList] [] "all".toList (by decide) (by decide)
      (by decide)).2.1 [80] (by decide),
    (C19_all_among_tokens "all,".toList [] [] "all".toList (by decide) (by decide)
      (by decide)).2.1 [] (by decide)⟩

end OrcCli
